import Mathlib

/-!
# Fiber job system: ring buffer, wait list and completion handoff

A shallow embedding of `src/Fibers` (`SpinLock.h`, `AtomicRingBuffer.h`,
`JobSystem.h`, `JobSystem.cpp`, and the way the job functions of `Main.cpp` call into the
scheduler) together with the properties proved about it.

Conventions of the embedding.

* Pointers (`FiberHandle`, `Counter*`, `UsedFiber*`, function pointers) are natural
  numbers, `0` being `nullptr`.
* `size_t` indices of a ring buffer stay below its capacity, so they are plain `Nat`;
  the one place where `size_t` wraps (`Capacity()` of a zero-capacity buffer) and the
  `uint32_t` counter decrement carry an explicit modulus.
* A function is run sequentially (no other thread takes a step in between) and yields a
  `Run`: it completes, it aborts on an `assert`, or it busy-waits for ever on a spin lock
  that is held.  Each outcome carries the state reached.
* Interleavings of two threads are modelled separately, as a step function over the same
  primitive operations (section "Interleaving").
* Job functions are user code and a parameter of the embedding.  `JobCode` is the effect of
  a function that only computes; `JobBody` lists the calls a function makes into the
  scheduler, and a thread is then followed through the fiber switches these calls cause
  (section "Job functions that call into the scheduler").
-/

namespace Fibers

/-! ## Outcomes of a sequential run -/

/-- Outcome of running a piece of the source sequentially from a given state. -/
inductive Run (α σ : Type) where
  /-- ran to its end, producing `a` in state `s` -/
  | done (a : α) (s : σ)
  /-- an `assert` fired in state `s`; the process aborts there -/
  | assertFailed (s : σ)
  /-- `SpinLock::Lock` found the lock held in state `s`; alone, the caller spins for ever -/
  | spins (s : σ)

/-- State in which a run ends. -/
def Run.state {α σ : Type} : Run α σ → σ
  | .done _ s => s
  | .assertFailed s => s
  | .spins s => s

/-- Sequencing: continue with `f` when the first part completed. -/
def Run.bind {α β σ : Type} (r : Run α σ) (f : α → σ → Run β σ) : Run β σ :=
  match r with
  | .done a s => f a s
  | .assertFailed s => .assertFailed s
  | .spins s => .spins s

/-- Transport of the state component (a member's run seen from the enclosing object). -/
def Run.lift {α σ τ : Type} (r : Run α σ) (g : σ → τ) : Run α τ :=
  match r with
  | .done a s => .done a (g s)
  | .assertFailed s => .assertFailed (g s)
  | .spins s => .spins (g s)

/-! ## SpinLock.h -/

/-- `class SpinLock`: one atomic boolean. -/
structure SpinLock where
  mLock : Bool := false
deriving DecidableEq, Repr, Inhabited

/-- `SpinLock::Lock`: the inner loop spins while `mLock` reads true; the exchange
succeeds on a free lock.  `none` stands for spinning (the lock is held). -/
def SpinLock.Lock (l : SpinLock) : Option SpinLock :=
  if l.mLock then none else some { mLock := true }

/-- `SpinLock::Unlock`: `mLock.store(false)`. -/
def SpinLock.Unlock (_l : SpinLock) : SpinLock :=
  { mLock := false }

/-! ## AtomicRingBuffer.h -/

/-- `class AtomicRingBuffer<T>`. -/
structure AtomicRingBuffer (T : Type) where
  mQueue : List T
  mCapacity : Nat
  mWriterSpinLock : SpinLock
  mReaderSpinLock : SpinLock
  mHead : Nat
  mTail : Nat

/-- Constructor `AtomicRingBuffer(size_t capacity)`: `new T[capacity]`, head and tail 0. -/
def AtomicRingBuffer.new {T : Type} [Inhabited T] (capacity : Nat) : AtomicRingBuffer T :=
  { mQueue := List.replicate capacity default
    mCapacity := capacity
    mWriterSpinLock := {}
    mReaderSpinLock := {}
    mHead := 0
    mTail := 0 }

/-- `AtomicRingBuffer::PushBack`. -/
def AtomicRingBuffer.PushBack {T : Type} (rb : AtomicRingBuffer T) (data : T) :
    Run Unit (AtomicRingBuffer T) :=
  -- std::lock_guard<SpinLock> guard(mWriterSpinLock);
  match rb.mWriterSpinLock.Lock with
  | none => .spins rb
  | some held =>
    let rb := { rb with mWriterSpinLock := held }
    -- size_t next = (mHead + 1) % mCapacity;
    let next := (rb.mHead + 1) % rb.mCapacity
    -- assert(next != mTail);
    if next = rb.mTail then .assertFailed rb
    else
      -- mQueue[mHead] = data;
      let rb := { rb with mQueue := rb.mQueue.set rb.mHead data }
      -- mHead = next;
      let rb := { rb with mHead := next }
      .done () { rb with mWriterSpinLock := rb.mWriterSpinLock.Unlock }

/-- `AtomicRingBuffer::PopFront`. -/
def AtomicRingBuffer.PopFront {T : Type} [Inhabited T] (rb : AtomicRingBuffer T) :
    Run (Option T) (AtomicRingBuffer T) :=
  -- if (mHead != mTail)
  if rb.mHead ≠ rb.mTail then
    -- std::lock_guard<SpinLock> guard(mReaderSpinLock);
    match rb.mReaderSpinLock.Lock with
    | none => .spins rb
    | some held =>
      let rb := { rb with mReaderSpinLock := held }
      -- if (mHead != mTail)
      if rb.mHead ≠ rb.mTail then
        -- T data = mQueue[mTail];
        let data := rb.mQueue.getD rb.mTail default
        -- mTail = (mTail + 1) % mCapacity;
        let rb := { rb with mTail := (rb.mTail + 1) % rb.mCapacity }
        -- return data;
        .done (some data) { rb with mReaderSpinLock := rb.mReaderSpinLock.Unlock }
      else
        .done none { rb with mReaderSpinLock := rb.mReaderSpinLock.Unlock }
  else
    -- return std::nullopt;
    .done none rb

/-- `AtomicRingBuffer::Capacity`: `mCapacity - 1` in `size_t` (64-bit) arithmetic. -/
def AtomicRingBuffer.Capacity {T : Type} (rb : AtomicRingBuffer T) : Nat :=
  (rb.mCapacity + 2 ^ 64 - 1) % 2 ^ 64

/-- Number of elements held: the distance from `mTail` forward to `mHead`. -/
def AtomicRingBuffer.held {T : Type} (rb : AtomicRingBuffer T) : Nat :=
  (rb.mHead + rb.mCapacity - rb.mTail) % rb.mCapacity

/-- Elements held, oldest first: the slots from `mTail` up to `mHead`, wrapping. -/
def AtomicRingBuffer.contents {T : Type} [Inhabited T] (rb : AtomicRingBuffer T) : List T :=
  (List.range rb.held).map fun i => rb.mQueue.getD ((rb.mTail + i) % rb.mCapacity) default

/-- Shape of a ring buffer between calls: the array has `mCapacity` slots, both indices
are inside it and neither lock is held. -/
structure AtomicRingBuffer.WF {T : Type} (rb : AtomicRingBuffer T) : Prop where
  cap_pos : 0 < rb.mCapacity
  slots : rb.mQueue.length = rb.mCapacity
  head_lt : rb.mHead < rb.mCapacity
  tail_lt : rb.mTail < rb.mCapacity
  writer_free : rb.mWriterSpinLock.mLock = false
  reader_free : rb.mReaderSpinLock.mLock = false

/-- One call of a sequential client of the ring buffer. -/
inductive RingOp (T : Type) where
  | push (v : T)
  | pop

/-- Sequential client: runs the calls in order on the buffer, collecting what each
`PopFront` returned.  Stops at the first call that does not complete. -/
def runRing {T : Type} [Inhabited T] :
    List (RingOp T) → AtomicRingBuffer T → Run (List (Option T)) (AtomicRingBuffer T)
  | [], rb => .done [] rb
  | .push v :: ops, rb =>
    (rb.PushBack v).bind fun _ rb1 => runRing ops rb1
  | .pop :: ops, rb =>
    (rb.PopFront).bind fun r rb1 =>
      (runRing ops rb1).bind fun rs rb2 => .done (r :: rs) rb2

/-- Reference FIFO queue (a list, oldest element first) driven by the same calls:
the queue after the calls. -/
def fifoAfter {T : Type} : List (RingOp T) → List T → List T
  | [], q => q
  | .push v :: ops, q => fifoAfter ops (q ++ [v])
  | .pop :: ops, q => fifoAfter ops q.tail

/-- Reference FIFO queue: what each pop returns, the oldest element or nothing. -/
def fifoOutputs {T : Type} : List (RingOp T) → List T → List (Option T)
  | [], _ => []
  | .push v :: ops, q => fifoOutputs ops (q ++ [v])
  | .pop :: ops, q => q.head? :: fifoOutputs ops q.tail

/-- No `push` of the call sequence is made while the reference queue holds `limit`
elements. -/
def neverPushesAt {T : Type} (limit : Nat) : List (RingOp T) → List T → Bool
  | [], _ => true
  | .push v :: ops, q => decide (q.length ≠ limit) && neverPushesAt limit ops (q ++ [v])
  | .pop :: ops, q => neverPushesAt limit ops q.tail

/-- A call sequence on a 3-slot buffer whose head and tail both wrap around. -/
def wrappingCalls : List (RingOp Nat) :=
  [.push 1, .push 2, .pop, .push 3, .pop, .push 4, .pop, .pop, .pop, .push 5]

/-! ## JobSystem.h -/

/-- `struct JobDecl`: function pointer, parameter, counter pointer. -/
structure JobDecl where
  mFunction : Nat := 0
  mParam : Nat := 0
  mCounter : Nat := 0
deriving DecidableEq, Repr, Inhabited

/-- `struct JobSystem::Args` (`uint8_t`, `uint16_t`, `uint32_t`, `size_t`). -/
structure Args where
  mNumThreads : Nat
  mNumFibers : Nat := 512
  mFiberStackSize : Nat := 512 * 1024
  mQueueSize : Nat := 1024
deriving DecidableEq, Repr

/-- `struct UsedFiber` (JobSystem.cpp): the waiting fiber and the lock that is held until
that fiber has switched away. -/
structure UsedFiber where
  fiber : Nat := 0
  lock : SpinLock := {}
deriving DecidableEq, Repr, Inhabited

/-- The three `thread_local` variables of JobSystem.cpp, as seen by one thread. -/
structure ThreadLocals where
  tCurrentFiber : Nat := 0
  tFiberToBeUnlockedAfterSwitch : Nat := 0
  tFiberToBeAddedToPool : Nat := 0
deriving DecidableEq, Repr, Inhabited

/-- The spin locks whose use is recorded in the trace. -/
inductive LockId where
  | waitList
  | usedFiber (p : Nat)
deriving DecidableEq, Repr

/-- Observable events of the scheduler, recorded in program order. -/
inductive Event where
  /-- `job.mFunction(job.mParam)` -/
  | call (fn param : Nat)
  /-- a `Lock()` that succeeded -/
  | acquire (l : LockId)
  /-- an `Unlock()` -/
  | release (l : LockId)
  /-- `mWaitList[counter] = p` -/
  | waitListInsert (counter p : Nat)
  /-- `mWaitList.erase(counter)` -/
  | waitListErase (counter : Nat)
  /-- `SwitchToFiber(h)` -/
  | switchTo (h : Nat)
deriving DecidableEq, Repr

/-- `class JobSystem`, with the memory it reaches through pointers: the caller-owned
counters, the `UsedFiber` records living in the call frames of waiting fibers, and the
thread-local variables of each thread.  `mThreads` is the size of the thread vector.
`trace` is the history of events. -/
structure JobSystem where
  mThreads : Nat
  mFiberPool : AtomicRingBuffer Nat
  mJobQueue : AtomicRingBuffer JobDecl
  mWaitListLock : SpinLock
  mWaitList : List (Nat × Nat)
  mShutDown : Bool
  counters : Nat → Nat
  usedFibers : Nat → UsedFiber
  tls : Nat → ThreadLocals
  trace : List Event

/-- Effect of calling a job function on the counters (the memory user code shares with the
scheduler): `code fn param` is what `fn(param)` does.  Job functions reach the scheduler
state proper only through `RunJobs` and `WaitForCounter`; the calls a function makes to
these are listed by a `JobBody`. -/
abbrev JobCode := Nat → Nat → (Nat → Nat) → (Nat → Nat)

/-- The fiber primitives of the operating system: the handle returned by the `k`-th call of
`CreateFiber` and the one `ConvertThreadToFiber` returns on thread `i`. -/
structure FiberApi where
  CreateFiber : Nat → Nat
  ConvertThreadToFiber : Nat → Nat

/-- How control leaves a scheduler function: it returns to its caller, or it calls
`SwitchToFiber(to)` and stays suspended at that call. -/
inductive Ctl where
  | returned
  | switched (target : Nat)
deriving DecidableEq, Repr

/-! ### The wait list: `std::unordered_map<Counter*, UsedFiber*>` -/

/-- `mWaitList.find(counter)`: the mapped record, if any. -/
def WaitList.find (wl : List (Nat × Nat)) (counter : Nat) : Option Nat :=
  wl.lookup counter

/-- `mWaitList.erase(counter)`. -/
def WaitList.erase (wl : List (Nat × Nat)) (counter : Nat) : List (Nat × Nat) :=
  wl.filter fun e => e.1 != counter

/-- `mWaitList[counter] = p`: the key maps to `p` only. -/
def WaitList.assign (wl : List (Nat × Nat)) (counter p : Nat) : List (Nat × Nat) :=
  (counter, p) :: WaitList.erase wl counter

/-! ### Primitive operations on the scheduler state -/

/-- Append an event to the trace. -/
def JobSystem.log (s : JobSystem) (e : Event) : JobSystem :=
  { s with trace := s.trace ++ [e] }

/-- Store to the thread-local variables of thread `t`. -/
def JobSystem.setTls (s : JobSystem) (t : Nat) (v : ThreadLocals) : JobSystem :=
  { s with tls := Function.update s.tls t v }

/-- Store to the `UsedFiber` record at address `p`. -/
def JobSystem.setUsedFiber (s : JobSystem) (p : Nat) (v : UsedFiber) : JobSystem :=
  { s with usedFibers := Function.update s.usedFibers p v }

/-- Store to the counter at address `c`. -/
def JobSystem.setCounter (s : JobSystem) (c v : Nat) : JobSystem :=
  { s with counters := Function.update s.counters c v }

/-- `mWaitListLock.Lock()`. -/
def JobSystem.lockWaitList (s : JobSystem) : Run Unit JobSystem :=
  match s.mWaitListLock.Lock with
  | none => .spins s
  | some held => .done () (({ s with mWaitListLock := held }).log (.acquire .waitList))

/-- `mWaitListLock.Unlock()`. -/
def JobSystem.unlockWaitList (s : JobSystem) : JobSystem :=
  ({ s with mWaitListLock := s.mWaitListLock.Unlock }).log (.release .waitList)

/-- `p->lock.Lock()` on the `UsedFiber` record at `p`. -/
def JobSystem.lockUsedFiber (s : JobSystem) (p : Nat) : Run Unit JobSystem :=
  match (s.usedFibers p).lock.Lock with
  | none => .spins s
  | some held =>
    .done () ((s.setUsedFiber p { (s.usedFibers p) with lock := held }).log
      (.acquire (.usedFiber p)))

/-- `p->lock.Unlock()` on the `UsedFiber` record at `p`. -/
def JobSystem.unlockUsedFiber (s : JobSystem) (p : Nat) : JobSystem :=
  (s.setUsedFiber p { (s.usedFibers p) with lock := (s.usedFibers p).lock.Unlock }).log
    (.release (.usedFiber p))

/-- `mWaitList[counter] = &usedFiber`. -/
def JobSystem.waitListAssign (s : JobSystem) (counter p : Nat) : JobSystem :=
  ({ s with mWaitList := WaitList.assign s.mWaitList counter p }).log
    (.waitListInsert counter p)

/-- `mWaitList.erase(counter)`. -/
def JobSystem.waitListErase (s : JobSystem) (counter : Nat) : JobSystem :=
  ({ s with mWaitList := WaitList.erase s.mWaitList counter }).log (.waitListErase counter)

/-- `SwitchToFiber(h)`: control of the thread passes to fiber `h`. -/
def JobSystem.switchTo (s : JobSystem) (h : Nat) : JobSystem :=
  s.log (.switchTo h)

/-! ## JobSystem.cpp -/

/-- `ThreadWorkerEntry`, first statement, on thread `i`:
`tCurrentFiber = ConvertThreadToFiber(nullptr)`. -/
def ThreadWorkerEntry.convert (os : FiberApi) (i : Nat) (s : JobSystem) : JobSystem :=
  s.setTls i { (s.tls i) with tCurrentFiber := os.ConvertThreadToFiber i }

/-- First loop of the constructor, iterations `i, i+1, ...` (`n` of them): thread `i` is
started and enters `ThreadWorkerEntry`. -/
def JobSystem.startThreads (os : FiberApi) : Nat → Nat → JobSystem → JobSystem
  | 0, _, s => s
  | n + 1, i, s => JobSystem.startThreads os n (i + 1) (ThreadWorkerEntry.convert os i s)

/-- Second loop of the constructor, iterations `i, i+1, ...` (`n` of them):
`mFiberPool.PushBack(CreateFiber(...))`. -/
def JobSystem.fillPool (os : FiberApi) : Nat → Nat → JobSystem → Run Unit JobSystem
  | 0, _, s => .done () s
  | n + 1, i, s =>
    ((s.mFiberPool.PushBack (os.CreateFiber i)).lift fun rb => { s with mFiberPool := rb }).bind
      fun _ s1 => JobSystem.fillPool os n (i + 1) s1

/-- `JobSystem::JobSystem(const Args& args)`. -/
def JobSystem.new (os : FiberApi) (args : Args) : Run Unit JobSystem :=
  let s : JobSystem :=
    { mThreads := args.mNumThreads
      mFiberPool := AtomicRingBuffer.new args.mNumFibers
      mJobQueue := AtomicRingBuffer.new args.mQueueSize
      mWaitListLock := {}
      mWaitList := []
      mShutDown := false
      counters := fun _ => 0
      usedFibers := fun _ => {}
      tls := fun _ => {}
      trace := [] }
  -- for (int i = 0; i < mThreads.size(); ++i) mThreads[i] = std::thread(ThreadWorkerEntry, this)
  let s := JobSystem.startThreads os s.mThreads 0 s
  -- for (int i = 0; i < mFiberPool.Capacity(); ++i) mFiberPool.PushBack(CreateFiber(...))
  JobSystem.fillPool os s.mFiberPool.Capacity 0 s

/-- Loop of `RunJobs`, iterations `i, i+1, ...` (`n` of them):
`jobs[i].mCounter = counter; mJobQueue.PushBack(jobs[i])`.  The array is returned as the
loop leaves it. -/
def RunJobs.loop (counter : Nat) :
    Nat → Nat → (Nat → JobDecl) → JobSystem → Run (Nat → JobDecl) JobSystem
  | 0, _, jobs, s => .done jobs s
  | n + 1, i, jobs, s =>
    let jobs := Function.update jobs i { (jobs i) with mCounter := counter }
    ((s.mJobQueue.PushBack (jobs i)).lift fun rb => { s with mJobQueue := rb }).bind
      fun _ s1 => RunJobs.loop counter n (i + 1) jobs s1

/-- `JobSystem::RunJobs(JobDecl* jobs, uint32_t numOfJobs, Counter* counter)`.  The array
pointer is `none` when null; `numOfJobs` is a `uint32_t`. -/
def RunJobs (jobs : Option (Nat → JobDecl)) (numOfJobs counter : Nat) (s : JobSystem) :
    Run (Nat → JobDecl) JobSystem :=
  match jobs with
  -- assert(jobs != nullptr)
  | none => .assertFailed s
  | some jobs =>
    -- assert(counter != nullptr)
    if counter = 0 then .assertFailed s
    else
      -- *counter = numOfJobs;
      let s := s.setCounter counter numOfJobs
      RunJobs.loop counter numOfJobs 0 jobs s

/-- `WaitForCounter`, lines 68-74: the record is built in the call frame at address `frame`
and its lock is taken. -/
def WaitForCounter.enter (t frame counter : Nat) (s : JobSystem) : Run Unit JobSystem :=
  -- assert(counter != nullptr)
  if counter = 0 then .assertFailed s
  else
    -- UsedFiber usedFiber{ tCurrentFiber };
    let s := s.setUsedFiber frame { fiber := (s.tls t).tCurrentFiber, lock := {} }
    -- usedFiber.lock.Lock();
    (s.lockUsedFiber frame).bind fun _ s =>
      -- assert(tCurrentFiber != nullptr);
      if (s.tls t).tCurrentFiber = 0 then .assertFailed s else .done () s

/-- `WaitForCounter`, lines 75-77: add itself to the wait list. -/
def WaitForCounter.enlist (frame counter : Nat) (s : JobSystem) : Run Unit JobSystem :=
  s.lockWaitList.bind fun _ s =>
    .done () (s.waitListAssign counter frame).unlockWaitList

/-- `WaitForCounter`, lines 102-107: take a fiber from the pool and publish the record for
the fiber switched to. -/
def WaitForCounter.takeFiber (t frame : Nat) (s : JobSystem) : Run Nat JobSystem :=
  -- std::optional<FiberHandle> workerFiber = mFiberPool.PopFront();
  (s.mFiberPool.PopFront.lift fun rb => { s with mFiberPool := rb }).bind fun workerFiber s =>
    match workerFiber with
    -- assert(workerFiber.has_value())
    | none => .assertFailed s
    | some h =>
      -- tCurrentFiber = workerFiber.value();
      let s := s.setTls t { (s.tls t) with tCurrentFiber := h }
      -- tFiberToBeUnlockedAfterSwitch = &usedFiber;
      let s := s.setTls t { (s.tls t) with tFiberToBeUnlockedAfterSwitch := frame }
      .done h s

/-- `WaitForCounter`, lines 102-109: up to and including `SwitchToFiber`. -/
def WaitForCounter.switchAway (t frame : Nat) (s : JobSystem) : Run Ctl JobSystem :=
  (WaitForCounter.takeFiber t frame s).bind fun h s => .done (.switched h) (s.switchTo h)

/-- `WaitForCounter`, lines 79-109: the re-check of the counter and what follows it. -/
def WaitForCounter.recheck (t frame counter : Nat) (s : JobSystem) : Run Ctl JobSystem :=
  -- if (*counter == 0)
  if s.counters counter = 0 then
    -- std::lock_guard<SpinLock> guard(mWaitListLock);
    s.lockWaitList.bind fun _ s =>
      -- auto itr = mWaitList.find(counter); if (itr != mWaitList.end())
      match WaitList.find s.mWaitList counter with
      | some _ =>
        -- mWaitList.erase(counter); return;   (the guard releases the lock)
        .done .returned (s.waitListErase counter).unlockWaitList
      | none =>
        -- leaving the block releases the guard
        WaitForCounter.switchAway t frame s.unlockWaitList
  else
    WaitForCounter.switchAway t frame s

/-- `JobSystem::WaitForCounter(Counter* counter)` on thread `t`, from its entry to the point
where control leaves the calling fiber: a return through the self-rescind branch or the
call of `SwitchToFiber`. -/
def WaitForCounter (t frame counter : Nat) (s : JobSystem) : Run Ctl JobSystem :=
  (WaitForCounter.enter t frame counter s).bind fun _ s =>
    (WaitForCounter.enlist frame counter s).bind fun _ s =>
      WaitForCounter.recheck t frame counter s

/-- `WaitForCounter`, lines 114-117: the waiter has been switched back to, on thread `t`. -/
def WaitForCounter.resumed (t : Nat) (s : JobSystem) : Run Unit JobSystem :=
  -- assert(tCurrentFiber != nullptr);
  if (s.tls t).tCurrentFiber = 0 then .assertFailed s
  -- assert(tFiberToBeAddedToPool != nullptr);
  else if (s.tls t).tFiberToBeAddedToPool = 0 then .assertFailed s
  else
    -- mFiberPool.PushBack(tFiberToBeAddedToPool);
    ((s.mFiberPool.PushBack (s.tls t).tFiberToBeAddedToPool).lift
        fun rb => { s with mFiberPool := rb }).bind fun _ s =>
      -- tFiberToBeAddedToPool = nullptr;
      .done () (s.setTls t { (s.tls t) with tFiberToBeAddedToPool := 0 })

/-- `FiberJobEntry`, line 156: `job.mFunction(job.mParam)`. -/
def FiberJobEntry.call (code : JobCode) (job : JobDecl) (s : JobSystem) : JobSystem :=
  ({ s with counters := code job.mFunction job.mParam s.counters }).log
    (.call job.mFunction job.mParam)

/-- `FiberJobEntry`, line 159: `(*counter)--` on a `std::atomic<uint32_t>`. -/
def FiberJobEntry.decrement (counter : Nat) (s : JobSystem) : JobSystem :=
  s.setCounter counter ((s.counters counter + 2 ^ 32 - 1) % 2 ^ 32)

/-- `FiberJobEntry`, lines 190-191: publish the current fiber for the pool and make the
waiter the current fiber. -/
def FiberJobEntry.publish (t awaitingFiber : Nat) (s : JobSystem) : JobSystem :=
  -- tFiberToBeAddedToPool = tCurrentFiber;
  let s := s.setTls t { (s.tls t) with tFiberToBeAddedToPool := (s.tls t).tCurrentFiber }
  -- tCurrentFiber = awaitingFiber->fiber;
  s.setTls t { (s.tls t) with tCurrentFiber := (s.usedFibers awaitingFiber).fiber }

/-- `FiberJobEntry`, lines 163-193: the completion handoff, entered when the counter reads
zero, up to the return or the call of `SwitchToFiber`. -/
def FiberJobEntry.handoff (t counter : Nat) (s : JobSystem) : Run Ctl JobSystem :=
  -- system.mWaitListLock.Lock();
  s.lockWaitList.bind fun _ s =>
    -- auto itr = system.mWaitList.find(counter);
    match WaitList.find s.mWaitList counter with
    | none =>
      -- system.mWaitListLock.Unlock(); return;
      .done .returned s.unlockWaitList
    | some awaitingFiber =>
      -- assert(awaitingFiber->fiber != nullptr);
      if (s.usedFibers awaitingFiber).fiber = 0 then .assertFailed s
      else
        -- system.mWaitList.erase(counter);
        let s := s.waitListErase counter
        -- system.mWaitListLock.Unlock();
        let s := s.unlockWaitList
        -- awaitingFiber->lock.Lock();
        (s.lockUsedFiber awaitingFiber).bind fun _ s =>
          -- awaitingFiber->lock.Unlock();
          let s := s.unlockUsedFiber awaitingFiber
          let s := FiberJobEntry.publish t awaitingFiber s
          -- SwitchToFiber(awaitingFiber->fiber);
          .done (.switched (s.usedFibers awaitingFiber).fiber)
            (s.switchTo (s.usedFibers awaitingFiber).fiber)

/-- `FiberJobEntry`, lines 198-199: a fiber that handed off is running again, on thread `t`. -/
def FiberJobEntry.resumed (t : Nat) (s : JobSystem) : Run Unit JobSystem :=
  -- assert(tFiberToBeAddedToPool == nullptr);
  if (s.tls t).tFiberToBeAddedToPool ≠ 0 then .assertFailed s
  -- assert(tCurrentFiber != nullptr);
  else if (s.tls t).tCurrentFiber = 0 then .assertFailed s
  else .done () s

/-- `JobSystem::FiberJobEntry(JobDecl job, JobSystem& system)` on thread `t`, up to the point
where control leaves the fiber: a return or the call of `SwitchToFiber`. -/
def FiberJobEntry (code : JobCode) (t : Nat) (job : JobDecl) (s : JobSystem) :
    Run Ctl JobSystem :=
  -- job.mFunction(job.mParam);
  let s := FiberJobEntry.call code job s
  -- Counter* counter = job.mCounter;
  let counter := job.mCounter
  -- (*counter)--;
  let s := FiberJobEntry.decrement counter s
  -- if (*counter == 0)
  if s.counters counter = 0 then FiberJobEntry.handoff t counter s
  else .done .returned s

/-- `FiberWorkerEntry`, lines 135-139: release the record of the fiber that switched to
this one. -/
def FiberWorkerEntry.unlockPrevious (t : Nat) (s : JobSystem) : JobSystem :=
  -- if (tFiberToBeUnlockedAfterSwitch != nullptr)
  if (s.tls t).tFiberToBeUnlockedAfterSwitch ≠ 0 then
    -- tFiberToBeUnlockedAfterSwitch->lock.Unlock();
    let s := s.unlockUsedFiber (s.tls t).tFiberToBeUnlockedAfterSwitch
    -- tFiberToBeUnlockedAfterSwitch = nullptr;
    s.setTls t { (s.tls t) with tFiberToBeUnlockedAfterSwitch := 0 }
  else s

/-- Body of the `while` loop of `FiberWorkerEntry` on thread `t` (lines 135-150). -/
def FiberWorkerEntry.iteration (code : JobCode) (t : Nat) (s : JobSystem) :
    Run Ctl JobSystem :=
  let s := FiberWorkerEntry.unlockPrevious t s
  -- std::optional<JobDecl> job = jobSystem.mJobQueue.PopFront();
  (s.mJobQueue.PopFront.lift fun rb => { s with mJobQueue := rb }).bind fun job s =>
    match job with
    -- FiberJobEntry(job.value(), jobSystem);
    | some job => FiberJobEntry code t job s
    -- _mm_pause();
    | none => .done .returned s

/-- `JobSystem::FiberWorkerEntry` on thread `t`: the first `k` iterations of
`while (!jobSystem.IsShuttingDown())`, fewer when the loop ends or control leaves the
fiber before. -/
def FiberWorkerEntry (code : JobCode) (t : Nat) : Nat → JobSystem → Run Ctl JobSystem
  | 0, s => .done .returned s
  | k + 1, s =>
    if s.mShutDown then .done .returned s
    else
      (FiberWorkerEntry.iteration code t s).bind fun ctl s1 =>
        match ctl with
        | .returned => FiberWorkerEntry code t k s1
        | .switched h => .done (.switched h) s1

/-- The job function calls recorded in a trace, in order: function pointer and parameter. -/
def callsOf (tr : List Event) : List (Nat × Nat) :=
  tr.filterMap fun e =>
    match e with
    | .call fn param => some (fn, param)
    | _ => none

/-- Number of times the trace records the wait-list lock being taken. -/
def waitListLocksOf (tr : List Event) : Nat :=
  tr.count (.acquire .waitList)

/-- A batch of `n` jobs on the counter `c` with `j` of them completed by one worker: the
job queue holds the descriptors `j, ..., n-1`, the counter holds `n - j`, and the trace
has the calls of jobs `0, ..., j-1` after the calls `calls0` made before the batch, and
`locks0` takings of the wait-list lock. -/
structure Draining (jobs : Nat → JobDecl) (n c j : Nat) (calls0 : List (Nat × Nat))
    (locks0 : Nat) (s : JobSystem) : Prop where
  wf : s.mJobQueue.WF
  queue : s.mJobQueue.contents =
    (List.range' j (n - j)).map fun i => { (jobs i) with mCounter := c }
  counter : s.counters c = n - j
  running : s.mShutDown = false
  free : s.mWaitListLock.mLock = false
  calls : callsOf s.trace =
    calls0 ++ (List.range j).map fun i => ((jobs i).mFunction, (jobs i).mParam)
  locks : waitListLocksOf s.trace = locks0

/-! ## The scheduler as a transition system -/

/-- A scheduler transition, taken atomically by the fiber running on thread `t`. -/
inductive Action where
  /-- `RunJobs(jobs, numOfJobs, counter)` -/
  | runJobs (jobs : Nat → JobDecl) (numOfJobs counter : Nat)
  /-- one iteration of the loop of `FiberWorkerEntry` -/
  | worker (t : Nat)
  /-- `FiberJobEntry(job, system)`, for a job popped earlier -/
  | finishJob (t : Nat) (job : JobDecl)
  /-- `WaitForCounter(counter)` up to its return or its `SwitchToFiber`, the record being
  at `frame` -/
  | wait (t frame counter : Nat)
  /-- lines 114-117 of `WaitForCounter`, run by the waiter a handoff has switched to -/
  | resume (t : Nat)

/-- The state a run leaves behind when it completed; none when it aborted or spins. -/
def Run.next {α σ : Type} : Run α σ → Option σ
  | .done _ s => some s
  | .assertFailed _ => none
  | .spins _ => none

/-- One transition.  Control flow restricts what a thread can do: a thread whose
`tFiberToBeAddedToPool` is set has just been switched to a waiter and runs lines 114-117
next; a record lives in the frame of its waiter, so a new wait uses an address no
wait-list entry refers to; at most one fiber waits on a counter. -/
def step (code : JobCode) (a : Action) (s : JobSystem) : Option JobSystem :=
  match a with
  | .runJobs jobs n counter => (RunJobs (some jobs) n counter s).next
  | .worker t =>
    if t < s.mThreads ∧ (s.tls t).tFiberToBeAddedToPool = 0 then
      (FiberWorkerEntry.iteration code t s).next
    else none
  | .finishJob t job =>
    if t < s.mThreads ∧ (s.tls t).tFiberToBeAddedToPool = 0 then
      (FiberJobEntry code t job s).next
    else none
  | .wait t frame counter =>
    if t < s.mThreads ∧ (s.tls t).tFiberToBeAddedToPool = 0 ∧
        WaitList.find s.mWaitList counter = none ∧ frame ∉ s.mWaitList.map Prod.snd then
      (WaitForCounter t frame counter s).next
    else none
  | .resume t =>
    if t < s.mThreads then (WaitForCounter.resumed t s).next else none

/-- A sequence of transitions; none when one of them is not possible. -/
def runActions (code : JobCode) : List Action → JobSystem → Option JobSystem
  | [], s => some s
  | a :: rest, s => (step code a s).bind (runActions code rest)

/-- Fibers idle in the pool. -/
def poolFibers (s : JobSystem) : List Nat :=
  s.mFiberPool.contents

/-- Fibers running: the current fiber of each thread. -/
def runningFibers (s : JobSystem) : List Nat :=
  (List.range s.mThreads).map fun t => (s.tls t).tCurrentFiber

/-- Fibers on the wait list: the fiber of the record of each entry. -/
def waitingFibers (s : JobSystem) : List Nat :=
  s.mWaitList.map fun e => (s.usedFibers e.2).fiber

/-- Fibers held in a `tFiberToBeAddedToPool` slot: switched away from by a handoff and not
yet pushed onto the pool. -/
def returningFibers (s : JobSystem) : List Nat :=
  ((List.range s.mThreads).map fun t => (s.tls t).tFiberToBeAddedToPool).filter (· ≠ 0)

/-- All fibers the scheduler holds. -/
def allFibers (s : JobSystem) : List Nat :=
  poolFibers s ++ runningFibers s ++ waitingFibers s ++ returningFibers s

/-- The fibers the constructor creates: the pool fibers and the converted threads. -/
def createdFibers (os : FiberApi) (args : Args) : List Nat :=
  (List.range (args.mNumFibers - 1)).map os.CreateFiber ++
    (List.range args.mNumThreads).map os.ConvertThreadToFiber

/-- The conservation invariant: the fibers in the pool, running, on the wait list or held
in a `tFiberToBeAddedToPool` slot are, counted with multiplicity, the fibers `all`; the pool
buffer is well shaped; no counter has two wait-list entries; no null handle is in the pool
or current on a thread. -/
structure Conserved (all : List Nat) (s : JobSystem) : Prop where
  poolWF : s.mFiberPool.WF
  keys : (s.mWaitList.map Prod.fst).Nodup
  poolNonzero : ∀ h, h ∈ poolFibers s → h ≠ 0
  runningNonzero : ∀ i, i < s.mThreads → (s.tls i).tCurrentFiber ≠ 0
  counts : ∀ h, (allFibers s).count h = all.count h

/-! ## Job functions that call into the scheduler

`CalculateFibonacci` and `MainFiber` (Main.cpp, lines 31-32, 83-84 and 96-97) call `RunJobs`
and `WaitForCounter` from inside a job.  A fiber that waits is suspended in the middle of
its job function and its thread goes on in another fiber; the definitions below follow one
thread through these switches. -/

/-- A call a job function makes into the scheduler. -/
inductive SchedulerCall where
  /-- `jobSystem.RunJobs(jobs, numOfJobs, &counter)` -/
  | runJobs (jobs : Nat → JobDecl) (numOfJobs counter : Nat)
  /-- `jobSystem.WaitForCounter(&counter)`, the record being at `frame` -/
  | waitForCounter (frame counter : Nat)

/-- The counter a call into the scheduler is about. -/
def SchedulerCall.counter : SchedulerCall → Nat
  | .runJobs _ _ counter => counter
  | .waitForCounter _ counter => counter

/-- Job functions as the scheduler sees them: `body fn param` is the sequence of calls that
`fn(param)` makes into the scheduler before it returns; it is empty for a function that
only computes. -/
abbrev JobBody := Nat → Nat → List SchedulerCall

/-- Where a fiber that is not running goes on when a `SwitchToFiber` reaches it. -/
inductive Suspended where
  /-- created by `CreateFiber(..., FiberWorkerEntry, this)` and never run: it starts
  `FiberWorkerEntry` -/
  | atStart
  /-- at line 193 of `FiberJobEntry`: it handed its thread to a waiter -/
  | inHandoff
  /-- at line 109 of `WaitForCounter`, called from the function of `job`, which has the
  calls `rest` still to make -/
  | inWait (rest : List SchedulerCall) (job : JobDecl)

/-- Where the fiber running on the thread stands. -/
inductive RunningAt where
  /-- at the loop test of `FiberWorkerEntry` (line 133) -/
  | loopTest
  /-- inside `job.mFunction(job.mParam)` (line 156), with the calls `rest` still to make -/
  | inJob (rest : List SchedulerCall) (job : JobDecl)
  /-- the loop of `FiberWorkerEntry` has ended -/
  | exited

/-- The fiber is at the loop test. -/
def RunningAt.isLoopTest : RunningAt → Bool
  | .loopTest => true
  | _ => false

/-- A worker thread with the fibers it has run: the scheduler state, where each fiber that
is not running is suspended, and where the running fiber stands. -/
structure WorkerThread where
  sys : JobSystem
  suspended : Nat → Suspended
  pc : RunningAt

/-- A run of a scheduler function, as a run of the thread. -/
def WorkerThread.run {α : Type} (m : WorkerThread) (r : Run α JobSystem) :
    Run α WorkerThread :=
  r.lift fun s => { m with sys := s }

/-- The fiber `self` has called `SwitchToFiber(h)` on thread `t` and stays suspended as
`k`; the thread goes on in `h`, where that fiber was suspended. -/
def WorkerThread.switchTo (t self h : Nat) (k : Suspended) (m : WorkerThread) :
    Run Unit WorkerThread :=
  let m := { m with suspended := Function.update m.suspended self k }
  match m.suspended h with
  -- FiberWorkerEntry(userData) begins
  | .atStart => .done () { m with pc := .loopTest }
  -- FiberJobEntry, lines 198-199, then back in the loop
  | .inHandoff =>
    (m.run (FiberJobEntry.resumed t m.sys)).bind fun _ m => .done () { m with pc := .loopTest }
  -- WaitForCounter, lines 114-117, then back in the job function
  | .inWait rest job =>
    (m.run (WaitForCounter.resumed t m.sys)).bind fun _ m =>
      .done () { m with pc := .inJob rest job }

/-- One step of thread `t`: the loop test and the pop of a job (lines 133-143), one call of
the running job function into the scheduler, or the part of `FiberJobEntry` that follows
the return of the job function (lines 157-200).  A step that ends in `SwitchToFiber`
includes what the fiber switched to does first when it is resumed. -/
def WorkerThread.step (code : JobCode) (body : JobBody) (t : Nat) (m : WorkerThread) :
    Run Unit WorkerThread :=
  match m.pc with
  | .exited => .done () m
  | .loopTest =>
    -- while (!jobSystem.IsShuttingDown())
    if m.sys.mShutDown then .done () { m with pc := .exited }
    else
      let s := FiberWorkerEntry.unlockPrevious t m.sys
      -- std::optional<JobDecl> job = jobSystem.mJobQueue.PopFront();
      (m.run (s.mJobQueue.PopFront.lift fun rb => { s with mJobQueue := rb })).bind
        fun job m =>
          match job with
          -- FiberJobEntry(job.value(), jobSystem): job.mFunction(job.mParam) is entered
          | some job =>
            .done () { m with
              sys := FiberJobEntry.call code job m.sys
              pc := .inJob (body job.mFunction job.mParam) job }
          -- _mm_pause();
          | none => .done () m
  | .inJob (.runJobs jobs numOfJobs counter :: rest) job =>
    (m.run (RunJobs (some jobs) numOfJobs counter m.sys)).bind fun _ m =>
      .done () { m with pc := .inJob rest job }
  | .inJob (.waitForCounter frame counter :: rest) job =>
    (m.run (WaitForCounter t frame counter m.sys)).bind fun ctl m1 =>
      match ctl with
      | .returned => .done () { m1 with pc := .inJob rest job }
      | .switched h =>
        WorkerThread.switchTo t (m.sys.tls t).tCurrentFiber h (.inWait rest job) m1
  | .inJob [] job =>
    -- the job function has returned: Counter* counter = job.mCounter; (*counter)--;
    let s := FiberJobEntry.decrement job.mCounter m.sys
    -- if (*counter == 0)
    if s.counters job.mCounter = 0 then
      (m.run (FiberJobEntry.handoff t job.mCounter s)).bind fun ctl m1 =>
        match ctl with
        | .returned => .done () { m1 with pc := .loopTest }
        | .switched h => WorkerThread.switchTo t (m.sys.tls t).tCurrentFiber h .inHandoff m1
    else .done () { m with sys := s, pc := .loopTest }

/-- The first `n` steps of thread `t`, fewer when an assertion fires or a lock is spun on. -/
def WorkerThread.steps (code : JobCode) (body : JobBody) (t : Nat) :
    Nat → WorkerThread → Run Unit WorkerThread
  | 0, m => .done () m
  | n + 1, m => (WorkerThread.step code body t m).bind fun _ m =>
    WorkerThread.steps code body t n m

/-- Thread `t` runs until the fiber `home` stands at the loop test again; none when that
takes more than `fuel` steps. -/
def WorkerThread.untilBack (code : JobCode) (body : JobBody) (t home : Nat) :
    Nat → WorkerThread → Option (Run Unit WorkerThread)
  | 0, _ => none
  | fuel + 1, m =>
    match WorkerThread.step code body t m with
    | .done _ m1 =>
      if m1.pc.isLoopTest ∧ (m1.sys.tls t).tCurrentFiber = home then some (.done () m1)
      else WorkerThread.untilBack code body t home fuel m1
    | .assertFailed m1 => some (.assertFailed m1)
    | .spins m1 => some (.spins m1)

/-- One worker step of the fiber running on thread `t`, which stands at the loop test: it
pops a descriptor and runs `FiberJobEntry` to its return, that is, to the next loop test of
that same fiber; none when that takes more than `fuel` steps of the thread. -/
def WorkerThread.workerStep (code : JobCode) (body : JobBody) (t fuel : Nat)
    (m : WorkerThread) : Option (Run Unit WorkerThread) :=
  WorkerThread.untilBack code body t (m.sys.tls t).tCurrentFiber fuel m

/-- What a run shows to an observer of the counter at `c`: whether it completed, the fiber
running on thread `t` at its end, the value of `*c`, and the job function calls made. -/
def WorkerThread.observe (t c : Nat) (r : Run Unit WorkerThread) :
    Bool × Nat × Nat × List (Nat × Nat) :=
  (match r with
    | .done _ _ => true
    | _ => false,
   (r.state.sys.tls t).tCurrentFiber, r.state.sys.counters c, callsOf r.state.sys.trace)

/-! ## Interleaving of a waiter and the completer of its counter

Two threads run concurrently: on the one the fiber `W` calls `WaitForCounter(counter)`;
on the other a worker runs `FiberJobEntry` for the last job of the counter.  Every access to
shared memory is a `std::atomic` operation of sequentially consistent order or lies inside a
critical section of a spin lock, so an execution is an interleaving of the steps below,
each of which makes at most one access to memory the other thread writes.  (The flag
`mShutDown`, read by the loop test of line 133, is written by neither of the two.)  A
`Lock()` on a held lock is a step that changes nothing. -/

/-- Where the thread of the waiter stands: in `WaitForCounter` (the line it executes next),
then, once the waiter has switched away, in the fiber taken from the pool. -/
inductive WaiterAt where
  /-- lines 68-74 -/
  | enter
  /-- line 75 -/
  | lockList
  /-- line 76 -/
  | insert
  /-- line 77 -/
  | unlockList
  /-- line 79 -/
  | readCounter
  /-- line 81 -/
  | relockList
  /-- lines 90-92 -/
  | findEntry
  /-- line 95 -/
  | eraseEntry
  /-- line 96: the guard releases the lock, the function returns -/
  | unlockReturn
  /-- line 100: the guard releases the lock, the function goes on -/
  | unlockContinue
  /-- lines 102-107 -/
  | takeFiber
  /-- line 109 -/
  | switchAway
  /-- the pool fiber runs on the thread: `FiberWorkerEntry`, the loop test of line 133 and
  lines 135-139 -/
  | incomingUnlock
  /-- the pool fiber polls the job queue; the waiter is suspended -/
  | polling
  /-- the loop test of line 133 read a shutdown: `FiberWorkerEntry` has ended in the pool
  fiber without running lines 135-139, the record of the waiter stays locked -/
  | workerExit
  /-- `WaitForCounter` has returned through the self-rescind branch -/
  | returned
  /-- an assertion of `WaitForCounter` has fired -/
  | aborted
deriving DecidableEq, Repr

/-- Where the thread of the completer stands: in `FiberJobEntry` (the line it executes
next), then, once it has switched to the waiter, in the rest of `WaitForCounter`. -/
inductive CompleterAt where
  /-- line 156 -/
  | callJob
  /-- line 159 -/
  | decrement
  /-- line 161 -/
  | testCounter
  /-- line 163 -/
  | lockList
  /-- lines 164-171 -/
  | findEntry
  /-- lines 173-174 -/
  | unlockReturn
  /-- lines 177-179 -/
  | eraseEntry
  /-- line 180 -/
  | unlockList
  /-- line 185 -/
  | lockRecord
  /-- line 187 -/
  | unlockRecord
  /-- lines 190-191 -/
  | publish
  /-- line 193 -/
  | switchToWaiter
  /-- the waiter runs on the thread: `WaitForCounter`, lines 114-117 -/
  | waiterResumes
  /-- `WaitForCounter` has returned in the resumed waiter -/
  | waiterReturned
  /-- `FiberJobEntry` has returned without a switch -/
  | returned
  /-- an assertion has fired -/
  | aborted
deriving DecidableEq, Repr

/-- The two calls that race: `WaitForCounter(counter)` on `waiterThread`, the record being
at `frame`, and `FiberJobEntry(job, system)` on `completerThread`. -/
structure RaceSetup where
  code : JobCode
  waiterThread : Nat
  completerThread : Nat
  frame : Nat
  counter : Nat
  job : JobDecl

/-- What the race assumes of the two calls: they run on different threads, the record
address and the counter are non-null, the job belongs to the counter and its function
leaves the counter alone. -/
structure RaceSetup.Valid (cfg : RaceSetup) : Prop where
  threads : cfg.waiterThread ≠ cfg.completerThread
  frame : cfg.frame ≠ 0
  counter : cfg.counter ≠ 0
  job : cfg.job.mCounter = cfg.counter
  code : ∀ f p m, cfg.code f p m cfg.counter = m cfg.counter

/-- State of the race: the shared state, where each thread stands, the local variable
`awaitingFiber` of the completer, and two observations: the value the waiter read at line
79 and whether the completer found an entry at line 164. -/
structure Race where
  sys : JobSystem
  waiter : WaiterAt
  completer : CompleterAt
  awaitingFiber : Nat
  counterSeen : Option Nat
  entryFound : Option Bool

/-- One step of the thread of the waiter. -/
def stepWaiter (cfg : RaceSetup) (r : Race) : Race :=
  match r.waiter with
  | .enter =>
    match WaitForCounter.enter cfg.waiterThread cfg.frame cfg.counter r.sys with
    | .done _ s => { r with sys := s, waiter := .lockList }
    | .assertFailed s => { r with sys := s, waiter := .aborted }
    | .spins _ => r
  | .lockList =>
    match r.sys.lockWaitList with
    | .done _ s => { r with sys := s, waiter := .insert }
    | .assertFailed _ => r
    | .spins _ => r
  | .insert =>
    { r with sys := r.sys.waitListAssign cfg.counter cfg.frame, waiter := .unlockList }
  | .unlockList =>
    { r with sys := r.sys.unlockWaitList, waiter := .readCounter }
  | .readCounter =>
    { r with
      counterSeen := some (r.sys.counters cfg.counter)
      waiter := if r.sys.counters cfg.counter = 0 then .relockList else .takeFiber }
  | .relockList =>
    match r.sys.lockWaitList with
    | .done _ s => { r with sys := s, waiter := .findEntry }
    | .assertFailed _ => r
    | .spins _ => r
  | .findEntry =>
    match WaitList.find r.sys.mWaitList cfg.counter with
    | some _ => { r with waiter := .eraseEntry }
    | none => { r with waiter := .unlockContinue }
  | .eraseEntry =>
    { r with sys := r.sys.waitListErase cfg.counter, waiter := .unlockReturn }
  | .unlockReturn =>
    { r with sys := r.sys.unlockWaitList, waiter := .returned }
  | .unlockContinue =>
    { r with sys := r.sys.unlockWaitList, waiter := .takeFiber }
  | .takeFiber =>
    match WaitForCounter.takeFiber cfg.waiterThread cfg.frame r.sys with
    | .done _ s => { r with sys := s, waiter := .switchAway }
    | .assertFailed s => { r with sys := s, waiter := .aborted }
    | .spins _ => r
  | .switchAway =>
    { r with
      sys := r.sys.switchTo (r.sys.tls cfg.waiterThread).tCurrentFiber
      waiter := .incomingUnlock }
  | .incomingUnlock =>
    -- while (!jobSystem.IsShuttingDown())
    if r.sys.mShutDown then { r with waiter := .workerExit }
    else
      { r with
        sys := FiberWorkerEntry.unlockPrevious cfg.waiterThread r.sys
        waiter := .polling }
  | .polling => r
  | .workerExit => r
  | .returned => r
  | .aborted => r

/-- One step of the thread of the completer. -/
def stepCompleter (cfg : RaceSetup) (r : Race) : Race :=
  match r.completer with
  | .callJob =>
    { r with sys := FiberJobEntry.call cfg.code cfg.job r.sys, completer := .decrement }
  | .decrement =>
    { r with sys := FiberJobEntry.decrement cfg.job.mCounter r.sys, completer := .testCounter }
  | .testCounter =>
    { r with
      completer := if r.sys.counters cfg.job.mCounter = 0 then .lockList else .returned }
  | .lockList =>
    match r.sys.lockWaitList with
    | .done _ s => { r with sys := s, completer := .findEntry }
    | .assertFailed _ => r
    | .spins _ => r
  | .findEntry =>
    match WaitList.find r.sys.mWaitList cfg.job.mCounter with
    | none => { r with entryFound := some false, completer := .unlockReturn }
    | some p => { r with entryFound := some true, awaitingFiber := p, completer := .eraseEntry }
  | .unlockReturn =>
    { r with sys := r.sys.unlockWaitList, completer := .returned }
  | .eraseEntry =>
    if (r.sys.usedFibers r.awaitingFiber).fiber = 0 then { r with completer := .aborted }
    else { r with sys := r.sys.waitListErase cfg.job.mCounter, completer := .unlockList }
  | .unlockList =>
    { r with sys := r.sys.unlockWaitList, completer := .lockRecord }
  | .lockRecord =>
    match r.sys.lockUsedFiber r.awaitingFiber with
    | .done _ s => { r with sys := s, completer := .unlockRecord }
    | .assertFailed _ => r
    | .spins _ => r
  | .unlockRecord =>
    { r with sys := r.sys.unlockUsedFiber r.awaitingFiber, completer := .publish }
  | .publish =>
    { r with
      sys := FiberJobEntry.publish cfg.completerThread r.awaitingFiber r.sys
      completer := .switchToWaiter }
  | .switchToWaiter =>
    { r with
      sys := r.sys.switchTo (r.sys.usedFibers r.awaitingFiber).fiber
      completer := .waiterResumes }
  | .waiterResumes =>
    match WaitForCounter.resumed cfg.completerThread r.sys with
    | .done _ s => { r with sys := s, completer := .waiterReturned }
    | .assertFailed s => { r with sys := s, completer := .aborted }
    | .spins _ => r
  | .waiterReturned => r
  | .returned => r
  | .aborted => r

/-- The race from the moment both calls begin. -/
def Race.start (s : JobSystem) : Race :=
  { sys := s, waiter := .enter, completer := .callJob, awaitingFiber := 0,
    counterSeen := none, entryFound := none }

/-- An interleaving: at each position of the schedule the thread of the waiter (`true`) or
the thread of the completer (`false`) takes its next step. -/
def runRace (cfg : RaceSetup) : List Bool → Race → Race
  | [], r => r
  | true :: rest, r => runRace cfg rest (stepWaiter cfg r)
  | false :: rest, r => runRace cfg rest (stepCompleter cfg r)

/-- The waiter has switched away: its thread runs the pool fiber. -/
def WaiterAt.suspended : WaiterAt → Bool
  | .incomingUnlock => true
  | .polling => true
  | .workerExit => true
  | _ => false

/-- The waiter thread holds the wait-list lock. -/
def WaiterAt.holdsList : WaiterAt → Bool
  | .insert => true
  | .unlockList => true
  | .findEntry => true
  | .eraseEntry => true
  | .unlockReturn => true
  | .unlockContinue => true
  | _ => false

/-- The waiter has inserted its entry. -/
def WaiterAt.inserted : WaiterAt → Bool
  | .enter => false
  | .lockList => false
  | .insert => false
  | .aborted => false
  | _ => true

/-- The waiter has erased its entry itself. -/
def WaiterAt.rescinded : WaiterAt → Bool
  | .unlockReturn => true
  | .returned => true
  | _ => false

/-- The waiter is past the re-check on the way to `SwitchToFiber` or beyond. -/
def WaiterAt.leaving : WaiterAt → Bool
  | .unlockContinue => true
  | .takeFiber => true
  | .switchAway => true
  | .incomingUnlock => true
  | .polling => true
  | .workerExit => true
  | _ => false

/-- The waiter has taken its fiber from the pool. -/
def WaiterAt.tookFiber : WaiterAt → Bool
  | .switchAway => true
  | .incomingUnlock => true
  | .polling => true
  | .workerExit => true
  | _ => false

/-- The completer thread holds the wait-list lock. -/
def CompleterAt.holdsList : CompleterAt → Bool
  | .findEntry => true
  | .unlockReturn => true
  | .eraseEntry => true
  | .unlockList => true
  | _ => false

/-- The completer has not decremented the counter yet. -/
def CompleterAt.beforeDecrement : CompleterAt → Bool
  | .callJob => true
  | .decrement => true
  | _ => false

/-- The completer found the entry of the waiter. -/
def CompleterAt.found : CompleterAt → Bool
  | .eraseEntry => true
  | .unlockList => true
  | .lockRecord => true
  | .unlockRecord => true
  | .publish => true
  | .switchToWaiter => true
  | .waiterResumes => true
  | .waiterReturned => true
  | _ => false

/-- The completer has erased the entry of the waiter. -/
def CompleterAt.erased : CompleterAt → Bool
  | .unlockList => true
  | .lockRecord => true
  | .unlockRecord => true
  | .publish => true
  | .switchToWaiter => true
  | .waiterResumes => true
  | .waiterReturned => true
  | _ => false

/-- The completer looked the counter up and found no entry. -/
def CompleterAt.missed : CompleterAt → Bool
  | .unlockReturn => true
  | .returned => true
  | _ => false

/-- The completer has taken the lock of the record: it saw the waiter switched away. -/
def CompleterAt.pastBarrier : CompleterAt → Bool
  | .unlockRecord => true
  | .publish => true
  | .switchToWaiter => true
  | .waiterResumes => true
  | .waiterReturned => true
  | _ => false

/-- The completer has published its fiber for the pool and not yet pushed it. -/
def CompleterAt.published : CompleterAt → Bool
  | .switchToWaiter => true
  | .waiterResumes => true
  | _ => false

/-- Pairs of positions that can occur together. -/
def compatible (w : WaiterAt) (c : CompleterAt) : Bool :=
  !(w.holdsList && c.holdsList) &&
  (!c.found || (w.inserted && !w.rescinded && w != .eraseEntry && w != .unlockList)) &&
  (!c.missed || !w.leaving) &&
  (!c.pastBarrier || w == .polling) &&
  w != .aborted && c != .aborted

/-- Whether the wait list holds the entry of the waiter, as a function of the positions. -/
def entryPresent (w : WaiterAt) (c : CompleterAt) : Bool :=
  w.inserted && !w.rescinded && !c.erased

/-- Whether the lock of the record is held, as a function of the positions (once the
record exists). -/
def recordLocked (w : WaiterAt) (c : CompleterAt) : Bool :=
  w != .polling || c == .unlockRecord

/-- Both threads are done and the waiter has returned from `WaitForCounter`: by itself
through the self-rescind branch, or resumed by the completer. -/
def Race.settled (r : Race) : Bool :=
  (r.waiter == .returned && r.completer == .returned) ||
  (r.waiter == .polling && r.completer == .waiterReturned)

/-- The next step of the waiter thread changes its position: it is not at an end, and it
is not about to spin on the wait-list lock, whose state is `listLocked`. -/
def WaiterAt.canMove (w : WaiterAt) (listLocked : Bool) : Bool :=
  match w with
  | .lockList => !listLocked
  | .relockList => !listLocked
  | .polling => false
  | .workerExit => false
  | .returned => false
  | .aborted => false
  | _ => true

/-- The next step of the completer thread changes its position: it is not at an end, and
it is not about to spin on the wait-list lock or on the lock of the record. -/
def CompleterAt.canMove (c : CompleterAt) (listLocked recordLocked : Bool) : Bool :=
  match c with
  | .lockList => !listLocked
  | .lockRecord => !recordLocked
  | .waiterReturned => false
  | .returned => false
  | .aborted => false
  | _ => true

/-- Bound on the number of moves the waiter thread has left. -/
def WaiterAt.rank : WaiterAt → Nat
  | .enter => 11
  | .lockList => 10
  | .insert => 9
  | .unlockList => 8
  | .readCounter => 7
  | .relockList => 6
  | .findEntry => 5
  | .unlockContinue => 4
  | .takeFiber => 3
  | .switchAway => 2
  | .eraseEntry => 2
  | .incomingUnlock => 1
  | .unlockReturn => 1
  | .polling => 0
  | .workerExit => 0
  | .returned => 0
  | .aborted => 0

/-- Bound on the number of moves the completer thread has left. -/
def CompleterAt.rank : CompleterAt → Nat
  | .callJob => 12
  | .decrement => 11
  | .testCounter => 10
  | .lockList => 9
  | .findEntry => 8
  | .eraseEntry => 7
  | .unlockList => 6
  | .lockRecord => 5
  | .unlockRecord => 4
  | .publish => 3
  | .switchToWaiter => 2
  | .waiterResumes => 1
  | .unlockReturn => 1
  | .waiterReturned => 0
  | .returned => 0
  | .aborted => 0

/-- The invariant of the race. -/
structure RaceInv (cfg : RaceSetup) (r : Race) : Prop where
  compat : compatible r.waiter r.completer = true
  listLock : r.sys.mWaitListLock.mLock = (r.waiter.holdsList || r.completer.holdsList)
  counter : r.sys.counters cfg.counter = if r.completer.beforeDecrement then 1 else 0
  entry : WaitList.find r.sys.mWaitList cfg.counter =
    if entryPresent r.waiter r.completer then some cfg.frame else none
  record : r.waiter ≠ .enter →
    (r.sys.usedFibers cfg.frame).lock.mLock = recordLocked r.waiter r.completer
  recordFiber : r.waiter ≠ .enter → (r.sys.usedFibers cfg.frame).fiber ≠ 0
  waiterFiber : r.waiter = .enter → (r.sys.tls cfg.waiterThread).tCurrentFiber ≠ 0
  unlockSlot : r.waiter = .switchAway ∨ r.waiter = .incomingUnlock →
    (r.sys.tls cfg.waiterThread).tFiberToBeUnlockedAfterSwitch = cfg.frame
  awaiting : r.completer.found = true → r.awaitingFiber = cfg.frame
  completerFiber : (r.sys.tls cfg.completerThread).tCurrentFiber ≠ 0
  returnSlot : r.completer.published = true →
    (r.sys.tls cfg.completerThread).tFiberToBeAddedToPool ≠ 0
  poolWF : r.sys.mFiberPool.WF
  poolStock : r.waiter.tookFiber = false → r.sys.mFiberPool.mHead ≠ r.sys.mFiberPool.mTail
  poolRoom : r.waiter.tookFiber = true → r.completer ≠ .waiterReturned →
    r.sys.mFiberPool.held + 1 < r.sys.mFiberPool.mCapacity
  sawFound : r.entryFound = some false → r.completer.missed = true
  sawNonzero : ∀ v, r.counterSeen = some v → v ≠ 0 →
    r.waiter.leaving = true ∧ r.waiter ≠ .unlockContinue

/-! ### Concrete inputs -/

/-- A fiber interface handing out distinct non-null handles: threads get 1, 2, ...,
created fibers 100, 101, ... -/
def demoApi : FiberApi :=
  { CreateFiber := fun k => 100 + k
    ConvertThreadToFiber := fun i => 1 + i }

/-- A small configuration: 2 threads, `mNumFibers = 4`, a job queue of 8 slots. -/
def demoArgs : Args :=
  { mNumThreads := 2, mNumFibers := 4, mFiberStackSize := 4096, mQueueSize := 8 }

/-- The job system the constructor builds for `demoArgs`. -/
def demoSystem : JobSystem :=
  (JobSystem.new demoApi demoArgs).state

/-- A job array: entry `i` calls function 7 on parameter `i`. -/
def demoJobs : Nat → JobDecl :=
  fun i => { mFunction := 7, mParam := i, mCounter := 0 }

/-- Job code that leaves all counters alone. -/
def idleCode : JobCode :=
  fun _ _ m => m

/-- The state of `demoSystem` when the fiber of thread 1, waiting on the counter at 51 with
its record at 901, has added itself to the wait list (lines 68-77) and is about to
re-check the counter. -/
def demoEnlisted : JobSystem :=
  ((WaitForCounter.enter 1 901 51 demoSystem).bind fun _ s =>
    WaitForCounter.enlist 901 51 s).state

/-- The state of `demoSystem` after the fiber of thread 0 has called `WaitForCounter` on the
counter at 50 while it held 1 (record at 900), has switched away, and the fiber switched to
has released the record (lines 135-139). -/
def demoWaiting : JobSystem :=
  FiberWorkerEntry.unlockPrevious 0 (WaitForCounter 0 900 50 (demoSystem.setCounter 50 1)).state

/-- On `demoSystem`: one job is submitted on the counter at 50; the fiber of thread 0 waits
for it and switches to a pool fiber; that fiber runs the job and hands the thread back to
the waiter. -/
def demoHandoff : List Action :=
  [.runJobs demoJobs 1 50, .wait 0 900 50, .worker 0]

/-- The state `demoHandoff` leads to. -/
def demoHandedOff : JobSystem :=
  (runActions idleCode demoHandoff demoSystem).getD demoSystem

/-- A race on `demoSystem`: the fiber of thread 0 waits on the counter at 50, which holds 1,
while thread 1 runs the last job of that counter. -/
def demoRace : RaceSetup :=
  { code := idleCode, waiterThread := 0, completerThread := 1, frame := 900, counter := 50,
    job := { mFunction := 7, mParam := 0, mCounter := 50 } }

/-- The state in which `demoRace` starts. -/
def demoRaceStart : JobSystem :=
  demoSystem.setCounter 50 1

/-- The state of `demoRaceStart` once `ShutDown()` has set the flag (line 48). -/
def demoShutDown : JobSystem :=
  { demoRaceStart with mShutDown := true }

/-- The race `demoRace` from `demoShutDown`: the waiter runs alone until the pool fiber it
switched to has read the flag, then the completer runs alone up to the lock of the
record. -/
def demoStranded : Race :=
  runRace demoRace (List.replicate 8 true ++ List.replicate 7 false) (Race.start demoShutDown)

/-- A batch of two jobs: `jobs[0]` calls function 9, `jobs[1]` function 7. -/
def nestedJobs : Nat → JobDecl :=
  fun i => if i = 0 then { mFunction := 9, mParam := 0 } else { mFunction := 7, mParam := i }

/-- Job functions in the manner of `MainFiber` (Main.cpp, lines 80-84): function 9 submits
one job, which calls function 7 on the parameter 5, on its own counter at 60 and waits for
it, its record being at 910; function 7 only computes. -/
def nestedBody : JobBody :=
  fun fn _ =>
    if fn = 9 then
      [.runJobs (fun _ => { mFunction := 7, mParam := 5 }) 1 60, .waitForCounter 910 60]
    else []

/-- Thread 0 of `demoSystem` at the loop test, `RunJobs(nestedJobs, 2, c)` having submitted
the batch on the counter at 50. -/
def nestedStart : WorkerThread :=
  { sys := (RunJobs (some nestedJobs) 2 50 demoSystem).state
    suspended := fun _ => .atStart
    pc := .loopTest }


/-! ## Ring buffer: arithmetic of head and tail -/

theorem succ_mod_cap {a C : Nat} (h : a < C) :
    (a + 1) % C = if a + 1 = C then 0 else a + 1 := by
  split
  · next e => rw [e]; exact Nat.mod_self C
  · next e => exact Nat.mod_eq_of_lt (by omega)

theorem held_eq {T : Type} (rb : AtomicRingBuffer T) (w : rb.WF) :
    rb.held = if rb.mTail ≤ rb.mHead then rb.mHead - rb.mTail
      else rb.mHead + rb.mCapacity - rb.mTail := by
  have h1 := w.head_lt
  have h2 := w.tail_lt
  unfold AtomicRingBuffer.held
  split
  · next h =>
    have e : rb.mHead + rb.mCapacity - rb.mTail = (rb.mHead - rb.mTail) + rb.mCapacity := by
      omega
    rw [e, Nat.add_mod_right]
    exact Nat.mod_eq_of_lt (by omega)
  · next h => exact Nat.mod_eq_of_lt (by omega)

theorem held_lt {T : Type} (rb : AtomicRingBuffer T) (w : rb.WF) :
    rb.held < rb.mCapacity :=
  Nat.mod_lt _ w.cap_pos

theorem slot_index {T : Type} (rb : AtomicRingBuffer T) (w : rb.WF) (i : Nat)
    (hi : i < rb.mCapacity) :
    (rb.mTail + i) % rb.mCapacity =
      if rb.mTail + i < rb.mCapacity then rb.mTail + i else rb.mTail + i - rb.mCapacity := by
  have h2 := w.tail_lt
  split
  · next h => exact Nat.mod_eq_of_lt h
  · next h =>
    have e : rb.mTail + i = (rb.mTail + i - rb.mCapacity) + rb.mCapacity := by omega
    rw [e, Nat.add_mod_right, Nat.add_sub_cancel]
    exact Nat.mod_eq_of_lt (by omega)

theorem push_asserts_iff {T : Type} (rb : AtomicRingBuffer T) (w : rb.WF) :
    (rb.mHead + 1) % rb.mCapacity = rb.mTail ↔ rb.held + 1 = rb.mCapacity := by
  have h1 := w.head_lt
  have h2 := w.tail_lt
  rw [held_eq rb w, succ_mod_cap h1]
  split <;> split <;> omega

theorem lock_free (l : SpinLock) (h : l.mLock = false) : l.Lock = some { mLock := true } := by
  simp [SpinLock.Lock, h]

theorem lock_eq_of_free (l : SpinLock) (h : l.mLock = false) : l = { mLock := false } := by
  cases l; simp_all

/-- State of the buffer after a successful `PushBack`. -/
theorem PushBack_done {T : Type} (rb : AtomicRingBuffer T) (w : rb.WF) (v : T)
    (room : rb.held + 1 < rb.mCapacity) :
    rb.PushBack v = .done ()
      { rb with mQueue := rb.mQueue.set rb.mHead v
                mHead := (rb.mHead + 1) % rb.mCapacity } := by
  have hne : ¬ (rb.mHead + 1) % rb.mCapacity = rb.mTail := by
    rw [push_asserts_iff rb w]; omega
  have hl := lock_eq_of_free _ w.writer_free
  unfold AtomicRingBuffer.PushBack
  rw [lock_free _ w.writer_free]
  simp only [hne, if_false, SpinLock.Unlock]
  rw [← hl]

theorem PushBack_wf {T : Type} (rb : AtomicRingBuffer T) (w : rb.WF) (v : T) :
    AtomicRingBuffer.WF
      { rb with mQueue := rb.mQueue.set rb.mHead v
                mHead := (rb.mHead + 1) % rb.mCapacity } where
  cap_pos := w.cap_pos
  slots := by simp [w.slots]
  head_lt := Nat.mod_lt _ w.cap_pos
  tail_lt := w.tail_lt
  writer_free := w.writer_free
  reader_free := w.reader_free

theorem PushBack_held {T : Type} (rb : AtomicRingBuffer T) (w : rb.WF) (v : T)
    (room : rb.held + 1 < rb.mCapacity) :
    AtomicRingBuffer.held
      { rb with mQueue := rb.mQueue.set rb.mHead v
                mHead := (rb.mHead + 1) % rb.mCapacity } = rb.held + 1 := by
  have h1 := w.head_lt
  have h2 := w.tail_lt
  have hh := held_eq rb w
  rw [held_eq _ (PushBack_wf rb w v)]
  simp only
  rw [succ_mod_cap h1]
  rw [hh] at room ⊢
  split at room <;> split <;> split <;> omega

theorem PushBack_contents {T : Type} [Inhabited T] (rb : AtomicRingBuffer T) (w : rb.WF)
    (v : T) (room : rb.held + 1 < rb.mCapacity) :
    AtomicRingBuffer.contents
      { rb with mQueue := rb.mQueue.set rb.mHead v
                mHead := (rb.mHead + 1) % rb.mCapacity } = rb.contents ++ [v] := by
  have h1 := w.head_lt
  have h2 := w.tail_lt
  have hh := held_eq rb w
  unfold AtomicRingBuffer.contents
  rw [PushBack_held rb w v room, List.range_succ, List.map_append]
  congr 1
  · apply List.map_congr_left
    intro i hi
    have hi : i < rb.held := List.mem_range.mp hi
    have hne : rb.mHead ≠ (rb.mTail + i) % rb.mCapacity := by
      rw [slot_index rb w i (by omega)]
      rw [hh] at hi
      split at hi <;> split <;> omega
    simp only [List.getD_eq_getElem?_getD, List.getElem?_set_ne hne]
  · have he : (rb.mTail + rb.held) % rb.mCapacity = rb.mHead := by
      rw [slot_index rb w _ (by omega), hh]
      split <;> split <;> omega
    simp only [List.map_cons, List.map_nil, he, List.getD_eq_getElem?_getD]
    rw [List.getElem?_set_self (by rw [w.slots]; exact h1)]
    rfl

theorem contents_length {T : Type} [Inhabited T] (rb : AtomicRingBuffer T) :
    rb.contents.length = rb.held := by
  simp [AtomicRingBuffer.contents]

theorem held_zero_iff {T : Type} (rb : AtomicRingBuffer T) (w : rb.WF) :
    rb.held = 0 ↔ rb.mHead = rb.mTail := by
  have h1 := w.head_lt
  have h2 := w.tail_lt
  rw [held_eq rb w]
  split <;> omega

/-- `PopFront` on a buffer that holds nothing: empty result, the buffer untouched. -/
theorem PopFront_empty {T : Type} [Inhabited T] (rb : AtomicRingBuffer T)
    (h : rb.mHead = rb.mTail) : rb.PopFront = .done none rb := by
  simp [AtomicRingBuffer.PopFront, h]

/-- `PopFront` on a buffer that holds something: the slot at `mTail`, tail advanced. -/
theorem PopFront_done {T : Type} [Inhabited T] (rb : AtomicRingBuffer T) (w : rb.WF)
    (h : rb.mHead ≠ rb.mTail) :
    rb.PopFront = .done (some (rb.mQueue.getD rb.mTail default))
      { rb with mTail := (rb.mTail + 1) % rb.mCapacity } := by
  have hl := lock_eq_of_free _ w.reader_free
  unfold AtomicRingBuffer.PopFront
  rw [lock_free _ w.reader_free]
  simp only [h, ne_eq, not_false_eq_true, if_true, SpinLock.Unlock]
  rw [← hl]

theorem PopFront_wf {T : Type} (rb : AtomicRingBuffer T) (w : rb.WF) :
    AtomicRingBuffer.WF { rb with mTail := (rb.mTail + 1) % rb.mCapacity } where
  cap_pos := w.cap_pos
  slots := w.slots
  head_lt := w.head_lt
  tail_lt := Nat.mod_lt _ w.cap_pos
  writer_free := w.writer_free
  reader_free := w.reader_free

theorem PopFront_held {T : Type} (rb : AtomicRingBuffer T) (w : rb.WF)
    (h : rb.mHead ≠ rb.mTail) :
    AtomicRingBuffer.held { rb with mTail := (rb.mTail + 1) % rb.mCapacity } + 1 = rb.held := by
  have h1 := w.head_lt
  have h2 := w.tail_lt
  rw [held_eq _ (PopFront_wf rb w), held_eq rb w]
  simp only
  rw [succ_mod_cap h2]
  split <;> split <;> split <;> omega

theorem PopFront_contents {T : Type} [Inhabited T] (rb : AtomicRingBuffer T) (w : rb.WF)
    (h : rb.mHead ≠ rb.mTail) :
    rb.contents = rb.mQueue.getD rb.mTail default ::
      AtomicRingBuffer.contents { rb with mTail := (rb.mTail + 1) % rb.mCapacity } := by
  have h2 := w.tail_lt
  have hh := PopFront_held rb w h
  unfold AtomicRingBuffer.contents
  rw [← hh, List.range_succ_eq_map, List.map_cons, List.map_map]
  congr 1
  · simp [Nat.mod_eq_of_lt h2]
  · apply List.map_congr_left
    intro i _
    simp only [Function.comp_apply]
    congr 1
    rw [Nat.mod_add_mod]
    congr 1
    omega

/-- `PushBack` on a full buffer: the assertion fires with the writer lock taken and
nothing written. -/
theorem PushBack_full {T : Type} (rb : AtomicRingBuffer T) (w : rb.WF) (v : T)
    (full : rb.held + 1 = rb.mCapacity) :
    rb.PushBack v = .assertFailed { rb with mWriterSpinLock := { mLock := true } } := by
  have he : (rb.mHead + 1) % rb.mCapacity = rb.mTail := (push_asserts_iff rb w).mpr full
  unfold AtomicRingBuffer.PushBack
  rw [lock_free _ w.writer_free]
  simp only [he, if_true]

theorem new_wf {T : Type} [Inhabited T] (C : Nat) (hC : 0 < C) :
    (AtomicRingBuffer.new C : AtomicRingBuffer T).WF where
  cap_pos := hC
  slots := by simp [AtomicRingBuffer.new]
  head_lt := hC
  tail_lt := hC
  writer_free := rfl
  reader_free := rfl

theorem new_contents {T : Type} [Inhabited T] (C : Nat) :
    (AtomicRingBuffer.new C : AtomicRingBuffer T).contents = [] := by
  simp [AtomicRingBuffer.contents, AtomicRingBuffer.held, AtomicRingBuffer.new]

/-- Every state a sequential client can reach keeps the shape and the capacity. -/
theorem runRing_wf {T : Type} [Inhabited T] (ops : List (RingOp T)) :
    ∀ (rb : AtomicRingBuffer T) (outs : List (Option T)) (rb2 : AtomicRingBuffer T),
      rb.WF → runRing ops rb = .done outs rb2 → rb2.WF ∧ rb2.mCapacity = rb.mCapacity := by
  induction ops with
  | nil =>
    intro rb outs rb2 w h
    simp only [runRing, Run.done.injEq] at h
    rw [← h.2]; exact ⟨w, rfl⟩
  | cons op ops ih =>
    intro rb outs rb2 w h
    cases op with
    | push v =>
      have hlt := held_lt rb w
      by_cases room : rb.held + 1 < rb.mCapacity
      · rw [runRing, PushBack_done rb w v room] at h
        have r := ih _ _ _ (PushBack_wf rb w v) h
        exact ⟨r.1, r.2⟩
      · rw [runRing, PushBack_full rb w v (by omega)] at h
        simp [Run.bind] at h
    | pop =>
      by_cases he : rb.mHead = rb.mTail
      · rw [runRing, PopFront_empty rb he] at h
        simp only [Run.bind] at h
        cases hr : runRing ops rb with
        | done a s =>
          rw [hr] at h
          simp only [Run.done.injEq] at h
          rw [← h.2]
          exact ih _ _ _ w hr
        | assertFailed s => rw [hr] at h; simp at h
        | spins s => rw [hr] at h; simp at h
      · rw [runRing, PopFront_done rb w he] at h
        simp only [Run.bind] at h
        cases hr : runRing ops { rb with mTail := (rb.mTail + 1) % rb.mCapacity } with
        | done a s =>
          rw [hr] at h
          simp only [Run.done.injEq] at h
          rw [← h.2]
          have r := ih _ _ _ (PopFront_wf rb w) hr
          exact ⟨r.1, r.2⟩
        | assertFailed s => rw [hr] at h; simp at h
        | spins s => rw [hr] at h; simp at h

/-- Simulation of the reference queue by the ring buffer, from any well-shaped state. -/
theorem runRing_fifo {T : Type} [Inhabited T] (ops : List (RingOp T)) :
    ∀ (rb : AtomicRingBuffer T), rb.WF →
      neverPushesAt (rb.mCapacity - 1) ops rb.contents = true →
      ∃ rb2, runRing ops rb = .done (fifoOutputs ops rb.contents) rb2 ∧ rb2.WF ∧
        rb2.mCapacity = rb.mCapacity ∧ rb2.contents = fifoAfter ops rb.contents := by
  induction ops with
  | nil =>
    intro rb w _
    exact ⟨rb, rfl, w, rfl, rfl⟩
  | cons op ops ih =>
    intro rb w hno
    cases op with
    | push v =>
      simp only [neverPushesAt, Bool.and_eq_true, decide_eq_true_eq, contents_length] at hno
      have hlt := held_lt rb w
      have room : rb.held + 1 < rb.mCapacity := by omega
      have hc := PushBack_contents rb w v room
      have hn := hno.2
      rw [← hc] at hn
      obtain ⟨rb2, h1, h2, h3, h4⟩ := ih _ (PushBack_wf rb w v) hn
      refine ⟨rb2, ?_, h2, h3, ?_⟩
      · rw [runRing, PushBack_done rb w v room]
        simp only [Run.bind, fifoOutputs]
        rw [h1, hc]
      · rw [h4, hc]; rfl
    | pop =>
      simp only [neverPushesAt] at hno
      by_cases he : rb.mHead = rb.mTail
      · have hz : rb.contents = [] := by
          apply List.eq_nil_of_length_eq_zero
          rw [contents_length]; exact (held_zero_iff rb w).mpr he
        rw [hz] at hno
        simp only [List.tail_nil] at hno
        rw [← hz] at hno
        obtain ⟨rb2, h1, h2, h3, h4⟩ := ih rb w hno
        refine ⟨rb2, ?_, h2, h3, ?_⟩
        · rw [runRing, PopFront_empty rb he]
          simp only [Run.bind, fifoOutputs]
          rw [hz] at h1 ⊢
          simp only [List.tail_nil, List.head?_nil]
          rw [h1]
        · rw [h4, hz]; rfl
      · have hc := PopFront_contents rb w he
        rw [hc] at hno
        simp only [List.tail_cons] at hno
        obtain ⟨rb2, h1, h2, h3, h4⟩ := ih _ (PopFront_wf rb w) hno
        refine ⟨rb2, ?_, h2, h3, ?_⟩
        · rw [runRing, PopFront_done rb w he]
          simp only [Run.bind, fifoOutputs]
          rw [hc]
          simp only [List.tail_cons, List.head?_cons]
          rw [h1]
        · rw [h4, hc]; rfl

/-! ## The wait list as a map -/

theorem find_cons (k v c : Nat) (wl : List (Nat × Nat)) :
    WaitList.find ((k, v) :: wl) c = if c = k then some v else WaitList.find wl c := by
  unfold WaitList.find
  rw [List.lookup_cons]
  by_cases h : c = k
  · simp [h]
  · have hb : (c == k) = false := by simpa using h
    simp [h, hb]

theorem find_erase_self (wl : List (Nat × Nat)) (c : Nat) :
    WaitList.find (WaitList.erase wl c) c = none := by
  induction wl with
  | nil => rfl
  | cons e wl ih =>
    obtain ⟨k, v⟩ := e
    by_cases h : k = c
    · simpa [WaitList.erase, h] using ih
    · have h2 : c ≠ k := fun e => h e.symm
      have : WaitList.erase ((k, v) :: wl) c = (k, v) :: WaitList.erase wl c := by
        simp [WaitList.erase, h]
      rw [this, find_cons, if_neg h2, ih]

theorem find_erase_other (wl : List (Nat × Nat)) (c d : Nat) (hd : d ≠ c) :
    WaitList.find (WaitList.erase wl c) d = WaitList.find wl d := by
  induction wl with
  | nil => rfl
  | cons e wl ih =>
    obtain ⟨k, v⟩ := e
    by_cases h : k = c
    · have : WaitList.erase ((k, v) :: wl) c = WaitList.erase wl c := by
        simp [WaitList.erase, h]
      rw [this, ih, find_cons, if_neg (by rw [h]; exact hd)]
    · have : WaitList.erase ((k, v) :: wl) c = (k, v) :: WaitList.erase wl c := by
        simp [WaitList.erase, h]
      rw [this, find_cons, find_cons, ih]

theorem erase_of_find_none (wl : List (Nat × Nat)) (c : Nat)
    (h : WaitList.find wl c = none) : WaitList.erase wl c = wl := by
  induction wl with
  | nil => rfl
  | cons e wl ih =>
    obtain ⟨k, v⟩ := e
    rw [find_cons] at h
    by_cases hk : c = k
    · simp [hk] at h
    · rw [if_neg hk] at h
      have hk2 : k ≠ c := fun e => hk e.symm
      have : WaitList.erase ((k, v) :: wl) c = (k, v) :: WaitList.erase wl c := by
        simp [WaitList.erase, hk2]
      rw [this, ih h]

theorem find_assign_self (wl : List (Nat × Nat)) (c p : Nat) :
    WaitList.find (WaitList.assign wl c p) c = some p := by
  rw [WaitList.assign, find_cons, if_pos rfl]

theorem find_assign_other (wl : List (Nat × Nat)) (c p d : Nat) (hd : d ≠ c) :
    WaitList.find (WaitList.assign wl c p) d = WaitList.find wl d := by
  rw [WaitList.assign, find_cons, if_neg hd, find_erase_other wl c d hd]

theorem erase_assign (wl : List (Nat × Nat)) (c p : Nat)
    (h : WaitList.find wl c = none) : WaitList.erase (WaitList.assign wl c p) c = wl := by
  have h2 := erase_of_find_none wl c h
  rw [WaitList.assign, h2]
  have : WaitList.erase ((c, p) :: wl) c = WaitList.erase wl c := by
    simp [WaitList.erase]
  rw [this, h2]

/-! ## RunJobs -/

/-- The descriptor `RunJobs` enqueues for `jobs[i]`: the counter installed, the rest kept. -/
theorem installed_fields (j : JobDecl) (counter : Nat) :
    ({ j with mCounter := counter } : JobDecl).mFunction = j.mFunction ∧
    ({ j with mCounter := counter } : JobDecl).mParam = j.mParam ∧
    ({ j with mCounter := counter } : JobDecl).mCounter = counter :=
  ⟨rfl, rfl, rfl⟩

/-- The loop of `RunJobs` from index `i`: with room for `n` more elements it completes and
only the job queue changes, by the `n` descriptors appended in order. -/
theorem RunJobs_loop_done (counter : Nat) (n : Nat) :
    ∀ (i : Nat) (jobs : Nat → JobDecl) (s : JobSystem), s.mJobQueue.WF →
      s.mJobQueue.held + n + 1 ≤ s.mJobQueue.mCapacity →
      ∃ rb : AtomicRingBuffer JobDecl,
        RunJobs.loop counter n i jobs s =
          .done (fun k => if i ≤ k ∧ k < i + n then { (jobs k) with mCounter := counter }
            else jobs k) { s with mJobQueue := rb } ∧
        rb.WF ∧ rb.mCapacity = s.mJobQueue.mCapacity ∧ rb.held = s.mJobQueue.held + n ∧
        rb.contents = s.mJobQueue.contents ++
          (List.range' i n).map fun k => { (jobs k) with mCounter := counter } := by
  induction n with
  | zero =>
    intro i jobs s w _
    refine ⟨s.mJobQueue, ?_, w, rfl, rfl, by simp⟩
    simp only [RunJobs.loop, Nat.add_zero]
    congr 1
    funext k
    have : ¬ (i ≤ k ∧ k < i) := by omega
    simp [this]
  | succ n ih =>
    intro i jobs s w room
    have room1 : s.mJobQueue.held + 1 < s.mJobQueue.mCapacity := by omega
    have hjob : Function.update jobs i { (jobs i) with mCounter := counter } i =
        { (jobs i) with mCounter := counter } := Function.update_same _ _ _
    obtain ⟨rb, h1, h2, h3, h4, h5⟩ := ih (i + 1)
      (Function.update jobs i { (jobs i) with mCounter := counter })
      { s with mJobQueue :=
        { s.mJobQueue with
          mQueue := s.mJobQueue.mQueue.set s.mJobQueue.mHead { (jobs i) with mCounter := counter }
          mHead := (s.mJobQueue.mHead + 1) % s.mJobQueue.mCapacity } }
      (PushBack_wf _ w _)
      (by
        have := PushBack_held _ w ({ (jobs i) with mCounter := counter } : JobDecl) room1
        simp only at this ⊢
        rw [this]; omega)
    refine ⟨rb, ?_, h2, h3, ?_, ?_⟩
    · simp only [RunJobs.loop]
      rw [hjob, PushBack_done _ w _ room1]
      simp only [Run.lift, Run.bind]
      rw [h1]
      congr 1
      funext k
      by_cases hk : k = i
      · subst hk
        have a1 : ¬ (k + 1 ≤ k ∧ k < k + 1 + n) := by omega
        have a2 : k ≤ k ∧ k < k + (n + 1) := by omega
        simp [a1, a2]
      · have hu : Function.update jobs i { (jobs i) with mCounter := counter } k = jobs k :=
          Function.update_noteq hk _ _
        by_cases hr : i + 1 ≤ k ∧ k < i + 1 + n
        · have a2 : i ≤ k ∧ k < i + (n + 1) := by omega
          simp [hr, a2, hu]
        · have a2 : ¬ (i ≤ k ∧ k < i + (n + 1)) := by omega
          simp [hr, a2, hu]
    · rw [h4]
      have := PushBack_held _ w ({ (jobs i) with mCounter := counter } : JobDecl) room1
      simp only at this ⊢
      rw [this]; omega
    · rw [h5]
      have := PushBack_contents _ w ({ (jobs i) with mCounter := counter } : JobDecl) room1
      simp only at this ⊢
      rw [this, List.range'_succ, List.map_cons, List.append_assoc, List.singleton_append]
      congr 2
      apply List.map_congr_left
      intro k hk
      have hk2 : i + 1 ≤ k := (List.mem_range'_1.mp hk).1
      have hu : Function.update jobs i { (jobs i) with mCounter := counter } k = jobs k :=
        Function.update_noteq (by omega) _ _
      rw [hu]

/-! ## The constructor -/

/-- The first loop of the constructor only sets `tCurrentFiber` of the threads started. -/
theorem startThreads_eq (os : FiberApi) (n : Nat) :
    ∀ (i : Nat) (s : JobSystem),
      JobSystem.startThreads os n i s =
        { s with tls := fun k => if i ≤ k ∧ k < i + n then
            { (s.tls k) with tCurrentFiber := os.ConvertThreadToFiber k } else s.tls k } := by
  induction n with
  | zero =>
    intro i s
    simp only [JobSystem.startThreads]
    have h : (fun k => if i ≤ k ∧ k < i + 0 then
        ({ (s.tls k) with tCurrentFiber := os.ConvertThreadToFiber k } : ThreadLocals)
        else s.tls k) = s.tls := by
      funext k
      have : ¬ (i ≤ k ∧ k < i + 0) := by omega
      simp only [this, if_false]
    rw [h]
  | succ n ih =>
    intro i s
    simp only [JobSystem.startThreads, ih, ThreadWorkerEntry.convert, JobSystem.setTls]
    congr 1
    funext k
    by_cases hk : k = i
    · subst hk
      have a1 : ¬ (k + 1 ≤ k ∧ k < k + 1 + n) := by omega
      have a2 : k ≤ k ∧ k < k + (n + 1) := by omega
      simp [a1, a2]
    · by_cases hr : i + 1 ≤ k ∧ k < i + 1 + n
      · have a2 : i ≤ k ∧ k < i + (n + 1) := by omega
        simp [hr, a2, Function.update_noteq hk]
      · have a2 : ¬ (i ≤ k ∧ k < i + (n + 1)) := by omega
        simp [hr, a2, Function.update_noteq hk]

/-- The second loop of the constructor from index `i`: with room for `n` more elements it
completes and appends the `n` handles created, in order, to the fiber pool. -/
theorem fillPool_done (os : FiberApi) (n : Nat) :
    ∀ (i : Nat) (s : JobSystem), s.mFiberPool.WF →
      s.mFiberPool.held + n + 1 ≤ s.mFiberPool.mCapacity →
      ∃ rb : AtomicRingBuffer Nat,
        JobSystem.fillPool os n i s = .done () { s with mFiberPool := rb } ∧
        rb.WF ∧ rb.mCapacity = s.mFiberPool.mCapacity ∧ rb.held = s.mFiberPool.held + n ∧
        rb.contents = s.mFiberPool.contents ++ (List.range' i n).map os.CreateFiber := by
  induction n with
  | zero =>
    intro i s w _
    exact ⟨s.mFiberPool, rfl, w, rfl, rfl, by simp⟩
  | succ n ih =>
    intro i s w room
    have room1 : s.mFiberPool.held + 1 < s.mFiberPool.mCapacity := by omega
    have hh := PushBack_held _ w (os.CreateFiber i) room1
    have hc := PushBack_contents _ w (os.CreateFiber i) room1
    obtain ⟨rb, h1, h2, h3, h4, h5⟩ := ih (i + 1)
      { s with mFiberPool :=
        { s.mFiberPool with
          mQueue := s.mFiberPool.mQueue.set s.mFiberPool.mHead (os.CreateFiber i)
          mHead := (s.mFiberPool.mHead + 1) % s.mFiberPool.mCapacity } }
      (PushBack_wf _ w _)
      (by simp only at hh ⊢; rw [hh]; omega)
    refine ⟨rb, ?_, h2, h3, ?_, ?_⟩
    · simp only [JobSystem.fillPool]
      rw [PushBack_done _ w _ room1]
      simp only [Run.lift, Run.bind]
      rw [h1]
    · rw [h4]; simp only at hh ⊢; rw [hh]; omega
    · rw [h5]; simp only at hc ⊢
      rw [hc, List.range'_succ, List.map_cons, List.append_assoc, List.singleton_append]

theorem capacity_eq {T : Type} (rb : AtomicRingBuffer T) (h1 : 1 ≤ rb.mCapacity)
    (h64 : rb.mCapacity < 2 ^ 64) : rb.Capacity = rb.mCapacity - 1 := by
  unfold AtomicRingBuffer.Capacity
  have e : rb.mCapacity + 2 ^ 64 - 1 = (rb.mCapacity - 1) + 2 ^ 64 := by omega
  rw [e, Nat.add_mod_right]
  exact Nat.mod_eq_of_lt (by omega)

/-- The state the constructor builds: threads converted to fibers, `mNumFibers - 1` created
fibers in the pool, everything else empty. -/
theorem new_done (os : FiberApi) (args : Args) (h1 : 1 ≤ args.mNumFibers)
    (h16 : args.mNumFibers < 2 ^ 16) :
    ∃ rb : AtomicRingBuffer Nat,
      JobSystem.new os args = .done ()
        { mThreads := args.mNumThreads
          mFiberPool := rb
          mJobQueue := AtomicRingBuffer.new args.mQueueSize
          mWaitListLock := {}
          mWaitList := []
          mShutDown := false
          counters := fun _ => 0
          usedFibers := fun _ => {}
          tls := fun k => if k < args.mNumThreads then
            { tCurrentFiber := os.ConvertThreadToFiber k } else {}
          trace := [] } ∧
      rb.WF ∧ rb.mCapacity = args.mNumFibers ∧ rb.held = args.mNumFibers - 1 ∧
      rb.contents = (List.range (args.mNumFibers - 1)).map os.CreateFiber := by
  have hcap : (AtomicRingBuffer.new args.mNumFibers : AtomicRingBuffer Nat).Capacity =
      args.mNumFibers - 1 :=
    capacity_eq _ h1 (lt_trans h16 (by norm_num))
  have hheld : (AtomicRingBuffer.new args.mNumFibers : AtomicRingBuffer Nat).held = 0 := by
    simp [AtomicRingBuffer.held, AtomicRingBuffer.new]
  simp only [JobSystem.new, startThreads_eq, hcap]
  obtain ⟨rb, h1, h2, h3, h4, h5⟩ := fillPool_done os (args.mNumFibers - 1) 0
    { mThreads := args.mNumThreads
      mFiberPool := AtomicRingBuffer.new args.mNumFibers
      mJobQueue := AtomicRingBuffer.new args.mQueueSize
      mWaitListLock := {}
      mWaitList := []
      mShutDown := false
      counters := fun _ => 0
      usedFibers := fun _ => {}
      tls := fun k => if 0 ≤ k ∧ k < 0 + args.mNumThreads then
        { tCurrentFiber := os.ConvertThreadToFiber k } else {}
      trace := [] }
    (new_wf _ (by omega))
    (by simp only [hheld]; show 0 + (args.mNumFibers - 1) + 1 ≤ args.mNumFibers; omega)
  refine ⟨rb, ?_, h2, h3, ?_, ?_⟩
  · rw [h1]
    simp
  · rw [h4, hheld]; omega
  · rw [h5, new_contents, List.nil_append, List.range_eq_range']

/-! ## The completion handoff -/

/-- The handoff when the wait list has no entry for the counter: lock, look up, unlock,
return. -/
theorem handoff_absent (t counter : Nat) (s : JobSystem)
    (hfree : s.mWaitListLock.mLock = false)
    (habsent : WaitList.find s.mWaitList counter = none) :
    FiberJobEntry.handoff t counter s = .done .returned
      { s with trace := s.trace ++ [.acquire .waitList, .release .waitList] } := by
  have hl := lock_eq_of_free _ hfree
  simp [FiberJobEntry.handoff, JobSystem.lockWaitList, JobSystem.unlockWaitList,
    JobSystem.log, SpinLock.Lock, SpinLock.Unlock, Run.bind, hfree, habsent]
  exact hl.symm

/-- The handoff when the wait list maps the counter to a record whose lock is free. -/
theorem handoff_present (t counter : Nat) (s : JobSystem) (p : Nat)
    (hfree : s.mWaitListLock.mLock = false)
    (hpresent : WaitList.find s.mWaitList counter = some p)
    (hfiber : (s.usedFibers p).fiber ≠ 0)
    (hrecord : (s.usedFibers p).lock.mLock = false) :
    FiberJobEntry.handoff t counter s = .done (.switched (s.usedFibers p).fiber)
      { s with
        mWaitList := WaitList.erase s.mWaitList counter
        tls := Function.update s.tls t
          { tCurrentFiber := (s.usedFibers p).fiber
            tFiberToBeUnlockedAfterSwitch := (s.tls t).tFiberToBeUnlockedAfterSwitch
            tFiberToBeAddedToPool := (s.tls t).tCurrentFiber }
        trace := s.trace ++
          [.acquire .waitList, .waitListErase counter, .release .waitList,
            .acquire (.usedFiber p), .release (.usedFiber p),
            .switchTo (s.usedFibers p).fiber] } := by
  have hl := lock_eq_of_free _ hfree
  have hr : Function.update s.usedFibers p
      { fiber := (s.usedFibers p).fiber, lock := { mLock := false } } = s.usedFibers := by
    funext q
    by_cases hq : q = p
    · subst hq
      rw [Function.update_same]
      have := lock_eq_of_free _ hrecord
      cases hu : s.usedFibers q with
      | mk f l => rw [hu] at this; simp at this; simp [this]
    · rw [Function.update_noteq hq]
  simp [FiberJobEntry.handoff, FiberJobEntry.publish, JobSystem.lockWaitList,
    JobSystem.unlockWaitList, JobSystem.lockUsedFiber, JobSystem.unlockUsedFiber,
    JobSystem.waitListErase, JobSystem.switchTo, JobSystem.setTls, JobSystem.setUsedFiber,
    JobSystem.log, SpinLock.Lock, SpinLock.Unlock, Run.bind, hfree, hpresent, hfiber, hrecord,
    hr]
  exact hl.symm

/-! ## The worker loop -/

theorem callsOf_append (a b : List Event) : callsOf (a ++ b) = callsOf a ++ callsOf b := by
  simp [callsOf, List.filterMap_append]

theorem waitListLocksOf_append (a b : List Event) :
    waitListLocksOf (a ++ b) = waitListLocksOf a + waitListLocksOf b := by
  simp [waitListLocksOf, List.count_append]

/-- `PopFront` on a buffer whose oldest element is `x`. -/
theorem PopFront_cons {T : Type} [Inhabited T] (rb : AtomicRingBuffer T) (w : rb.WF)
    (x : T) (xs : List T) (h : rb.contents = x :: xs) :
    rb.PopFront = .done (some x) { rb with mTail := (rb.mTail + 1) % rb.mCapacity } ∧
    AtomicRingBuffer.contents { rb with mTail := (rb.mTail + 1) % rb.mCapacity } = xs := by
  have hne : rb.mHead ≠ rb.mTail := by
    intro e
    have hz := (held_zero_iff rb w).mpr e
    rw [← contents_length, h] at hz
    simp at hz
  have hc := PopFront_contents rb w hne
  rw [h] at hc
  simp only [List.cons.injEq] at hc
  exact ⟨by rw [PopFront_done rb w hne, hc.1], hc.2.symm⟩

/-- What lines 135-139 leave alone. -/
theorem unlockPrevious_frame (t : Nat) (s : JobSystem) :
    (FiberWorkerEntry.unlockPrevious t s).mJobQueue = s.mJobQueue ∧
    (FiberWorkerEntry.unlockPrevious t s).counters = s.counters ∧
    (FiberWorkerEntry.unlockPrevious t s).mShutDown = s.mShutDown ∧
    (FiberWorkerEntry.unlockPrevious t s).mWaitListLock = s.mWaitListLock ∧
    (FiberWorkerEntry.unlockPrevious t s).mWaitList = s.mWaitList ∧
    (FiberWorkerEntry.unlockPrevious t s).mFiberPool = s.mFiberPool ∧
    callsOf (FiberWorkerEntry.unlockPrevious t s).trace = callsOf s.trace ∧
    waitListLocksOf (FiberWorkerEntry.unlockPrevious t s).trace = waitListLocksOf s.trace := by
  unfold FiberWorkerEntry.unlockPrevious
  split
  · simp [JobSystem.unlockUsedFiber, JobSystem.setTls, JobSystem.setUsedFiber, JobSystem.log,
      callsOf_append, waitListLocksOf_append, callsOf, waitListLocksOf]
  · simp

/-- Whatever way the handoff ends, it leaves counters and job queue alone, makes no call
and takes the wait-list lock once. -/
theorem handoff_effect (t counter : Nat) (s : JobSystem)
    (hfree : s.mWaitListLock.mLock = false) :
    (FiberJobEntry.handoff t counter s).state.counters = s.counters ∧
    callsOf (FiberJobEntry.handoff t counter s).state.trace = callsOf s.trace ∧
    waitListLocksOf (FiberJobEntry.handoff t counter s).state.trace =
      waitListLocksOf s.trace + 1 := by
  unfold FiberJobEntry.handoff
  simp only [JobSystem.lockWaitList, SpinLock.Lock, hfree, Run.bind]
  cases hf : WaitList.find s.mWaitList counter with
  | none =>
    simp [hf, JobSystem.log, JobSystem.unlockWaitList, Run.state, callsOf_append,
      waitListLocksOf_append, callsOf, waitListLocksOf]
  | some p =>
    by_cases hz : (s.usedFibers p).fiber = 0
    · simp [hf, hz, JobSystem.log, Run.state, callsOf_append,
        waitListLocksOf_append, callsOf, waitListLocksOf]
    · by_cases hl : (s.usedFibers p).lock.mLock = true
      · simp [hf, hz, hl, JobSystem.log, JobSystem.unlockWaitList, JobSystem.waitListErase,
          JobSystem.lockUsedFiber, SpinLock.Lock, Run.bind, Run.state, callsOf_append,
          waitListLocksOf_append, callsOf, waitListLocksOf]
      · simp [hf, hz, hl, JobSystem.log, JobSystem.unlockWaitList, JobSystem.waitListErase,
          JobSystem.lockUsedFiber, JobSystem.unlockUsedFiber, JobSystem.setUsedFiber,
          JobSystem.setTls, JobSystem.switchTo, FiberJobEntry.publish, SpinLock.Lock,
          SpinLock.Unlock, Run.bind, Run.state, callsOf_append,
          waitListLocksOf_append, callsOf, waitListLocksOf]

/-- One iteration of the worker loop on a batch with jobs left: it runs `FiberJobEntry` on
job `j`, popped from the queue, in a state `s1` that differs from `s` by the pop and by lines
135-139. -/
theorem iteration_pops (code : JobCode) (t : Nat) (jobs : Nat → JobDecl) (n c j : Nat)
    (calls0 : List (Nat × Nat)) (locks0 : Nat) (s : JobSystem)
    (d : Draining jobs n c j calls0 locks0 s) (hj : j < n) :
    ∃ s1 : JobSystem,
      FiberWorkerEntry.iteration code t s =
        FiberJobEntry code t { (jobs j) with mCounter := c } s1 ∧
      s1.mJobQueue.WF ∧
      s1.mJobQueue.contents =
        (List.range' (j + 1) (n - (j + 1))).map (fun i => { (jobs i) with mCounter := c }) ∧
      s1.counters = s.counters ∧ s1.mShutDown = s.mShutDown ∧
      s1.mWaitListLock = s.mWaitListLock ∧ callsOf s1.trace = callsOf s.trace ∧
      waitListLocksOf s1.trace = waitListLocksOf s.trace := by
  have hq := d.queue
  have e : n - j = (n - (j + 1)) + 1 := by omega
  rw [e, List.range'_succ, List.map_cons] at hq
  obtain ⟨h1, h2⟩ := PopFront_cons s.mJobQueue d.wf _ _ hq
  have hu := unlockPrevious_frame t s
  refine ⟨{ (FiberWorkerEntry.unlockPrevious t s) with
      mJobQueue := { s.mJobQueue with
        mTail := (s.mJobQueue.mTail + 1) % s.mJobQueue.mCapacity } },
    ?_, PopFront_wf _ d.wf, h2, hu.2.1, hu.2.2.1, hu.2.2.2.1, hu.2.2.2.2.2.2.1,
    hu.2.2.2.2.2.2.2⟩
  unfold FiberWorkerEntry.iteration
  simp only [hu.1, h1, Run.lift, Run.bind]

/-- The counter of the batch after the call and the decrement of job `j`. -/
theorem counter_after_job (code : JobCode) (job : JobDecl) (c v : Nat) (s1 : JobSystem)
    (hjob : job.mCounter = c) (hcode : ∀ f p m, code f p m c = m c)
    (hv : s1.counters c = v + 1) (h32 : v + 1 < 2 ^ 32) :
    (FiberJobEntry.decrement job.mCounter (FiberJobEntry.call code job s1)).counters c = v := by
  have e : v + 1 + 2 ^ 32 - 1 = v + 2 ^ 32 := by omega
  simp only [FiberJobEntry.decrement, FiberJobEntry.call, JobSystem.setCounter, JobSystem.log,
    hjob, Function.update_same, hcode, hv, e, Nat.add_mod_right]
  exact Nat.mod_eq_of_lt (by omega)

/-- An iteration that is not the last of the batch returns to the loop with one more job
completed. -/
theorem iteration_mid (code : JobCode) (t : Nat) (jobs : Nat → JobDecl) (n c j : Nat)
    (calls0 : List (Nat × Nat)) (locks0 : Nat) (s : JobSystem)
    (hn32 : n < 2 ^ 32) (hcode : ∀ f p m, code f p m c = m c)
    (d : Draining jobs n c j calls0 locks0 s) (hj : j + 1 < n) :
    ∃ s2, FiberWorkerEntry.iteration code t s = .done .returned s2 ∧
      Draining jobs n c (j + 1) calls0 locks0 s2 := by
  obtain ⟨s1, h1, hw, hq, hc, hsd, hl, hcalls, hlocks⟩ :=
    iteration_pops code t jobs n c j calls0 locks0 s d (by omega)
  have hv := counter_after_job code { (jobs j) with mCounter := c } c (n - (j + 1)) s1 rfl hcode
    (by rw [hc, d.counter]; omega) (by omega)
  refine ⟨FiberJobEntry.decrement c
    (FiberJobEntry.call code { (jobs j) with mCounter := c } s1), ?_, ?_⟩
  · rw [h1]
    unfold FiberJobEntry
    exact if_neg (by rw [hv]; omega)
  · constructor
    · exact hw
    · exact hq
    · exact hv
    · exact hsd.trans d.running
    · show s1.mWaitListLock.mLock = false
      rw [hl]; exact d.free
    · show callsOf (s1.trace ++ [Event.call _ _]) = _
      rw [callsOf_append, hcalls, d.calls, List.range_succ, List.map_append,
        List.append_assoc]
      rfl
    · show waitListLocksOf (s1.trace ++ [Event.call _ _]) = _
      rw [waitListLocksOf_append, hlocks, d.locks]
      rfl

/-- The last iteration of the batch: the counter reaches zero and the handoff is entered. -/
theorem iteration_last (code : JobCode) (t : Nat) (jobs : Nat → JobDecl) (n c j : Nat)
    (calls0 : List (Nat × Nat)) (locks0 : Nat) (s : JobSystem)
    (hcode : ∀ f p m, code f p m c = m c)
    (d : Draining jobs n c j calls0 locks0 s) (hj : j + 1 = n) :
    (FiberWorkerEntry.iteration code t s).state.counters c = 0 ∧
    callsOf (FiberWorkerEntry.iteration code t s).state.trace =
      calls0 ++ (List.range n).map (fun i => ((jobs i).mFunction, (jobs i).mParam)) ∧
    waitListLocksOf (FiberWorkerEntry.iteration code t s).state.trace = locks0 + 1 := by
  obtain ⟨s1, h1, hw, hq, hc, hsd, hl, hcalls, hlocks⟩ :=
    iteration_pops code t jobs n c j calls0 locks0 s d (by omega)
  have hv := counter_after_job code { (jobs j) with mCounter := c } c 0 s1 rfl hcode
    (by rw [hc, d.counter]; omega) (by omega)
  have hrun : FiberWorkerEntry.iteration code t s = FiberJobEntry.handoff t c
      (FiberJobEntry.decrement c
        (FiberJobEntry.call code { (jobs j) with mCounter := c } s1)) := by
    rw [h1]
    unfold FiberJobEntry
    exact if_pos hv
  have he := handoff_effect t c
    (FiberJobEntry.decrement c (FiberJobEntry.call code { (jobs j) with mCounter := c } s1))
    (by show s1.mWaitListLock.mLock = false
        rw [hl]; exact d.free)
  rw [hrun]
  refine ⟨?_, ?_, ?_⟩
  · rw [he.1]; exact hv
  · rw [he.2.1]
    show callsOf (s1.trace ++ [Event.call _ _]) = _
    rw [callsOf_append, hcalls, d.calls, ← hj, List.range_succ, List.map_append,
      List.append_assoc]
    rfl
  · rw [he.2.2]
    show waitListLocksOf (s1.trace ++ [Event.call _ _]) + 1 = _
    rw [waitListLocksOf_append, hlocks, d.locks]
    rfl

theorem bind_loop_state (code : JobCode) (t : Nat) (r : Run Ctl JobSystem) :
    (r.bind fun ctl s1 =>
      match ctl with
      | .returned => FiberWorkerEntry code t 0 s1
      | .switched h => .done (.switched h) s1).state = r.state := by
  cases r with
  | done a s1 => cases a <;> rfl
  | assertFailed s1 => rfl
  | spins s1 => rfl

/-- The worker loop on a batch: `k` more iterations from a state with `j` jobs completed. -/
theorem worker_loop (code : JobCode) (t : Nat) (jobs : Nat → JobDecl) (n c : Nat)
    (calls0 : List (Nat × Nat)) (locks0 : Nat)
    (hn32 : n < 2 ^ 32) (hcode : ∀ f p m, code f p m c = m c) (k : Nat) :
    ∀ (j : Nat) (s : JobSystem), Draining jobs n c j calls0 locks0 s → j + k ≤ n →
      (FiberWorkerEntry code t k s).state.counters c = n - (j + k) ∧
      callsOf (FiberWorkerEntry code t k s).state.trace =
        calls0 ++ (List.range (j + k)).map (fun i => ((jobs i).mFunction, (jobs i).mParam)) ∧
      waitListLocksOf (FiberWorkerEntry code t k s).state.trace =
        locks0 + (if j + k = n ∧ 0 < k then 1 else 0) ∧
      (j + k < n → ∃ s2, FiberWorkerEntry code t k s = .done .returned s2) := by
  induction k with
  | zero =>
    intro j s d _
    refine ⟨d.counter, d.calls, ?_, fun _ => ⟨s, rfl⟩⟩
    simp only [FiberWorkerEntry, Run.state, Nat.add_zero, Nat.lt_irrefl, and_false, if_false]
    exact d.locks
  | succ k ih =>
    intro j s d hle
    have hsd : s.mShutDown = false := d.running
    by_cases hj : j + 1 < n
    · obtain ⟨s2, h1, d2⟩ := iteration_mid code t jobs n c j calls0 locks0 s hn32 hcode d hj
      have hrun : FiberWorkerEntry code t (k + 1) s = FiberWorkerEntry code t k s2 := by
        simp only [FiberWorkerEntry, hsd, h1, Run.bind]
        rfl
      obtain ⟨a1, a2, a3, a4⟩ := ih (j + 1) s2 d2 (by omega)
      have e : j + 1 + k = j + (k + 1) := by omega
      rw [hrun]
      rw [e] at a1 a2 a3 a4
      refine ⟨a1, a2, ?_, a4⟩
      rw [a3]
      by_cases h : j + (k + 1) = n
      · have hk : 0 < k := by omega
        simp [h, hk]
      · simp [h]
    · have hjn : j + 1 = n := by omega
      have hk : k = 0 := by omega
      subst hk
      obtain ⟨b1, b2, b3⟩ := iteration_last code t jobs n c j calls0 locks0 s hcode d hjn
      have hst : (FiberWorkerEntry code t (0 + 1) s).state =
          (FiberWorkerEntry.iteration code t s).state := by
        simp only [FiberWorkerEntry, hsd]
        exact bind_loop_state code t _
      rw [hst, b1, b2, b3]
      refine ⟨by omega, by rw [hjn], by simp [hjn], fun h => by omega⟩

/-! ## What each transition does to the fibers -/

/-- `RunJobs` touches the job queue and the counters only. -/
theorem RunJobs_loop_frame (counter : Nat) (n : Nat) :
    ∀ (i : Nat) (jobs jobs2 : Nat → JobDecl) (s s2 : JobSystem),
      RunJobs.loop counter n i jobs s = .done jobs2 s2 →
      s2.mFiberPool = s.mFiberPool ∧ s2.mWaitList = s.mWaitList ∧ s2.tls = s.tls ∧
      s2.usedFibers = s.usedFibers ∧ s2.mThreads = s.mThreads := by
  induction n with
  | zero =>
    intro i jobs jobs2 s s2 h
    simp only [RunJobs.loop, Run.done.injEq] at h
    rw [← h.2]
    exact ⟨rfl, rfl, rfl, rfl, rfl⟩
  | succ n ih =>
    intro i jobs jobs2 s s2 h
    simp only [RunJobs.loop] at h
    cases hp : s.mJobQueue.PushBack
        (Function.update jobs i { (jobs i) with mCounter := counter } i) with
    | done a rb =>
      rw [hp] at h
      simp only [Run.lift, Run.bind] at h
      have r := ih _ _ _ _ _ h
      exact r
    | assertFailed rb => rw [hp] at h; simp [Run.lift, Run.bind] at h
    | spins rb => rw [hp] at h; simp [Run.lift, Run.bind] at h

theorem RunJobs_frame (jobs jobs2 : Nat → JobDecl) (n counter : Nat) (s s2 : JobSystem)
    (h : RunJobs (some jobs) n counter s = .done jobs2 s2) :
    s2.mFiberPool = s.mFiberPool ∧ s2.mWaitList = s.mWaitList ∧ s2.tls = s.tls ∧
    s2.usedFibers = s.usedFibers ∧ s2.mThreads = s.mThreads := by
  unfold RunJobs at h
  by_cases hc : counter = 0
  · simp [hc] at h
  · simp only [hc, if_false] at h
    exact RunJobs_loop_frame counter n 0 jobs jobs2 (s.setCounter counter n) s2 h

/-- Lines 135-139 change no fiber: only the lock of a record and the unlock slot. -/
theorem unlockPrevious_fibers (t : Nat) (s : JobSystem) :
    (FiberWorkerEntry.unlockPrevious t s).mFiberPool = s.mFiberPool ∧
    (FiberWorkerEntry.unlockPrevious t s).mWaitList = s.mWaitList ∧
    (FiberWorkerEntry.unlockPrevious t s).mThreads = s.mThreads ∧
    (∀ q, ((FiberWorkerEntry.unlockPrevious t s).usedFibers q).fiber =
      (s.usedFibers q).fiber) ∧
    (∀ i, ((FiberWorkerEntry.unlockPrevious t s).tls i).tCurrentFiber =
        (s.tls i).tCurrentFiber ∧
      ((FiberWorkerEntry.unlockPrevious t s).tls i).tFiberToBeAddedToPool =
        (s.tls i).tFiberToBeAddedToPool) := by
  unfold FiberWorkerEntry.unlockPrevious
  split
  · refine ⟨rfl, rfl, rfl, ?_, ?_⟩
    · intro q
      simp only [JobSystem.setTls, JobSystem.unlockUsedFiber, JobSystem.setUsedFiber,
        JobSystem.log]
      by_cases hq : q = (s.tls t).tFiberToBeUnlockedAfterSwitch
      · rw [hq, Function.update_same]
      · rw [Function.update_noteq hq]
    · intro i
      simp only [JobSystem.setTls, JobSystem.unlockUsedFiber, JobSystem.setUsedFiber,
        JobSystem.log]
      by_cases hi : i = t
      · rw [hi, Function.update_same]; exact ⟨rfl, rfl⟩
      · rw [Function.update_noteq hi]; exact ⟨rfl, rfl⟩
  · exact ⟨rfl, rfl, rfl, fun _ => rfl, fun _ => ⟨rfl, rfl⟩⟩

/-- A completed handoff either leaves wait list and thread-locals alone, or took an entry
off the wait list and made its fiber current, the fiber that was current going to
`tFiberToBeAddedToPool`. -/
theorem handoff_fibers (t counter : Nat) (s s2 : JobSystem) (ctl : Ctl)
    (h0 : FiberJobEntry.handoff t counter s = .done ctl s2) :
    s2.mFiberPool = s.mFiberPool ∧ s2.mThreads = s.mThreads ∧
    (∀ q, (s2.usedFibers q).fiber = (s.usedFibers q).fiber) ∧
    ((s2.mWaitList = s.mWaitList ∧ s2.tls = s.tls) ∨
      ∃ p, WaitList.find s.mWaitList counter = some p ∧ (s.usedFibers p).fiber ≠ 0 ∧
        s2.mWaitList = WaitList.erase s.mWaitList counter ∧
        s2.tls = Function.update s.tls t
          { tCurrentFiber := (s.usedFibers p).fiber
            tFiberToBeUnlockedAfterSwitch := (s.tls t).tFiberToBeUnlockedAfterSwitch
            tFiberToBeAddedToPool := (s.tls t).tCurrentFiber }) := by
  have h := h0
  unfold FiberJobEntry.handoff at h
  by_cases hl : s.mWaitListLock.mLock = true
  · simp [JobSystem.lockWaitList, SpinLock.Lock, hl, Run.bind] at h
  · simp only [Bool.not_eq_true] at hl
    cases hf : WaitList.find s.mWaitList counter with
    | none =>
      simp [JobSystem.lockWaitList, SpinLock.Lock, JobSystem.log, hl, hf, Run.bind,
        JobSystem.unlockWaitList] at h
      rw [← h.2]
      exact ⟨rfl, rfl, fun _ => rfl, Or.inl ⟨rfl, rfl⟩⟩
    | some p =>
      by_cases hz : (s.usedFibers p).fiber = 0
      · simp [JobSystem.lockWaitList, SpinLock.Lock, JobSystem.log, hl, hf, hz,
          Run.bind] at h
      · by_cases hr : (s.usedFibers p).lock.mLock = true
        · simp [JobSystem.lockWaitList, SpinLock.Lock, JobSystem.log, hl, hf, hz, hr,
            Run.bind, JobSystem.unlockWaitList, JobSystem.waitListErase,
            JobSystem.lockUsedFiber] at h
        · simp only [Bool.not_eq_true] at hr
          rw [handoff_present t counter s p hl hf hz hr] at h0
          simp only [Run.done.injEq] at h0
          rw [← h0.2]
          refine ⟨rfl, rfl, fun _ => rfl, Or.inr ⟨p, rfl, hz, rfl, rfl⟩⟩

/-- A completed `FiberJobEntry`: as for the handoff. -/
theorem FiberJobEntry_fibers (code : JobCode) (t : Nat) (job : JobDecl) (s s2 : JobSystem)
    (ctl : Ctl) (h : FiberJobEntry code t job s = .done ctl s2) :
    s2.mFiberPool = s.mFiberPool ∧ s2.mThreads = s.mThreads ∧
    (∀ q, (s2.usedFibers q).fiber = (s.usedFibers q).fiber) ∧
    ((s2.mWaitList = s.mWaitList ∧ s2.tls = s.tls) ∨
      ∃ p, WaitList.find s.mWaitList job.mCounter = some p ∧ (s.usedFibers p).fiber ≠ 0 ∧
        s2.mWaitList = WaitList.erase s.mWaitList job.mCounter ∧
        s2.tls = Function.update s.tls t
          { tCurrentFiber := (s.usedFibers p).fiber
            tFiberToBeUnlockedAfterSwitch := (s.tls t).tFiberToBeUnlockedAfterSwitch
            tFiberToBeAddedToPool := (s.tls t).tCurrentFiber }) := by
  unfold FiberJobEntry at h
  simp only at h
  split at h
  · have r := handoff_fibers t job.mCounter _ s2 ctl h
    exact r
  · simp only [Run.done.injEq] at h
    rw [← h.2]
    exact ⟨rfl, rfl, fun _ => rfl, Or.inl ⟨rfl, rfl⟩⟩

/-- A completed `WaitForCounter` on a counter nobody waits on: either it returned through
the self-rescind branch, pool, wait list and thread-locals being as before, or it put the
current fiber on the wait list and switched to a fiber popped from the pool. -/
theorem WaitForCounter_fibers (t frame counter : Nat) (s s2 : JobSystem) (ctl : Ctl)
    (h : WaitForCounter t frame counter s = .done ctl s2)
    (habsent : WaitList.find s.mWaitList counter = none) :
    s2.mThreads = s.mThreads ∧ (∀ q, q ≠ frame → s2.usedFibers q = s.usedFibers q) ∧
    ((s2.mFiberPool = s.mFiberPool ∧ s2.mWaitList = s.mWaitList ∧ s2.tls = s.tls) ∨
      ∃ f rb, s.mFiberPool.PopFront = .done (some f) rb ∧ s2.mFiberPool = rb ∧
        (s.tls t).tCurrentFiber ≠ 0 ∧ s2.mWaitList = (counter, frame) :: s.mWaitList ∧
        (s2.usedFibers frame).fiber = (s.tls t).tCurrentFiber ∧
        s2.tls = Function.update s.tls t
          { tCurrentFiber := f
            tFiberToBeUnlockedAfterSwitch := frame
            tFiberToBeAddedToPool := (s.tls t).tFiberToBeAddedToPool }) := by
  unfold WaitForCounter WaitForCounter.enter WaitForCounter.enlist WaitForCounter.recheck
    WaitForCounter.switchAway WaitForCounter.takeFiber at h
  by_cases hc : counter = 0
  · simp [hc, Run.bind] at h
  by_cases hcur : (s.tls t).tCurrentFiber = 0
  · simp [hc, hcur, JobSystem.setUsedFiber, JobSystem.lockUsedFiber, SpinLock.Lock,
      JobSystem.log, Run.bind] at h
  by_cases hl : s.mWaitListLock.mLock = true
  · simp [hc, hcur, hl, JobSystem.setUsedFiber, JobSystem.lockUsedFiber, SpinLock.Lock,
      JobSystem.lockWaitList, JobSystem.log, Run.bind] at h
  simp only [Bool.not_eq_true] at hl
  have hu : ∀ (v : UsedFiber) (q : Nat), q ≠ frame →
      Function.update s.usedFibers frame v q = s.usedFibers q :=
    fun v q hq => Function.update_noteq hq _ _
  by_cases hzero : s.counters counter = 0
  · simp [hc, hcur, hl, hzero, JobSystem.setUsedFiber, JobSystem.lockUsedFiber,
      SpinLock.Lock, SpinLock.Unlock, JobSystem.lockWaitList, JobSystem.unlockWaitList,
      JobSystem.waitListAssign, JobSystem.waitListErase, JobSystem.log, Run.bind,
      find_assign_self, erase_assign _ _ _ habsent] at h
    rw [← h.2]
    exact ⟨rfl, fun q hq => hu _ q hq, Or.inl ⟨rfl, rfl, rfl⟩⟩
  · cases hp : s.mFiberPool.PopFront with
    | done r rb =>
      cases r with
      | none =>
        simp [hc, hcur, hl, hzero, hp, JobSystem.setUsedFiber, JobSystem.lockUsedFiber,
          SpinLock.Lock, SpinLock.Unlock, JobSystem.lockWaitList, JobSystem.unlockWaitList,
          JobSystem.waitListAssign, JobSystem.log, Run.bind, Run.lift] at h
      | some f =>
        simp [hc, hcur, hl, hzero, hp, JobSystem.setUsedFiber, JobSystem.lockUsedFiber,
          SpinLock.Lock, SpinLock.Unlock, JobSystem.lockWaitList, JobSystem.unlockWaitList,
          JobSystem.waitListAssign, JobSystem.setTls, JobSystem.switchTo,
          JobSystem.log, Run.bind, Run.lift] at h
        rw [← h.2]
        refine ⟨rfl, fun q hq => hu _ q hq, Or.inr ⟨f, rb, rfl, rfl, hcur, ?_, ?_, rfl⟩⟩
        · show WaitList.assign s.mWaitList counter frame = _
          rw [WaitList.assign, erase_of_find_none _ _ habsent]
        · show (Function.update s.usedFibers frame _ frame).fiber = _
          rw [Function.update_same]
    | assertFailed rb =>
      simp [hc, hcur, hl, hzero, hp, JobSystem.setUsedFiber, JobSystem.lockUsedFiber,
        SpinLock.Lock, SpinLock.Unlock, JobSystem.lockWaitList, JobSystem.unlockWaitList,
        JobSystem.waitListAssign, JobSystem.log, Run.bind, Run.lift] at h
    | spins rb =>
      simp [hc, hcur, hl, hzero, hp, JobSystem.setUsedFiber, JobSystem.lockUsedFiber,
        SpinLock.Lock, SpinLock.Unlock, JobSystem.lockWaitList, JobSystem.unlockWaitList,
        JobSystem.waitListAssign, JobSystem.log, Run.bind, Run.lift] at h

/-- A completed resume (lines 114-117): the fiber in `tFiberToBeAddedToPool`, non-null, was
pushed onto the pool and the slot cleared. -/
theorem resumed_fibers (t : Nat) (s s2 : JobSystem)
    (h : WaitForCounter.resumed t s = .done () s2) :
    (s.tls t).tFiberToBeAddedToPool ≠ 0 ∧
    s.mFiberPool.PushBack (s.tls t).tFiberToBeAddedToPool = .done () s2.mFiberPool ∧
    s2.tls = Function.update s.tls t { (s.tls t) with tFiberToBeAddedToPool := 0 } ∧
    s2.mWaitList = s.mWaitList ∧ s2.usedFibers = s.usedFibers ∧ s2.mThreads = s.mThreads := by
  unfold WaitForCounter.resumed at h
  by_cases hcur : (s.tls t).tCurrentFiber = 0
  · simp [hcur] at h
  by_cases hslot : (s.tls t).tFiberToBeAddedToPool = 0
  · simp [hcur, hslot] at h
  simp only [hcur, hslot, if_false] at h
  cases hp : s.mFiberPool.PushBack (s.tls t).tFiberToBeAddedToPool with
  | done r rb =>
    rw [hp] at h
    simp only [Run.lift, Run.bind, JobSystem.setTls, Run.done.injEq, true_and] at h
    rw [← h]
    exact ⟨hslot, rfl, rfl, rfl, rfl, rfl⟩
  | assertFailed rb => rw [hp] at h; simp [Run.lift, Run.bind] at h
  | spins rb => rw [hp] at h; simp [Run.lift, Run.bind] at h

/-! ## Counting fibers -/


/-- Sum over the threads `0, ..., n-1`. -/
theorem sum_range_update (w w2 : Nat → Nat) (n t : Nat) (ht : t < n)
    (h : ∀ i, i ≠ t → w2 i = w i) :
    ((List.range n).map w2).sum + w t = ((List.range n).map w).sum + w2 t := by
  induction n with
  | zero => omega
  | succ n ih =>
    rw [List.range_succ, List.map_append, List.map_append, List.sum_append, List.sum_append]
    simp only [List.map_cons, List.map_nil, List.sum_cons, List.sum_nil, Nat.add_zero]
    by_cases hn : t = n
    · subst hn
      have e : (List.range t).map w2 = (List.range t).map w := by
        apply List.map_congr_left
        intro i hi
        exact h i (by have := List.mem_range.mp hi; omega)
      rw [e]; omega
    · have := ih (by omega)
      have e := h n (fun e => hn e.symm)
      omega

theorem count_map_range (g : Nat → Nat) (h n : Nat) :
    ((List.range n).map g).count h =
      ((List.range n).map fun i => if g i = h then 1 else 0).sum := by
  induction n with
  | zero => rfl
  | succ n ih =>
    rw [List.range_succ, List.map_append, List.map_append, List.count_append, List.sum_append,
      ih]
    simp [List.count_cons]

theorem count_filter_map_range (g : Nat → Nat) (h n : Nat) :
    (((List.range n).map g).filter (· ≠ 0)).count h =
      ((List.range n).map fun i => if g i ≠ 0 ∧ g i = h then 1 else 0).sum := by
  induction n with
  | zero => rfl
  | succ n ih =>
    rw [List.range_succ, List.map_append, List.map_append, List.filter_append,
      List.count_append, List.sum_append, ih]
    by_cases hz : g n = 0
    · simp [hz]
    · by_cases he : g n = h
      · have hh : ¬ h = 0 := by rw [← he]; exact hz
        simp [hz, he, hh, List.count_cons]
      · simp [hz, he, List.count_cons]


/-- Thread `t` stores new thread-locals: the running and the returning fibers change by
the fibers of that thread only. -/
theorem threads_update (s s2 : JobSystem) (t : Nat) (v : ThreadLocals) (ht : t < s.mThreads)
    (hth : s2.mThreads = s.mThreads) (htls : s2.tls = Function.update s.tls t v) (h : Nat) :
    (runningFibers s2).count h + (if (s.tls t).tCurrentFiber = h then 1 else 0) =
      (runningFibers s).count h + (if v.tCurrentFiber = h then 1 else 0) ∧
    (returningFibers s2).count h +
        (if (s.tls t).tFiberToBeAddedToPool ≠ 0 ∧ (s.tls t).tFiberToBeAddedToPool = h
          then 1 else 0) =
      (returningFibers s).count h +
        (if v.tFiberToBeAddedToPool ≠ 0 ∧ v.tFiberToBeAddedToPool = h then 1 else 0) := by
  unfold runningFibers returningFibers
  rw [hth, count_map_range, count_map_range, count_filter_map_range, count_filter_map_range]
  constructor
  · have := sum_range_update (fun i => if (s.tls i).tCurrentFiber = h then 1 else 0)
      (fun i => if (s2.tls i).tCurrentFiber = h then 1 else 0) s.mThreads t ht
      (by intro i hi; simp only [htls, Function.update_noteq hi])
    simp only [htls, Function.update_same] at this
    simp only [htls]
    exact this
  · have := sum_range_update
      (fun i => if (s.tls i).tFiberToBeAddedToPool ≠ 0 ∧ (s.tls i).tFiberToBeAddedToPool = h
        then 1 else 0)
      (fun i => if (s2.tls i).tFiberToBeAddedToPool ≠ 0 ∧ (s2.tls i).tFiberToBeAddedToPool = h
        then 1 else 0) s.mThreads t ht
      (by intro i hi; simp only [htls, Function.update_noteq hi])
    simp only [htls, Function.update_same] at this
    simp only [htls]
    exact this

/-- Threads whose current fiber and return slot are as before: same running and
returning fibers. -/
theorem threads_same (s s2 : JobSystem) (hth : s2.mThreads = s.mThreads)
    (h : ∀ i, (s2.tls i).tCurrentFiber = (s.tls i).tCurrentFiber ∧
      (s2.tls i).tFiberToBeAddedToPool = (s.tls i).tFiberToBeAddedToPool) :
    runningFibers s2 = runningFibers s ∧ returningFibers s2 = returningFibers s := by
  unfold runningFibers returningFibers
  rw [hth]
  have e1 : (fun t => (s2.tls t).tCurrentFiber) = fun t => (s.tls t).tCurrentFiber :=
    funext fun i => (h i).1
  have e2 : (fun t => (s2.tls t).tFiberToBeAddedToPool) =
      fun t => (s.tls t).tFiberToBeAddedToPool := funext fun i => (h i).2
  rw [e1, e2]
  exact ⟨rfl, rfl⟩

/-- A wait list with the same entries, whose records have the same fibers. -/
theorem waiting_same (s s2 : JobSystem) (hwl : s2.mWaitList = s.mWaitList)
    (h : ∀ e, e ∈ s.mWaitList → (s2.usedFibers e.2).fiber = (s.usedFibers e.2).fiber) :
    waitingFibers s2 = waitingFibers s := by
  unfold waitingFibers
  rw [hwl]
  exact List.map_congr_left h

theorem find_none_of_not_mem (wl : List (Nat × Nat)) (c : Nat)
    (h : c ∉ wl.map Prod.fst) : WaitList.find wl c = none := by
  induction wl with
  | nil => rfl
  | cons e wl ih =>
    obtain ⟨k, v⟩ := e
    simp only [List.map_cons, List.mem_cons, not_or] at h
    rw [find_cons, if_neg h.1, ih h.2]

theorem not_mem_of_find_none (wl : List (Nat × Nat)) (c : Nat)
    (h : WaitList.find wl c = none) : c ∉ wl.map Prod.fst := by
  induction wl with
  | nil => simp
  | cons e wl ih =>
    obtain ⟨k, v⟩ := e
    rw [find_cons] at h
    by_cases hk : c = k
    · simp [hk] at h
    · rw [if_neg hk] at h
      simp only [List.map_cons, List.mem_cons, not_or]
      exact ⟨hk, ih h⟩

/-- Erasing the entry of `c`, which maps to `p`, removes the fiber of `p` once. -/
theorem waiting_erase_count (fib : Nat → Nat) (c p h : Nat) (wl : List (Nat × Nat))
    (hk : (wl.map Prod.fst).Nodup) (hf : WaitList.find wl c = some p) :
    ((WaitList.erase wl c).map fun e => fib e.2).count h + (if fib p = h then 1 else 0) =
      (wl.map fun e => fib e.2).count h := by
  induction wl with
  | nil => simp [WaitList.find] at hf
  | cons e wl ih =>
    obtain ⟨k, v⟩ := e
    simp only [List.map_cons, List.nodup_cons] at hk
    rw [find_cons] at hf
    by_cases hc : c = k
    · subst hc
      simp only [if_true, Option.some.injEq] at hf
      subst hf
      have e1 : WaitList.erase ((c, v) :: wl) c = wl := by
        have := erase_of_find_none wl c (find_none_of_not_mem wl c hk.1)
        simp only [WaitList.erase] at this ⊢
        simp [this]
      rw [e1, List.map_cons, List.count_cons]
      simp only [beq_iff_eq]
    · rw [if_neg hc] at hf
      have hc2 : k ≠ c := fun e => hc e.symm
      have e1 : WaitList.erase ((k, v) :: wl) c = (k, v) :: WaitList.erase wl c := by
        simp [WaitList.erase, hc2]
      rw [e1, List.map_cons, List.map_cons, List.count_cons, List.count_cons]
      have := ih hk.2 hf
      omega

theorem erase_keys_nodup (wl : List (Nat × Nat)) (c : Nat)
    (hk : (wl.map Prod.fst).Nodup) : ((WaitList.erase wl c).map Prod.fst).Nodup :=
  hk.sublist (List.Sublist.map _ (List.filter_sublist _))

/-- A completed `PopFront` that returned `f`: `f` was the oldest element. -/
theorem PopFront_some {T : Type} [Inhabited T] (rb rb2 : AtomicRingBuffer T) (w : rb.WF)
    (f : T) (h : rb.PopFront = .done (some f) rb2) :
    rb2.WF ∧ rb.contents = f :: rb2.contents := by
  by_cases he : rb.mHead = rb.mTail
  · rw [PopFront_empty rb he] at h
    simp at h
  · rw [PopFront_done rb w he] at h
    simp only [Run.done.injEq, Option.some.injEq] at h
    rw [← h.2, ← h.1]
    exact ⟨PopFront_wf rb w, PopFront_contents rb w he⟩

/-- A completed `PushBack`: the element is the newest. -/
theorem PushBack_some {T : Type} [Inhabited T] (rb rb2 : AtomicRingBuffer T) (w : rb.WF)
    (v : T) (h : rb.PushBack v = .done () rb2) :
    rb2.WF ∧ rb2.contents = rb.contents ++ [v] := by
  have hlt := held_lt rb w
  by_cases room : rb.held + 1 < rb.mCapacity
  · rw [PushBack_done rb w v room] at h
    simp only [Run.done.injEq, true_and] at h
    rw [← h]
    exact ⟨PushBack_wf rb w v, PushBack_contents rb w v room⟩
  · rw [PushBack_full rb w v (by omega)] at h
    simp at h

/-! ## Conservation of fibers -/

/-- A transition that changes no fiber keeps the invariant. -/
theorem conserved_same (all : List Nat) (s s2 : JobSystem) (c : Conserved all s)
    (hpool : s2.mFiberPool = s.mFiberPool) (hwl : s2.mWaitList = s.mWaitList)
    (hth : s2.mThreads = s.mThreads)
    (hfib : ∀ e, e ∈ s.mWaitList → (s2.usedFibers e.2).fiber = (s.usedFibers e.2).fiber)
    (htls : ∀ i, (s2.tls i).tCurrentFiber = (s.tls i).tCurrentFiber ∧
      (s2.tls i).tFiberToBeAddedToPool = (s.tls i).tFiberToBeAddedToPool) :
    Conserved all s2 := by
  obtain ⟨e1, e2⟩ := threads_same s s2 hth htls
  have e3 := waiting_same s s2 hwl hfib
  have e4 : poolFibers s2 = poolFibers s := by unfold poolFibers; rw [hpool]
  constructor
  · rw [hpool]; exact c.poolWF
  · rw [hwl]; exact c.keys
  · rw [e4]; exact c.poolNonzero
  · intro i hi
    rw [(htls i).1]
    exact c.runningNonzero i (by rw [← hth]; exact hi)
  · intro h
    unfold allFibers
    rw [e1, e2, e3, e4]
    exact c.counts h

/-- The handoff keeps the invariant: the waiter leaves the wait list and runs, the
completer leaves the thread for the return slot. -/
theorem conserved_handoff (all : List Nat) (s s2 : JobSystem) (c : Conserved all s)
    (t counter p : Nat) (ht : t < s.mThreads) (hslot : (s.tls t).tFiberToBeAddedToPool = 0)
    (hpool : s2.mFiberPool = s.mFiberPool) (hth : s2.mThreads = s.mThreads)
    (hfib : ∀ q, (s2.usedFibers q).fiber = (s.usedFibers q).fiber)
    (hfind : WaitList.find s.mWaitList counter = some p)
    (hnz : (s.usedFibers p).fiber ≠ 0)
    (hwl : s2.mWaitList = WaitList.erase s.mWaitList counter)
    (htls : s2.tls = Function.update s.tls t
      { tCurrentFiber := (s.usedFibers p).fiber
        tFiberToBeUnlockedAfterSwitch := (s.tls t).tFiberToBeUnlockedAfterSwitch
        tFiberToBeAddedToPool := (s.tls t).tCurrentFiber }) :
    Conserved all s2 := by
  have e4 : poolFibers s2 = poolFibers s := by unfold poolFibers; rw [hpool]
  have hcur := c.runningNonzero t ht
  constructor
  · rw [hpool]; exact c.poolWF
  · rw [hwl]; exact erase_keys_nodup _ _ c.keys
  · rw [e4]; exact c.poolNonzero
  · intro i hi
    rw [htls]
    by_cases hit : i = t
    · rw [hit, Function.update_same]; exact hnz
    · rw [Function.update_noteq hit]
      exact c.runningNonzero i (by rw [← hth]; exact hi)
  · intro h
    obtain ⟨r1, r2⟩ := threads_update s s2 t _ ht hth htls h
    have r3 := waiting_erase_count (fun q => (s.usedFibers q).fiber) counter p h s.mWaitList
      c.keys hfind
    have e3 : waitingFibers s2 =
        (WaitList.erase s.mWaitList counter).map fun e => (s.usedFibers e.2).fiber := by
      unfold waitingFibers
      rw [hwl]
      exact List.map_congr_left fun e _ => hfib e.2
    have r4 := c.counts h
    unfold allFibers at r4 ⊢
    simp only [List.count_append] at r4 ⊢
    rw [e3, e4]
    unfold waitingFibers at r4
    simp only [hslot, ne_eq, not_true_eq_false, false_and, if_false, hcur,
      not_false_eq_true, true_and] at r1 r2
    simp only at r3
    split_ifs at r1 r2 r3 <;> omega

/-- A wait that switches away keeps the invariant: the waiter leaves the thread for the
wait list, a pool fiber takes the thread. -/
theorem conserved_wait (all : List Nat) (s s2 : JobSystem) (c : Conserved all s)
    (t frame counter f : Nat) (rb : AtomicRingBuffer Nat) (ht : t < s.mThreads)
    (habsent : WaitList.find s.mWaitList counter = none)
    (hfresh : frame ∉ s.mWaitList.map Prod.snd)
    (hth : s2.mThreads = s.mThreads)
    (hrec : ∀ q, q ≠ frame → s2.usedFibers q = s.usedFibers q)
    (hpop : s.mFiberPool.PopFront = .done (some f) rb) (hpool : s2.mFiberPool = rb)
    (hwl : s2.mWaitList = (counter, frame) :: s.mWaitList)
    (hfiber : (s2.usedFibers frame).fiber = (s.tls t).tCurrentFiber)
    (htls : s2.tls = Function.update s.tls t
      { tCurrentFiber := f
        tFiberToBeUnlockedAfterSwitch := frame
        tFiberToBeAddedToPool := (s.tls t).tFiberToBeAddedToPool }) :
    Conserved all s2 := by
  obtain ⟨w2, hcont⟩ := PopFront_some s.mFiberPool rb c.poolWF f hpop
  have e4 : poolFibers s = f :: poolFibers s2 := by
    unfold poolFibers; rw [hpool]; exact hcont
  have hf0 : f ≠ 0 := c.poolNonzero f (by rw [e4]; exact List.mem_cons_self _ _)
  have e3 : waitingFibers s2 = (s.tls t).tCurrentFiber :: waitingFibers s := by
    unfold waitingFibers
    rw [hwl, List.map_cons, hfiber]
    congr 1
    apply List.map_congr_left
    intro e he
    have hne : e.2 ≠ frame := by
      intro heq
      exact hfresh (by rw [← heq]; exact List.mem_map_of_mem _ he)
    rw [hrec e.2 hne]
  constructor
  · rw [hpool]; exact w2
  · rw [hwl, List.map_cons, List.nodup_cons]
    exact ⟨not_mem_of_find_none _ _ habsent, c.keys⟩
  · intro h hh
    exact c.poolNonzero h (by rw [e4]; exact List.mem_cons_of_mem _ hh)
  · intro i hi
    rw [htls]
    by_cases hit : i = t
    · rw [hit, Function.update_same]; exact hf0
    · rw [Function.update_noteq hit]
      exact c.runningNonzero i (by rw [← hth]; exact hi)
  · intro h
    obtain ⟨r1, r2⟩ := threads_update s s2 t _ ht hth htls h
    have r4 := c.counts h
    unfold allFibers at r4 ⊢
    simp only [List.count_append] at r4 ⊢
    rw [e3, List.count_cons]
    rw [e4, List.count_cons] at r4
    simp only [beq_iff_eq] at r4 ⊢
    simp only at r1 r2
    split_ifs at r1 r2 r4 ⊢ <;> omega

/-- The resume keeps the invariant: the fiber in the return slot goes to the pool. -/
theorem conserved_resume (all : List Nat) (s s2 : JobSystem) (c : Conserved all s)
    (t : Nat) (ht : t < s.mThreads)
    (hslot : (s.tls t).tFiberToBeAddedToPool ≠ 0)
    (hpush : s.mFiberPool.PushBack (s.tls t).tFiberToBeAddedToPool = .done () s2.mFiberPool)
    (htls : s2.tls = Function.update s.tls t { (s.tls t) with tFiberToBeAddedToPool := 0 })
    (hwl : s2.mWaitList = s.mWaitList) (hrec : s2.usedFibers = s.usedFibers)
    (hth : s2.mThreads = s.mThreads) :
    Conserved all s2 := by
  obtain ⟨w2, hcont⟩ := PushBack_some s.mFiberPool s2.mFiberPool c.poolWF _ hpush
  have e4 : poolFibers s2 = poolFibers s ++ [(s.tls t).tFiberToBeAddedToPool] := hcont
  have e3 : waitingFibers s2 = waitingFibers s :=
    waiting_same s s2 hwl (fun e _ => by rw [hrec])
  constructor
  · exact w2
  · rw [hwl]; exact c.keys
  · intro h hh
    rw [e4, List.mem_append, List.mem_singleton] at hh
    rcases hh with hh | hh
    · exact c.poolNonzero h hh
    · rw [hh]; exact hslot
  · intro i hi
    rw [htls]
    by_cases hit : i = t
    · rw [hit, Function.update_same]; exact c.runningNonzero t ht
    · rw [Function.update_noteq hit]
      exact c.runningNonzero i (by rw [← hth]; exact hi)
  · intro h
    obtain ⟨r1, r2⟩ := threads_update s s2 t _ ht hth htls h
    have r4 := c.counts h
    unfold allFibers at r4 ⊢
    simp only [List.count_append] at r4 ⊢
    rw [e3, e4, List.count_append, List.count_singleton]
    simp only [hslot, ne_eq, not_false_eq_true, true_and, not_true_eq_false, false_and,
      if_false, beq_iff_eq] at r1 r2 ⊢
    split_ifs at r1 r2 ⊢ <;> omega

theorem next_eq_some {α σ : Type} (r : Run α σ) (s2 : σ) (h : r.next = some s2) :
    ∃ a, r = .done a s2 := by
  cases r with
  | done a s => simp only [Run.next, Option.some.injEq] at h; exact ⟨a, by rw [h]⟩
  | assertFailed s => simp [Run.next] at h
  | spins s => simp [Run.next] at h

/-- `FiberJobEntry` on a thread whose return slot is empty keeps the invariant. -/
theorem job_conserved (code : JobCode) (all : List Nat) (t : Nat) (job : JobDecl)
    (s s2 : JobSystem) (ctl : Ctl) (c : Conserved all s) (ht : t < s.mThreads)
    (hslot : (s.tls t).tFiberToBeAddedToPool = 0)
    (h : FiberJobEntry code t job s = .done ctl s2) :
    Conserved all s2 ∧ s2.mThreads = s.mThreads := by
  obtain ⟨hpool, hth, hfib, hcase⟩ := FiberJobEntry_fibers code t job s s2 ctl h
  refine ⟨?_, hth⟩
  rcases hcase with ⟨hwl, htls⟩ | ⟨p, hfind, hnz, hwl, htls⟩
  · exact conserved_same all s s2 c hpool hwl hth (fun e _ => hfib e.2)
      (fun i => by rw [htls]; exact ⟨rfl, rfl⟩)
  · exact conserved_handoff all s s2 c t job.mCounter p ht hslot hpool hth hfib hfind hnz hwl
      htls

/-- Every transition keeps the conservation invariant and the number of threads. -/
theorem step_conserved (code : JobCode) (all : List Nat) (a : Action) (s s2 : JobSystem)
    (c : Conserved all s) (h : step code a s = some s2) :
    Conserved all s2 ∧ s2.mThreads = s.mThreads := by
  cases a with
  | runJobs jobs n counter =>
    obtain ⟨j2, hr⟩ := next_eq_some _ _ h
    obtain ⟨h1, h2, h3, h4, h5⟩ := RunJobs_frame jobs j2 n counter s s2 hr
    exact ⟨conserved_same all s s2 c h1 h2 h5 (fun e _ => by rw [h4])
      (fun i => by rw [h3]; exact ⟨rfl, rfl⟩), h5⟩
  | worker t =>
    simp only [step] at h
    split at h
    · next hg =>
      obtain ⟨ctl, hr⟩ := next_eq_some _ _ h
      obtain ⟨u1, u2, u3, u4, u5⟩ := unlockPrevious_fibers t s
      unfold FiberWorkerEntry.iteration at hr
      simp only at hr
      cases hp : (FiberWorkerEntry.unlockPrevious t s).mJobQueue.PopFront with
      | done r rb =>
        rw [hp] at hr
        simp only [Run.lift, Run.bind] at hr
        have c1 : Conserved all
            { (FiberWorkerEntry.unlockPrevious t s) with mJobQueue := rb } :=
          conserved_same all s _ c u1 u2 u3 (fun e _ => u4 e.2) u5
        cases r with
        | none =>
          simp only [Run.done.injEq] at hr
          rw [← hr.2]
          exact ⟨c1, u3⟩
        | some job =>
          simp only at hr
          have r := job_conserved code all t job _ s2 ctl c1 (by rw [← u3] at hg; exact hg.1)
            (by rw [← (u5 t).2] at hg; exact hg.2) hr
          exact ⟨r.1, r.2.trans u3⟩
      | assertFailed rb => rw [hp] at hr; simp [Run.lift, Run.bind] at hr
      | spins rb => rw [hp] at hr; simp [Run.lift, Run.bind] at hr
    · simp at h
  | finishJob t job =>
    simp only [step] at h
    split at h
    · next hg =>
      obtain ⟨ctl, hr⟩ := next_eq_some _ _ h
      exact job_conserved code all t job s s2 ctl c hg.1 hg.2 hr
    · simp at h
  | wait t frame counter =>
    simp only [step] at h
    split at h
    · next hg =>
      obtain ⟨ht, _, habsent, hfresh⟩ := hg
      obtain ⟨ctl, hr⟩ := next_eq_some _ _ h
      obtain ⟨hth, hrec, hcase⟩ := WaitForCounter_fibers t frame counter s s2 ctl hr habsent
      refine ⟨?_, hth⟩
      have hne : ∀ e, e ∈ s.mWaitList → e.2 ≠ frame := by
        intro e he heq
        exact hfresh (by rw [← heq]; exact List.mem_map_of_mem _ he)
      rcases hcase with ⟨hpool, hwl, htls⟩ | ⟨f, rb, hpop, hpool, _, hwl, hfiber, htls⟩
      · exact conserved_same all s s2 c hpool hwl hth
          (fun e he => by rw [hrec e.2 (hne e he)])
          (fun i => by rw [htls]; exact ⟨rfl, rfl⟩)
      · exact conserved_wait all s s2 c t frame counter f rb ht habsent hfresh hth hrec hpop
          hpool hwl hfiber htls
    · simp at h
  | resume t =>
    simp only [step] at h
    split at h
    · next hg =>
      obtain ⟨u, hr⟩ := next_eq_some _ _ h
      obtain ⟨hslot, hpush, htls, hwl, hrec, hth⟩ := resumed_fibers t s s2 hr
      exact ⟨conserved_resume all s s2 c t hg hslot hpush htls hwl hrec hth, hth⟩
    · simp at h

/-- Every sequence of transitions keeps the conservation invariant. -/
theorem runActions_conserved (code : JobCode) (all : List Nat) (acts : List Action) :
    ∀ (s s2 : JobSystem), Conserved all s → runActions code acts s = some s2 →
      Conserved all s2 ∧ s2.mThreads = s.mThreads := by
  induction acts with
  | nil =>
    intro s s2 c h
    simp only [runActions, Option.some.injEq] at h
    rw [← h]; exact ⟨c, rfl⟩
  | cons a rest ih =>
    intro s s2 c h
    simp only [runActions] at h
    cases hs : step code a s with
    | none => rw [hs] at h; simp at h
    | some s1 =>
      rw [hs] at h
      simp only [Option.some_bind] at h
      obtain ⟨c1, t1⟩ := step_conserved code all a s s1 c hs
      obtain ⟨c2, t2⟩ := ih s1 s2 c1 h
      exact ⟨c2, t2.trans t1⟩

/-- The constructed job system satisfies the conservation invariant for the fibers the
constructor created, when their handles are non-null. -/
theorem new_conserved (os : FiberApi) (args : Args) (s0 : JobSystem)
    (h1 : 1 ≤ args.mNumFibers) (h16 : args.mNumFibers < 2 ^ 16)
    (hnz : 0 ∉ createdFibers os args) (hnew : JobSystem.new os args = .done () s0) :
    Conserved (createdFibers os args) s0 ∧ s0.mThreads = args.mNumThreads := by
  obtain ⟨rb, h, w, _, _, hcont⟩ := new_done os args h1 h16
  rw [h] at hnew
  simp only [Run.done.injEq, true_and] at hnew
  have hrun : runningFibers s0 = (List.range args.mNumThreads).map os.ConvertThreadToFiber := by
    rw [← hnew]
    unfold runningFibers
    apply List.map_congr_left
    intro i hi
    simp [List.mem_range.mp hi]
  have hret : returningFibers s0 = [] := by
    rw [← hnew]
    unfold returningFibers
    rw [List.filter_eq_nil_iff]
    intro a ha
    obtain ⟨i, _, hi⟩ := List.mem_map.mp ha
    rw [← hi]
    by_cases hlt : i < args.mNumThreads <;> simp [hlt]
  have hpool : poolFibers s0 = (List.range (args.mNumFibers - 1)).map os.CreateFiber := by
    rw [← hnew]; exact hcont
  have hwait : waitingFibers s0 = [] := by rw [← hnew]; rfl
  have hall : allFibers s0 = createdFibers os args := by
    unfold allFibers createdFibers
    rw [hrun, hret, hpool, hwait, List.append_nil, List.append_nil]
  refine ⟨⟨?_, ?_, ?_, ?_, ?_⟩, by rw [← hnew]⟩
  · rw [← hnew]; exact w
  · rw [← hnew]; exact List.nodup_nil
  · intro h hh heq
    apply hnz
    unfold createdFibers
    rw [← hpool, ← heq]
    exact List.mem_append_left _ hh
  · intro i hi heq
    apply hnz
    unfold createdFibers
    rw [← hrun, ← heq]
    apply List.mem_append_right
    unfold runningFibers
    exact List.mem_map_of_mem _ (List.mem_range.mpr hi)
  · intro h; rw [hall]

/-! ## The race of waiter and completer -/

/-! ### Positions that can occur together -/

theorem waiter_enter_lockList (c : CompleterAt) (h : compatible .enter c = true) :
    compatible .lockList c = true := by
  revert h; cases c <;> decide

theorem waiter_lockList_insert (c : CompleterAt) (h : compatible .lockList c = true)
    (hc : c.holdsList = false) :
    compatible .insert c = true := by
  revert h hc; cases c <;> decide

theorem waiter_insert_unlockList (c : CompleterAt) (h : compatible .insert c = true) :
    compatible .unlockList c = true := by
  revert h; cases c <;> decide

theorem waiter_unlockList_readCounter (c : CompleterAt) (h : compatible .unlockList c = true) :
    compatible .readCounter c = true := by
  revert h; cases c <;> decide

theorem waiter_readCounter_relockList (c : CompleterAt) (h : compatible .readCounter c = true) :
    compatible .relockList c = true := by
  revert h; cases c <;> decide

theorem waiter_readCounter_takeFiber (c : CompleterAt) (h : compatible .readCounter c = true)
    (hc : c.beforeDecrement = true) :
    compatible .takeFiber c = true := by
  revert h hc; cases c <;> decide

theorem waiter_relockList_findEntry (c : CompleterAt) (h : compatible .relockList c = true)
    (hc : c.holdsList = false) :
    compatible .findEntry c = true := by
  revert h hc; cases c <;> decide

theorem waiter_findEntry_eraseEntry (c : CompleterAt) (h : compatible .findEntry c = true)
    (hc : entryPresent .findEntry c = true) :
    compatible .eraseEntry c = true := by
  revert h hc; cases c <;> decide

theorem waiter_findEntry_unlockContinue (c : CompleterAt) (h : compatible .findEntry c = true)
    (hc : entryPresent .findEntry c = false) :
    compatible .unlockContinue c = true := by
  revert h hc; cases c <;> decide

theorem waiter_eraseEntry_unlockReturn (c : CompleterAt) (h : compatible .eraseEntry c = true) :
    compatible .unlockReturn c = true := by
  revert h; cases c <;> decide

theorem waiter_unlockReturn_returned (c : CompleterAt) (h : compatible .unlockReturn c = true) :
    compatible .returned c = true := by
  revert h; cases c <;> decide

theorem waiter_unlockContinue_takeFiber (c : CompleterAt)
    (h : compatible .unlockContinue c = true) :
    compatible .takeFiber c = true := by
  revert h; cases c <;> decide

theorem waiter_takeFiber_switchAway (c : CompleterAt) (h : compatible .takeFiber c = true) :
    compatible .switchAway c = true := by
  revert h; cases c <;> decide

theorem waiter_switchAway_incomingUnlock (c : CompleterAt) (h : compatible .switchAway c = true) :
    compatible .incomingUnlock c = true := by
  revert h; cases c <;> decide

theorem waiter_incomingUnlock_polling (c : CompleterAt) (h : compatible .incomingUnlock c = true) :
    compatible .polling c = true := by
  revert h; cases c <;> decide

theorem waiter_incomingUnlock_workerExit (c : CompleterAt)
    (h : compatible .incomingUnlock c = true) : compatible .workerExit c = true := by
  revert h; cases c <;> decide

theorem completer_callJob_decrement (w : WaiterAt) (h : compatible w .callJob = true) :
    compatible w .decrement = true := by
  revert h; cases w <;> decide

theorem completer_decrement_testCounter (w : WaiterAt) (h : compatible w .decrement = true) :
    compatible w .testCounter = true := by
  revert h; cases w <;> decide

theorem completer_testCounter_lockList (w : WaiterAt) (h : compatible w .testCounter = true) :
    compatible w .lockList = true := by
  revert h; cases w <;> decide

theorem completer_lockList_findEntry (w : WaiterAt) (h : compatible w .lockList = true)
    (hc : w.holdsList = false) :
    compatible w .findEntry = true := by
  revert h hc; cases w <;> decide

theorem completer_findEntry_unlockReturn (w : WaiterAt) (h : compatible w .findEntry = true)
    (hc : entryPresent w .findEntry = false) :
    compatible w .unlockReturn = true := by
  revert h hc; cases w <;> decide

theorem completer_findEntry_eraseEntry (w : WaiterAt) (h : compatible w .findEntry = true)
    (hc : entryPresent w .findEntry = true) :
    compatible w .eraseEntry = true := by
  revert h hc; cases w <;> decide

theorem completer_unlockReturn_returned (w : WaiterAt) (h : compatible w .unlockReturn = true) :
    compatible w .returned = true := by
  revert h; cases w <;> decide

theorem completer_eraseEntry_unlockList (w : WaiterAt) (h : compatible w .eraseEntry = true) :
    compatible w .unlockList = true := by
  revert h; cases w <;> decide

theorem completer_unlockList_lockRecord (w : WaiterAt) (h : compatible w .unlockList = true) :
    compatible w .lockRecord = true := by
  revert h; cases w <;> decide

theorem completer_lockRecord_unlockRecord (w : WaiterAt) (h : compatible w .lockRecord = true)
    (hc : recordLocked w .lockRecord = false) :
    compatible w .unlockRecord = true := by
  revert h hc; cases w <;> decide

theorem completer_unlockRecord_publish (w : WaiterAt) (h : compatible w .unlockRecord = true) :
    compatible w .publish = true := by
  revert h; cases w <;> decide

theorem completer_publish_switchToWaiter (w : WaiterAt) (h : compatible w .publish = true) :
    compatible w .switchToWaiter = true := by
  revert h; cases w <;> decide

theorem completer_switchToWaiter_waiterResumes (w : WaiterAt)
    (h : compatible w .switchToWaiter = true) :
    compatible w .waiterResumes = true := by
  revert h; cases w <;> decide

theorem completer_waiterResumes_waiterReturned (w : WaiterAt)
    (h : compatible w .waiterResumes = true) :
    compatible w .waiterReturned = true := by
  revert h; cases w <;> decide

theorem entry_after_insert (c : CompleterAt) (h : compatible .insert c = true) :
    entryPresent .unlockList c = true := by
  revert h; cases c <;> decide

theorem record_after_unlock (c : CompleterAt) (h : compatible .incomingUnlock c = true) :
    recordLocked .polling c = false := by
  revert h; cases c <;> decide

theorem waiter_at_erase (w : WaiterAt) (h : compatible w .eraseEntry = true) :
    w ≠ .enter ∧ entryPresent w .eraseEntry = true := by
  revert h; cases w <;> decide

theorem waiter_at_barrier (w : WaiterAt) (h : compatible w .lockRecord = true)
    (hc : recordLocked w .lockRecord = false) : w = .polling := by
  revert h hc; cases w <;> decide

theorem waiter_found (w : WaiterAt) (c : CompleterAt) (h : compatible w c = true)
    (hc : c.found = true) : w ≠ .enter ∧ w.inserted = true ∧ w.rescinded = false := by
  revert h hc; cases w <;> cases c <;> decide

theorem waiter_past_barrier (w : WaiterAt) (c : CompleterAt) (h : compatible w c = true)
    (hc : c.pastBarrier = true) : w = .polling := by
  revert h hc; cases w <;> cases c <;> decide

theorem not_leaving_of_missed (w : WaiterAt) (c : CompleterAt) (h : compatible w c = true)
    (hc : c.missed = true) : w.leaving = false := by
  revert h hc; cases w <;> cases c <;> decide

theorem not_aborted (w : WaiterAt) (c : CompleterAt) (h : compatible w c = true) :
    w ≠ .aborted ∧ c ≠ .aborted := by
  revert h; cases w <;> cases c <;> decide

/-! ### The steps, one by one -/

theorem enter_done (t frame counter : Nat) (s : JobSystem) (hc : counter ≠ 0)
    (hf : (s.tls t).tCurrentFiber ≠ 0) :
    WaitForCounter.enter t frame counter s = .done ()
      { s with
        usedFibers := Function.update s.usedFibers frame
          { fiber := (s.tls t).tCurrentFiber, lock := { mLock := true } }
        trace := s.trace ++ [.acquire (.usedFiber frame)] } := by
  simp [WaitForCounter.enter, JobSystem.setUsedFiber, JobSystem.lockUsedFiber, JobSystem.log,
    SpinLock.Lock, Run.bind, hc, hf]

theorem lockWaitList_free (s : JobSystem) (h : s.mWaitListLock.mLock = false) :
    s.lockWaitList = .done ()
      { s with
        mWaitListLock := { mLock := true }
        trace := s.trace ++ [.acquire .waitList] } := by
  simp [JobSystem.lockWaitList, JobSystem.log, SpinLock.Lock, h]

theorem lockWaitList_held (s : JobSystem) (h : s.mWaitListLock.mLock = true) :
    s.lockWaitList = .spins s := by
  simp [JobSystem.lockWaitList, SpinLock.Lock, h]

theorem lockUsedFiber_free (s : JobSystem) (p : Nat) (h : (s.usedFibers p).lock.mLock = false) :
    s.lockUsedFiber p = .done ()
      { s with
        usedFibers := Function.update s.usedFibers p
          { fiber := (s.usedFibers p).fiber, lock := { mLock := true } }
        trace := s.trace ++ [.acquire (.usedFiber p)] } := by
  simp [JobSystem.lockUsedFiber, JobSystem.setUsedFiber, JobSystem.log, SpinLock.Lock, h]

theorem lockUsedFiber_held (s : JobSystem) (p : Nat) (h : (s.usedFibers p).lock.mLock = true) :
    s.lockUsedFiber p = .spins s := by
  simp [JobSystem.lockUsedFiber, SpinLock.Lock, h]

theorem takeFiber_done (t frame : Nat) (s : JobSystem) (w : s.mFiberPool.WF)
    (h : s.mFiberPool.mHead ≠ s.mFiberPool.mTail) :
    WaitForCounter.takeFiber t frame s = .done (s.mFiberPool.mQueue.getD s.mFiberPool.mTail default)
      { s with
        mFiberPool := { s.mFiberPool with
          mTail := (s.mFiberPool.mTail + 1) % s.mFiberPool.mCapacity }
        tls := Function.update s.tls t
          { tCurrentFiber := s.mFiberPool.mQueue.getD s.mFiberPool.mTail default
            tFiberToBeUnlockedAfterSwitch := frame
            tFiberToBeAddedToPool := (s.tls t).tFiberToBeAddedToPool } } := by
  simp [WaitForCounter.takeFiber, PopFront_done _ w h, Run.lift, Run.bind, JobSystem.setTls]

theorem unlockPrevious_slot (t : Nat) (s : JobSystem)
    (h : (s.tls t).tFiberToBeUnlockedAfterSwitch ≠ 0) :
    FiberWorkerEntry.unlockPrevious t s =
      { s with
        usedFibers := Function.update s.usedFibers (s.tls t).tFiberToBeUnlockedAfterSwitch
          { fiber := (s.usedFibers (s.tls t).tFiberToBeUnlockedAfterSwitch).fiber
            lock := { mLock := false } }
        tls := Function.update s.tls t
          { tCurrentFiber := (s.tls t).tCurrentFiber
            tFiberToBeUnlockedAfterSwitch := 0
            tFiberToBeAddedToPool := (s.tls t).tFiberToBeAddedToPool }
        trace := s.trace ++ [.release (.usedFiber (s.tls t).tFiberToBeUnlockedAfterSwitch)] } := by
  simp [FiberWorkerEntry.unlockPrevious, JobSystem.unlockUsedFiber, JobSystem.setUsedFiber,
    JobSystem.setTls, JobSystem.log, SpinLock.Unlock, h]

theorem resumed_done (t : Nat) (s : JobSystem) (w : s.mFiberPool.WF)
    (hcur : (s.tls t).tCurrentFiber ≠ 0) (hslot : (s.tls t).tFiberToBeAddedToPool ≠ 0)
    (room : s.mFiberPool.held + 1 < s.mFiberPool.mCapacity) :
    WaitForCounter.resumed t s = .done ()
      { s with
        mFiberPool := { s.mFiberPool with
          mQueue := s.mFiberPool.mQueue.set s.mFiberPool.mHead (s.tls t).tFiberToBeAddedToPool
          mHead := (s.mFiberPool.mHead + 1) % s.mFiberPool.mCapacity }
        tls := Function.update s.tls t
          { tCurrentFiber := (s.tls t).tCurrentFiber
            tFiberToBeUnlockedAfterSwitch := (s.tls t).tFiberToBeUnlockedAfterSwitch
            tFiberToBeAddedToPool := 0 } } := by
  simp [WaitForCounter.resumed, PushBack_done _ w _ room, Run.lift, Run.bind, JobSystem.setTls,
    hcur, hslot]

theorem holds_excl (w : WaiterAt) (c : CompleterAt) (h : compatible w c = true)
    (hw : w.holdsList = true) : c.holdsList = false := by
  revert h hw; cases w <;> cases c <;> decide

theorem holds_excl_completer (w : WaiterAt) (c : CompleterAt) (h : compatible w c = true)
    (hc : c.holdsList = true) : w.holdsList = false := by
  revert h hc; cases w <;> cases c <;> decide

/-- Every step of the waiter thread keeps the invariant of the race. -/
theorem stepWaiter_inv (cfg : RaceSetup) (v : cfg.Valid) (r : Race) (h : RaceInv cfg r) :
    RaceInv cfg (stepWaiter cfg r) := by
  obtain ⟨sys, w, c, A, seen, found⟩ := r
  obtain ⟨h1, h2, h3, h4, h5, h6, h7, h8, h9, h10, h11, h12, h13, h14, h15, h16⟩ := h
  simp only at h1 h2 h3 h4 h5 h6 h7 h8 h9 h10 h11 h12 h13 h14 h15 h16
  have hne : cfg.completerThread ≠ cfg.waiterThread := fun e => v.threads e.symm
  cases w with
  | enter =>
    have e := enter_done cfg.waiterThread cfg.frame cfg.counter sys v.counter (h7 rfl)
    simp only [stepWaiter, e]
    refine ⟨?_, ?_, ?_, ?_, ?_, ?_, ?_, ?_, ?_, ?_, ?_, ?_, ?_, ?_, ?_, ?_⟩
    · exact waiter_enter_lockList c h1
    · exact h2
    · exact h3
    · exact h4
    · intro _; simp [recordLocked]
    · intro _; simpa using h7 rfl
    · intro h; cases h
    · intro h; rcases h with h | h <;> cases h
    · exact h9
    · exact h10
    · exact h11
    · exact h12
    · exact h13
    · intro h; simp [WaiterAt.tookFiber] at h
    · exact h15
    · simpa [compatible, entryPresent, recordLocked, WaiterAt.holdsList, WaiterAt.inserted,
        WaiterAt.rescinded, WaiterAt.leaving, WaiterAt.tookFiber, CompleterAt.holdsList,
        CompleterAt.beforeDecrement, CompleterAt.found, CompleterAt.erased, CompleterAt.missed,
        CompleterAt.pastBarrier, CompleterAt.published,
        JobSystem.log, JobSystem.unlockWaitList, JobSystem.waitListAssign,
        JobSystem.waitListErase, JobSystem.switchTo, JobSystem.setTls, JobSystem.setUsedFiber,
        JobSystem.setCounter, JobSystem.unlockUsedFiber, SpinLock.Unlock] using h16
  | lockList =>
    by_cases hl : sys.mWaitListLock.mLock = true
    · simp only [stepWaiter, lockWaitList_held sys hl]
      exact ⟨h1, h2, h3, h4, h5, h6, h7, h8, h9, h10, h11, h12, h13, h14, h15, h16⟩
    · simp only [Bool.not_eq_true] at hl
      have hc : c.holdsList = false := by
        rw [hl] at h2; simpa [WaiterAt.holdsList] using h2.symm
      simp only [stepWaiter, lockWaitList_free sys hl]
      refine ⟨?_, ?_, ?_, ?_, ?_, ?_, ?_, ?_, ?_, ?_, ?_, ?_, ?_, ?_, ?_, ?_⟩
      · exact waiter_lockList_insert c h1 hc
      · simp [WaiterAt.holdsList]
      · exact h3
      · exact h4
      · simpa [compatible, entryPresent, recordLocked, WaiterAt.holdsList, WaiterAt.inserted,
          WaiterAt.rescinded, WaiterAt.leaving, WaiterAt.tookFiber, CompleterAt.holdsList,
          CompleterAt.beforeDecrement, CompleterAt.found, CompleterAt.erased, CompleterAt.missed,
          CompleterAt.pastBarrier, CompleterAt.published,
          JobSystem.log, JobSystem.unlockWaitList, JobSystem.waitListAssign,
          JobSystem.waitListErase, JobSystem.switchTo, JobSystem.setTls, JobSystem.setUsedFiber,
          JobSystem.setCounter, JobSystem.unlockUsedFiber, SpinLock.Unlock] using h5
      · simpa [compatible, entryPresent, recordLocked, WaiterAt.holdsList, WaiterAt.inserted,
          WaiterAt.rescinded, WaiterAt.leaving, WaiterAt.tookFiber, CompleterAt.holdsList,
          CompleterAt.beforeDecrement, CompleterAt.found, CompleterAt.erased, CompleterAt.missed,
          CompleterAt.pastBarrier, CompleterAt.published,
          JobSystem.log, JobSystem.unlockWaitList, JobSystem.waitListAssign,
          JobSystem.waitListErase, JobSystem.switchTo, JobSystem.setTls, JobSystem.setUsedFiber,
          JobSystem.setCounter, JobSystem.unlockUsedFiber, SpinLock.Unlock] using h6
      · intro h; cases h
      · intro h; rcases h with h | h <;> cases h
      · exact h9
      · exact h10
      · exact h11
      · exact h12
      · exact h13
      · intro h; simp [WaiterAt.tookFiber] at h
      · exact h15
      · simpa [compatible, entryPresent, recordLocked, WaiterAt.holdsList, WaiterAt.inserted,
          WaiterAt.rescinded, WaiterAt.leaving, WaiterAt.tookFiber, CompleterAt.holdsList,
          CompleterAt.beforeDecrement, CompleterAt.found, CompleterAt.erased, CompleterAt.missed,
          CompleterAt.pastBarrier, CompleterAt.published,
          JobSystem.log, JobSystem.unlockWaitList, JobSystem.waitListAssign,
          JobSystem.waitListErase, JobSystem.switchTo, JobSystem.setTls, JobSystem.setUsedFiber,
          JobSystem.setCounter, JobSystem.unlockUsedFiber, SpinLock.Unlock] using h16
  | relockList =>
    by_cases hl : sys.mWaitListLock.mLock = true
    · simp only [stepWaiter, lockWaitList_held sys hl]
      exact ⟨h1, h2, h3, h4, h5, h6, h7, h8, h9, h10, h11, h12, h13, h14, h15, h16⟩
    · simp only [Bool.not_eq_true] at hl
      have hc : c.holdsList = false := by
        rw [hl] at h2; simpa [WaiterAt.holdsList] using h2.symm
      simp only [stepWaiter, lockWaitList_free sys hl]
      refine ⟨?_, ?_, ?_, ?_, ?_, ?_, ?_, ?_, ?_, ?_, ?_, ?_, ?_, ?_, ?_, ?_⟩
      · exact waiter_relockList_findEntry c h1 hc
      · simp [WaiterAt.holdsList]
      · exact h3
      · exact h4
      · simpa [compatible, entryPresent, recordLocked, WaiterAt.holdsList, WaiterAt.inserted,
          WaiterAt.rescinded, WaiterAt.leaving, WaiterAt.tookFiber, CompleterAt.holdsList,
          CompleterAt.beforeDecrement, CompleterAt.found, CompleterAt.erased, CompleterAt.missed,
          CompleterAt.pastBarrier, CompleterAt.published,
          JobSystem.log, JobSystem.unlockWaitList, JobSystem.waitListAssign,
          JobSystem.waitListErase, JobSystem.switchTo, JobSystem.setTls, JobSystem.setUsedFiber,
          JobSystem.setCounter, JobSystem.unlockUsedFiber, SpinLock.Unlock] using h5
      · simpa [compatible, entryPresent, recordLocked, WaiterAt.holdsList, WaiterAt.inserted,
          WaiterAt.rescinded, WaiterAt.leaving, WaiterAt.tookFiber, CompleterAt.holdsList,
          CompleterAt.beforeDecrement, CompleterAt.found, CompleterAt.erased, CompleterAt.missed,
          CompleterAt.pastBarrier, CompleterAt.published,
          JobSystem.log, JobSystem.unlockWaitList, JobSystem.waitListAssign,
          JobSystem.waitListErase, JobSystem.switchTo, JobSystem.setTls, JobSystem.setUsedFiber,
          JobSystem.setCounter, JobSystem.unlockUsedFiber, SpinLock.Unlock] using h6
      · intro h; cases h
      · intro h; rcases h with h | h <;> cases h
      · exact h9
      · exact h10
      · exact h11
      · exact h12
      · exact h13
      · intro h; simp [WaiterAt.tookFiber] at h
      · exact h15
      · simpa [compatible, entryPresent, recordLocked, WaiterAt.holdsList, WaiterAt.inserted,
          WaiterAt.rescinded, WaiterAt.leaving, WaiterAt.tookFiber, CompleterAt.holdsList,
          CompleterAt.beforeDecrement, CompleterAt.found, CompleterAt.erased, CompleterAt.missed,
          CompleterAt.pastBarrier, CompleterAt.published,
          JobSystem.log, JobSystem.unlockWaitList, JobSystem.waitListAssign,
          JobSystem.waitListErase, JobSystem.switchTo, JobSystem.setTls, JobSystem.setUsedFiber,
          JobSystem.setCounter, JobSystem.unlockUsedFiber, SpinLock.Unlock] using h16
  | insert =>
    simp only [stepWaiter]
    refine ⟨?_, ?_, ?_, ?_, ?_, ?_, ?_, ?_, ?_, ?_, ?_, ?_, ?_, ?_, ?_, ?_⟩
    · exact waiter_insert_unlockList c h1
    · exact h2
    · exact h3
    · simp [JobSystem.waitListAssign, JobSystem.log, find_assign_self,
        entry_after_insert c h1]
    · simpa [compatible, entryPresent, recordLocked, WaiterAt.holdsList, WaiterAt.inserted,
        WaiterAt.rescinded, WaiterAt.leaving, WaiterAt.tookFiber, CompleterAt.holdsList,
        CompleterAt.beforeDecrement, CompleterAt.found, CompleterAt.erased, CompleterAt.missed,
        CompleterAt.pastBarrier, CompleterAt.published,
        JobSystem.log, JobSystem.unlockWaitList, JobSystem.waitListAssign,
        JobSystem.waitListErase, JobSystem.switchTo, JobSystem.setTls, JobSystem.setUsedFiber,
        JobSystem.setCounter, JobSystem.unlockUsedFiber, SpinLock.Unlock] using h5
    · simpa [compatible, entryPresent, recordLocked, WaiterAt.holdsList, WaiterAt.inserted,
        WaiterAt.rescinded, WaiterAt.leaving, WaiterAt.tookFiber, CompleterAt.holdsList,
        CompleterAt.beforeDecrement, CompleterAt.found, CompleterAt.erased, CompleterAt.missed,
        CompleterAt.pastBarrier, CompleterAt.published,
        JobSystem.log, JobSystem.unlockWaitList, JobSystem.waitListAssign,
        JobSystem.waitListErase, JobSystem.switchTo, JobSystem.setTls, JobSystem.setUsedFiber,
        JobSystem.setCounter, JobSystem.unlockUsedFiber, SpinLock.Unlock] using h6
    · intro h; cases h
    · intro h; rcases h with h | h <;> cases h
    · exact h9
    · exact h10
    · exact h11
    · exact h12
    · exact h13
    · intro h; simp [WaiterAt.tookFiber] at h
    · exact h15
    · simpa [compatible, entryPresent, recordLocked, WaiterAt.holdsList, WaiterAt.inserted,
        WaiterAt.rescinded, WaiterAt.leaving, WaiterAt.tookFiber, CompleterAt.holdsList,
        CompleterAt.beforeDecrement, CompleterAt.found, CompleterAt.erased, CompleterAt.missed,
        CompleterAt.pastBarrier, CompleterAt.published,
        JobSystem.log, JobSystem.unlockWaitList, JobSystem.waitListAssign,
        JobSystem.waitListErase, JobSystem.switchTo, JobSystem.setTls, JobSystem.setUsedFiber,
        JobSystem.setCounter, JobSystem.unlockUsedFiber, SpinLock.Unlock] using h16
  | unlockList =>
    have hc : c.holdsList = false := holds_excl .unlockList c h1 rfl
    simp only [stepWaiter]
    refine ⟨?_, ?_, ?_, ?_, ?_, ?_, ?_, ?_, ?_, ?_, ?_, ?_, ?_, ?_, ?_, ?_⟩
    · exact waiter_unlockList_readCounter c h1
    · simp [JobSystem.unlockWaitList, JobSystem.log, SpinLock.Unlock, WaiterAt.holdsList, hc]
    · exact h3
    · exact h4
    · simpa [compatible, entryPresent, recordLocked, WaiterAt.holdsList, WaiterAt.inserted,
        WaiterAt.rescinded, WaiterAt.leaving, WaiterAt.tookFiber, CompleterAt.holdsList,
        CompleterAt.beforeDecrement, CompleterAt.found, CompleterAt.erased, CompleterAt.missed,
        CompleterAt.pastBarrier, CompleterAt.published,
        JobSystem.log, JobSystem.unlockWaitList, JobSystem.waitListAssign,
        JobSystem.waitListErase, JobSystem.switchTo, JobSystem.setTls, JobSystem.setUsedFiber,
        JobSystem.setCounter, JobSystem.unlockUsedFiber, SpinLock.Unlock] using h5
    · simpa [compatible, entryPresent, recordLocked, WaiterAt.holdsList, WaiterAt.inserted,
        WaiterAt.rescinded, WaiterAt.leaving, WaiterAt.tookFiber, CompleterAt.holdsList,
        CompleterAt.beforeDecrement, CompleterAt.found, CompleterAt.erased, CompleterAt.missed,
        CompleterAt.pastBarrier, CompleterAt.published,
        JobSystem.log, JobSystem.unlockWaitList, JobSystem.waitListAssign,
        JobSystem.waitListErase, JobSystem.switchTo, JobSystem.setTls, JobSystem.setUsedFiber,
        JobSystem.setCounter, JobSystem.unlockUsedFiber, SpinLock.Unlock] using h6
    · intro h; cases h
    · intro h; rcases h with h | h <;> cases h
    · exact h9
    · exact h10
    · exact h11
    · exact h12
    · exact h13
    · intro h; simp [WaiterAt.tookFiber] at h
    · exact h15
    · simpa [compatible, entryPresent, recordLocked, WaiterAt.holdsList, WaiterAt.inserted,
        WaiterAt.rescinded, WaiterAt.leaving, WaiterAt.tookFiber, CompleterAt.holdsList,
        CompleterAt.beforeDecrement, CompleterAt.found, CompleterAt.erased, CompleterAt.missed,
        CompleterAt.pastBarrier, CompleterAt.published,
        JobSystem.log, JobSystem.unlockWaitList, JobSystem.waitListAssign,
        JobSystem.waitListErase, JobSystem.switchTo, JobSystem.setTls, JobSystem.setUsedFiber,
        JobSystem.setCounter, JobSystem.unlockUsedFiber, SpinLock.Unlock] using h16
  | unlockReturn =>
    have hc : c.holdsList = false := holds_excl .unlockReturn c h1 rfl
    simp only [stepWaiter]
    refine ⟨?_, ?_, ?_, ?_, ?_, ?_, ?_, ?_, ?_, ?_, ?_, ?_, ?_, ?_, ?_, ?_⟩
    · exact waiter_unlockReturn_returned c h1
    · simp [JobSystem.unlockWaitList, JobSystem.log, SpinLock.Unlock, WaiterAt.holdsList, hc]
    · exact h3
    · exact h4
    · simpa [compatible, entryPresent, recordLocked, WaiterAt.holdsList, WaiterAt.inserted,
        WaiterAt.rescinded, WaiterAt.leaving, WaiterAt.tookFiber, CompleterAt.holdsList,
        CompleterAt.beforeDecrement, CompleterAt.found, CompleterAt.erased, CompleterAt.missed,
        CompleterAt.pastBarrier, CompleterAt.published,
        JobSystem.log, JobSystem.unlockWaitList, JobSystem.waitListAssign,
        JobSystem.waitListErase, JobSystem.switchTo, JobSystem.setTls, JobSystem.setUsedFiber,
        JobSystem.setCounter, JobSystem.unlockUsedFiber, SpinLock.Unlock] using h5
    · simpa [compatible, entryPresent, recordLocked, WaiterAt.holdsList, WaiterAt.inserted,
        WaiterAt.rescinded, WaiterAt.leaving, WaiterAt.tookFiber, CompleterAt.holdsList,
        CompleterAt.beforeDecrement, CompleterAt.found, CompleterAt.erased, CompleterAt.missed,
        CompleterAt.pastBarrier, CompleterAt.published,
        JobSystem.log, JobSystem.unlockWaitList, JobSystem.waitListAssign,
        JobSystem.waitListErase, JobSystem.switchTo, JobSystem.setTls, JobSystem.setUsedFiber,
        JobSystem.setCounter, JobSystem.unlockUsedFiber, SpinLock.Unlock] using h6
    · intro h; cases h
    · intro h; rcases h with h | h <;> cases h
    · exact h9
    · exact h10
    · exact h11
    · exact h12
    · exact h13
    · intro h; simp [WaiterAt.tookFiber] at h
    · exact h15
    · simpa [compatible, entryPresent, recordLocked, WaiterAt.holdsList, WaiterAt.inserted,
        WaiterAt.rescinded, WaiterAt.leaving, WaiterAt.tookFiber, CompleterAt.holdsList,
        CompleterAt.beforeDecrement, CompleterAt.found, CompleterAt.erased, CompleterAt.missed,
        CompleterAt.pastBarrier, CompleterAt.published,
        JobSystem.log, JobSystem.unlockWaitList, JobSystem.waitListAssign,
        JobSystem.waitListErase, JobSystem.switchTo, JobSystem.setTls, JobSystem.setUsedFiber,
        JobSystem.setCounter, JobSystem.unlockUsedFiber, SpinLock.Unlock] using h16
  | unlockContinue =>
    have hc : c.holdsList = false := holds_excl .unlockContinue c h1 rfl
    simp only [stepWaiter]
    refine ⟨?_, ?_, ?_, ?_, ?_, ?_, ?_, ?_, ?_, ?_, ?_, ?_, ?_, ?_, ?_, ?_⟩
    · exact waiter_unlockContinue_takeFiber c h1
    · simp [JobSystem.unlockWaitList, JobSystem.log, SpinLock.Unlock, WaiterAt.holdsList, hc]
    · exact h3
    · exact h4
    · simpa [compatible, entryPresent, recordLocked, WaiterAt.holdsList, WaiterAt.inserted,
        WaiterAt.rescinded, WaiterAt.leaving, WaiterAt.tookFiber, CompleterAt.holdsList,
        CompleterAt.beforeDecrement, CompleterAt.found, CompleterAt.erased, CompleterAt.missed,
        CompleterAt.pastBarrier, CompleterAt.published,
        JobSystem.log, JobSystem.unlockWaitList, JobSystem.waitListAssign,
        JobSystem.waitListErase, JobSystem.switchTo, JobSystem.setTls, JobSystem.setUsedFiber,
        JobSystem.setCounter, JobSystem.unlockUsedFiber, SpinLock.Unlock] using h5
    · simpa [compatible, entryPresent, recordLocked, WaiterAt.holdsList, WaiterAt.inserted,
        WaiterAt.rescinded, WaiterAt.leaving, WaiterAt.tookFiber, CompleterAt.holdsList,
        CompleterAt.beforeDecrement, CompleterAt.found, CompleterAt.erased, CompleterAt.missed,
        CompleterAt.pastBarrier, CompleterAt.published,
        JobSystem.log, JobSystem.unlockWaitList, JobSystem.waitListAssign,
        JobSystem.waitListErase, JobSystem.switchTo, JobSystem.setTls, JobSystem.setUsedFiber,
        JobSystem.setCounter, JobSystem.unlockUsedFiber, SpinLock.Unlock] using h6
    · intro h; cases h
    · intro h; rcases h with h | h <;> cases h
    · exact h9
    · exact h10
    · exact h11
    · exact h12
    · exact h13
    · intro h; simp [WaiterAt.tookFiber] at h
    · exact h15
    · intro _ _ _; exact ⟨rfl, by intro h; cases h⟩
  | readCounter =>
    by_cases hz : sys.counters cfg.counter = 0
    · simp only [stepWaiter, hz, if_true]
      refine ⟨?_, ?_, ?_, ?_, ?_, ?_, ?_, ?_, ?_, ?_, ?_, ?_, ?_, ?_, ?_, ?_⟩
      · exact waiter_readCounter_relockList c h1
      · exact h2
      · exact h3
      · exact h4
      · simpa [compatible, entryPresent, recordLocked, WaiterAt.holdsList, WaiterAt.inserted,
          WaiterAt.rescinded, WaiterAt.leaving, WaiterAt.tookFiber, CompleterAt.holdsList,
          CompleterAt.beforeDecrement, CompleterAt.found, CompleterAt.erased, CompleterAt.missed,
          CompleterAt.pastBarrier, CompleterAt.published,
          JobSystem.log, JobSystem.unlockWaitList, JobSystem.waitListAssign,
          JobSystem.waitListErase, JobSystem.switchTo, JobSystem.setTls, JobSystem.setUsedFiber,
          JobSystem.setCounter, JobSystem.unlockUsedFiber, SpinLock.Unlock] using h5
      · simpa [compatible, entryPresent, recordLocked, WaiterAt.holdsList, WaiterAt.inserted,
          WaiterAt.rescinded, WaiterAt.leaving, WaiterAt.tookFiber, CompleterAt.holdsList,
          CompleterAt.beforeDecrement, CompleterAt.found, CompleterAt.erased, CompleterAt.missed,
          CompleterAt.pastBarrier, CompleterAt.published,
          JobSystem.log, JobSystem.unlockWaitList, JobSystem.waitListAssign,
          JobSystem.waitListErase, JobSystem.switchTo, JobSystem.setTls, JobSystem.setUsedFiber,
          JobSystem.setCounter, JobSystem.unlockUsedFiber, SpinLock.Unlock] using h6
      · intro h; cases h
      · intro h; rcases h with h | h <;> cases h
      · exact h9
      · exact h10
      · exact h11
      · exact h12
      · exact h13
      · intro h; simp [WaiterAt.tookFiber] at h
      · exact h15
      · intro x hx hx0
        simp only [Option.some.injEq] at hx
        exact absurd hx.symm hx0
    · have hb : c.beforeDecrement = true := by
        cases hbd : c.beforeDecrement with
        | true => rfl
        | false => rw [hbd] at h3; exact absurd h3 hz
      simp only [stepWaiter, hz, if_false]
      refine ⟨?_, ?_, ?_, ?_, ?_, ?_, ?_, ?_, ?_, ?_, ?_, ?_, ?_, ?_, ?_, ?_⟩
      · exact waiter_readCounter_takeFiber c h1 hb
      · exact h2
      · exact h3
      · exact h4
      · simpa [compatible, entryPresent, recordLocked, WaiterAt.holdsList, WaiterAt.inserted,
          WaiterAt.rescinded, WaiterAt.leaving, WaiterAt.tookFiber, CompleterAt.holdsList,
          CompleterAt.beforeDecrement, CompleterAt.found, CompleterAt.erased, CompleterAt.missed,
          CompleterAt.pastBarrier, CompleterAt.published,
          JobSystem.log, JobSystem.unlockWaitList, JobSystem.waitListAssign,
          JobSystem.waitListErase, JobSystem.switchTo, JobSystem.setTls, JobSystem.setUsedFiber,
          JobSystem.setCounter, JobSystem.unlockUsedFiber, SpinLock.Unlock] using h5
      · simpa [compatible, entryPresent, recordLocked, WaiterAt.holdsList, WaiterAt.inserted,
          WaiterAt.rescinded, WaiterAt.leaving, WaiterAt.tookFiber, CompleterAt.holdsList,
          CompleterAt.beforeDecrement, CompleterAt.found, CompleterAt.erased, CompleterAt.missed,
          CompleterAt.pastBarrier, CompleterAt.published,
          JobSystem.log, JobSystem.unlockWaitList, JobSystem.waitListAssign,
          JobSystem.waitListErase, JobSystem.switchTo, JobSystem.setTls, JobSystem.setUsedFiber,
          JobSystem.setCounter, JobSystem.unlockUsedFiber, SpinLock.Unlock] using h6
      · intro h; cases h
      · intro h; rcases h with h | h <;> cases h
      · exact h9
      · exact h10
      · exact h11
      · exact h12
      · exact h13
      · intro h; simp [WaiterAt.tookFiber] at h
      · exact h15
      · intro _ _ _; exact ⟨rfl, by intro h; cases h⟩
  | findEntry =>
    cases hp : entryPresent .findEntry c with
    | true =>
      rw [hp] at h4
      simp only [if_true] at h4
      simp only [stepWaiter, h4]
      refine ⟨?_, ?_, ?_, ?_, ?_, ?_, ?_, ?_, ?_, ?_, ?_, ?_, ?_, ?_, ?_, ?_⟩
      · exact waiter_findEntry_eraseEntry c h1 hp
      · exact h2
      · exact h3
      · have hp2 : entryPresent .eraseEntry c = true := hp
        simp only [h4, hp2, if_true]
      · simpa [compatible, entryPresent, recordLocked, WaiterAt.holdsList, WaiterAt.inserted,
          WaiterAt.rescinded, WaiterAt.leaving, WaiterAt.tookFiber, CompleterAt.holdsList,
          CompleterAt.beforeDecrement, CompleterAt.found, CompleterAt.erased, CompleterAt.missed,
          CompleterAt.pastBarrier, CompleterAt.published,
          JobSystem.log, JobSystem.unlockWaitList, JobSystem.waitListAssign,
          JobSystem.waitListErase, JobSystem.switchTo, JobSystem.setTls, JobSystem.setUsedFiber,
          JobSystem.setCounter, JobSystem.unlockUsedFiber, SpinLock.Unlock] using h5
      · simpa [compatible, entryPresent, recordLocked, WaiterAt.holdsList, WaiterAt.inserted,
          WaiterAt.rescinded, WaiterAt.leaving, WaiterAt.tookFiber, CompleterAt.holdsList,
          CompleterAt.beforeDecrement, CompleterAt.found, CompleterAt.erased, CompleterAt.missed,
          CompleterAt.pastBarrier, CompleterAt.published,
          JobSystem.log, JobSystem.unlockWaitList, JobSystem.waitListAssign,
          JobSystem.waitListErase, JobSystem.switchTo, JobSystem.setTls, JobSystem.setUsedFiber,
          JobSystem.setCounter, JobSystem.unlockUsedFiber, SpinLock.Unlock] using h6
      · intro h; cases h
      · intro h; rcases h with h | h <;> cases h
      · exact h9
      · exact h10
      · exact h11
      · exact h12
      · exact h13
      · intro h; simp [WaiterAt.tookFiber] at h
      · exact h15
      · simpa [compatible, entryPresent, recordLocked, WaiterAt.holdsList, WaiterAt.inserted,
          WaiterAt.rescinded, WaiterAt.leaving, WaiterAt.tookFiber, CompleterAt.holdsList,
          CompleterAt.beforeDecrement, CompleterAt.found, CompleterAt.erased, CompleterAt.missed,
          CompleterAt.pastBarrier, CompleterAt.published,
          JobSystem.log, JobSystem.unlockWaitList, JobSystem.waitListAssign,
          JobSystem.waitListErase, JobSystem.switchTo, JobSystem.setTls, JobSystem.setUsedFiber,
          JobSystem.setCounter, JobSystem.unlockUsedFiber, SpinLock.Unlock] using h16
    | false =>
      rw [hp] at h4
      simp only [Bool.false_eq_true, if_false] at h4
      simp only [stepWaiter, h4]
      refine ⟨?_, ?_, ?_, ?_, ?_, ?_, ?_, ?_, ?_, ?_, ?_, ?_, ?_, ?_, ?_, ?_⟩
      · exact waiter_findEntry_unlockContinue c h1 hp
      · exact h2
      · exact h3
      · have hp2 : entryPresent .unlockContinue c = false := hp
        simp only [h4, hp2, Bool.false_eq_true, if_false]
      · simpa [compatible, entryPresent, recordLocked, WaiterAt.holdsList, WaiterAt.inserted,
          WaiterAt.rescinded, WaiterAt.leaving, WaiterAt.tookFiber, CompleterAt.holdsList,
          CompleterAt.beforeDecrement, CompleterAt.found, CompleterAt.erased, CompleterAt.missed,
          CompleterAt.pastBarrier, CompleterAt.published,
          JobSystem.log, JobSystem.unlockWaitList, JobSystem.waitListAssign,
          JobSystem.waitListErase, JobSystem.switchTo, JobSystem.setTls, JobSystem.setUsedFiber,
          JobSystem.setCounter, JobSystem.unlockUsedFiber, SpinLock.Unlock] using h5
      · simpa [compatible, entryPresent, recordLocked, WaiterAt.holdsList, WaiterAt.inserted,
          WaiterAt.rescinded, WaiterAt.leaving, WaiterAt.tookFiber, CompleterAt.holdsList,
          CompleterAt.beforeDecrement, CompleterAt.found, CompleterAt.erased, CompleterAt.missed,
          CompleterAt.pastBarrier, CompleterAt.published,
          JobSystem.log, JobSystem.unlockWaitList, JobSystem.waitListAssign,
          JobSystem.waitListErase, JobSystem.switchTo, JobSystem.setTls, JobSystem.setUsedFiber,
          JobSystem.setCounter, JobSystem.unlockUsedFiber, SpinLock.Unlock] using h6
      · intro h; cases h
      · intro h; rcases h with h | h <;> cases h
      · exact h9
      · exact h10
      · exact h11
      · exact h12
      · exact h13
      · intro h; simp [WaiterAt.tookFiber] at h
      · exact h15
      · intro x hx hx0
        exact absurd (h16 x hx hx0).1 (by decide)
  | eraseEntry =>
    simp only [stepWaiter]
    refine ⟨?_, ?_, ?_, ?_, ?_, ?_, ?_, ?_, ?_, ?_, ?_, ?_, ?_, ?_, ?_, ?_⟩
    · exact waiter_eraseEntry_unlockReturn c h1
    · exact h2
    · exact h3
    · simp [JobSystem.waitListErase, JobSystem.log, find_erase_self, entryPresent,
        WaiterAt.rescinded]
    · simpa [compatible, entryPresent, recordLocked, WaiterAt.holdsList, WaiterAt.inserted,
        WaiterAt.rescinded, WaiterAt.leaving, WaiterAt.tookFiber, CompleterAt.holdsList,
        CompleterAt.beforeDecrement, CompleterAt.found, CompleterAt.erased, CompleterAt.missed,
        CompleterAt.pastBarrier, CompleterAt.published,
        JobSystem.log, JobSystem.unlockWaitList, JobSystem.waitListAssign,
        JobSystem.waitListErase, JobSystem.switchTo, JobSystem.setTls, JobSystem.setUsedFiber,
        JobSystem.setCounter, JobSystem.unlockUsedFiber, SpinLock.Unlock] using h5
    · simpa [compatible, entryPresent, recordLocked, WaiterAt.holdsList, WaiterAt.inserted,
        WaiterAt.rescinded, WaiterAt.leaving, WaiterAt.tookFiber, CompleterAt.holdsList,
        CompleterAt.beforeDecrement, CompleterAt.found, CompleterAt.erased, CompleterAt.missed,
        CompleterAt.pastBarrier, CompleterAt.published,
        JobSystem.log, JobSystem.unlockWaitList, JobSystem.waitListAssign,
        JobSystem.waitListErase, JobSystem.switchTo, JobSystem.setTls, JobSystem.setUsedFiber,
        JobSystem.setCounter, JobSystem.unlockUsedFiber, SpinLock.Unlock] using h6
    · intro h; cases h
    · intro h; rcases h with h | h <;> cases h
    · exact h9
    · exact h10
    · exact h11
    · exact h12
    · exact h13
    · intro h; simp [WaiterAt.tookFiber] at h
    · exact h15
    · simpa [compatible, entryPresent, recordLocked, WaiterAt.holdsList, WaiterAt.inserted,
        WaiterAt.rescinded, WaiterAt.leaving, WaiterAt.tookFiber, CompleterAt.holdsList,
        CompleterAt.beforeDecrement, CompleterAt.found, CompleterAt.erased, CompleterAt.missed,
        CompleterAt.pastBarrier, CompleterAt.published,
        JobSystem.log, JobSystem.unlockWaitList, JobSystem.waitListAssign,
        JobSystem.waitListErase, JobSystem.switchTo, JobSystem.setTls, JobSystem.setUsedFiber,
        JobSystem.setCounter, JobSystem.unlockUsedFiber, SpinLock.Unlock] using h16
  | takeFiber =>
    have e := takeFiber_done cfg.waiterThread cfg.frame sys h12 (h13 rfl)
    simp only [stepWaiter, e]
    refine ⟨?_, ?_, ?_, ?_, ?_, ?_, ?_, ?_, ?_, ?_, ?_, ?_, ?_, ?_, ?_, ?_⟩
    · exact waiter_takeFiber_switchAway c h1
    · exact h2
    · exact h3
    · exact h4
    · simpa [compatible, entryPresent, recordLocked, WaiterAt.holdsList, WaiterAt.inserted,
        WaiterAt.rescinded, WaiterAt.leaving, WaiterAt.tookFiber, CompleterAt.holdsList,
        CompleterAt.beforeDecrement, CompleterAt.found, CompleterAt.erased, CompleterAt.missed,
        CompleterAt.pastBarrier, CompleterAt.published,
        JobSystem.log, JobSystem.unlockWaitList, JobSystem.waitListAssign,
        JobSystem.waitListErase, JobSystem.switchTo, JobSystem.setTls, JobSystem.setUsedFiber,
        JobSystem.setCounter, JobSystem.unlockUsedFiber, SpinLock.Unlock] using h5
    · simpa [compatible, entryPresent, recordLocked, WaiterAt.holdsList, WaiterAt.inserted,
        WaiterAt.rescinded, WaiterAt.leaving, WaiterAt.tookFiber, CompleterAt.holdsList,
        CompleterAt.beforeDecrement, CompleterAt.found, CompleterAt.erased, CompleterAt.missed,
        CompleterAt.pastBarrier, CompleterAt.published,
        JobSystem.log, JobSystem.unlockWaitList, JobSystem.waitListAssign,
        JobSystem.waitListErase, JobSystem.switchTo, JobSystem.setTls, JobSystem.setUsedFiber,
        JobSystem.setCounter, JobSystem.unlockUsedFiber, SpinLock.Unlock] using h6
    · intro h; cases h
    · intro _; simp
    · exact h9
    · simpa [Function.update_noteq hne] using h10
    · simpa [Function.update_noteq hne] using h11
    · exact PopFront_wf _ h12
    · intro h; simp [WaiterAt.tookFiber] at h
    · intro _ _
      have a := PopFront_held _ h12 (h13 rfl)
      have b := held_lt _ h12
      simp only at a ⊢
      omega
    · exact h15
    · intro x hx hx0; exact ⟨rfl, by intro h; cases h⟩
  | switchAway =>
    simp only [stepWaiter]
    refine ⟨?_, ?_, ?_, ?_, ?_, ?_, ?_, ?_, ?_, ?_, ?_, ?_, ?_, ?_, ?_, ?_⟩
    · exact waiter_switchAway_incomingUnlock c h1
    · exact h2
    · exact h3
    · exact h4
    · simpa [compatible, entryPresent, recordLocked, WaiterAt.holdsList, WaiterAt.inserted,
        WaiterAt.rescinded, WaiterAt.leaving, WaiterAt.tookFiber, CompleterAt.holdsList,
        CompleterAt.beforeDecrement, CompleterAt.found, CompleterAt.erased, CompleterAt.missed,
        CompleterAt.pastBarrier, CompleterAt.published,
        JobSystem.log, JobSystem.unlockWaitList, JobSystem.waitListAssign,
        JobSystem.waitListErase, JobSystem.switchTo, JobSystem.setTls, JobSystem.setUsedFiber,
        JobSystem.setCounter, JobSystem.unlockUsedFiber, SpinLock.Unlock] using h5
    · simpa [compatible, entryPresent, recordLocked, WaiterAt.holdsList, WaiterAt.inserted,
        WaiterAt.rescinded, WaiterAt.leaving, WaiterAt.tookFiber, CompleterAt.holdsList,
        CompleterAt.beforeDecrement, CompleterAt.found, CompleterAt.erased, CompleterAt.missed,
        CompleterAt.pastBarrier, CompleterAt.published,
        JobSystem.log, JobSystem.unlockWaitList, JobSystem.waitListAssign,
        JobSystem.waitListErase, JobSystem.switchTo, JobSystem.setTls, JobSystem.setUsedFiber,
        JobSystem.setCounter, JobSystem.unlockUsedFiber, SpinLock.Unlock] using h6
    · intro h; cases h
    · intro _; exact h8 (Or.inl rfl)
    · exact h9
    · exact h10
    · exact h11
    · exact h12
    · intro h; simp [WaiterAt.tookFiber] at h
    · intro _ hcc; exact h14 rfl hcc
    · exact h15
    · intro x hx hx0; exact ⟨rfl, by intro h; cases h⟩
  | incomingUnlock =>
    by_cases hdown : sys.mShutDown = true
    · simp only [stepWaiter, hdown, if_true]
      refine ⟨?_, ?_, ?_, ?_, ?_, ?_, ?_, ?_, ?_, ?_, ?_, ?_, ?_, ?_, ?_, ?_⟩
      · exact waiter_incomingUnlock_workerExit c h1
      · exact h2
      · exact h3
      · exact h4
      · intro _; exact h5 (by decide)
      · intro _; exact h6 (by decide)
      · intro h; cases h
      · intro h; rcases h with h | h <;> cases h
      · exact h9
      · exact h10
      · exact h11
      · exact h12
      · intro h; simp [WaiterAt.tookFiber] at h
      · intro _ hcc; exact h14 rfl hcc
      · exact h15
      · intro x hx hx0; exact ⟨rfl, by intro h; cases h⟩
    · simp only [Bool.not_eq_true] at hdown
      have hs := h8 (Or.inr rfl)
      have e := unlockPrevious_slot cfg.waiterThread sys (by rw [hs]; exact v.frame)
      rw [hs] at e
      simp only [stepWaiter, hdown, Bool.false_eq_true, if_false, e]
      refine ⟨?_, ?_, ?_, ?_, ?_, ?_, ?_, ?_, ?_, ?_, ?_, ?_, ?_, ?_, ?_, ?_⟩
      · exact waiter_incomingUnlock_polling c h1
      · exact h2
      · exact h3
      · exact h4
      · intro _; simp [record_after_unlock c h1]
      · intro _; simpa using h6 (by decide)
      · intro h; cases h
      · intro h; rcases h with h | h <;> cases h
      · exact h9
      · simpa [Function.update_noteq hne] using h10
      · simpa [Function.update_noteq hne] using h11
      · exact h12
      · intro h; simp [WaiterAt.tookFiber] at h
      · intro _ hcc; exact h14 rfl hcc
      · exact h15
      · intro x hx hx0; exact ⟨rfl, by intro h; cases h⟩
  | polling =>
    simp only [stepWaiter]
    exact ⟨h1, h2, h3, h4, h5, h6, h7, h8, h9, h10, h11, h12, h13, h14, h15, h16⟩
  | workerExit =>
    simp only [stepWaiter]
    exact ⟨h1, h2, h3, h4, h5, h6, h7, h8, h9, h10, h11, h12, h13, h14, h15, h16⟩
  | returned =>
    simp only [stepWaiter]
    exact ⟨h1, h2, h3, h4, h5, h6, h7, h8, h9, h10, h11, h12, h13, h14, h15, h16⟩
  | aborted =>
    simp only [stepWaiter]
    exact ⟨h1, h2, h3, h4, h5, h6, h7, h8, h9, h10, h11, h12, h13, h14, h15, h16⟩

/-- Every step of the completer thread keeps the invariant of the race. -/
theorem stepCompleter_inv (cfg : RaceSetup) (v : cfg.Valid) (r : Race) (h : RaceInv cfg r) :
    RaceInv cfg (stepCompleter cfg r) := by
  obtain ⟨sys, w, c, A, seen, found⟩ := r
  obtain ⟨h1, h2, h3, h4, h5, h6, h7, h8, h9, h10, h11, h12, h13, h14, h15, h16⟩ := h
  simp only at h1 h2 h3 h4 h5 h6 h7 h8 h9 h10 h11 h12 h13 h14 h15 h16
  have hne : cfg.waiterThread ≠ cfg.completerThread := v.threads
  have hjob : cfg.job.mCounter = cfg.counter := v.job
  cases c with
  | callJob =>
    simp only [stepCompleter]
    refine ⟨?_, ?_, ?_, ?_, ?_, ?_, ?_, ?_, ?_, ?_, ?_, ?_, ?_, ?_, ?_, ?_⟩
    · exact completer_callJob_decrement w h1
    · exact h2
    · simpa [FiberJobEntry.call, JobSystem.log, v.code, CompleterAt.beforeDecrement] using h3
    · exact h4
    · exact h5
    · exact h6
    · exact h7
    · exact h8
    · intro h; cases h
    · simpa only [compatible, entryPresent, recordLocked, WaiterAt.holdsList, WaiterAt.inserted,
        WaiterAt.rescinded, WaiterAt.leaving, WaiterAt.tookFiber, CompleterAt.holdsList,
        CompleterAt.beforeDecrement, CompleterAt.found, CompleterAt.erased, CompleterAt.missed,
        CompleterAt.pastBarrier, CompleterAt.published,
        JobSystem.log, JobSystem.unlockWaitList, JobSystem.waitListAssign,
        JobSystem.waitListErase, JobSystem.switchTo, JobSystem.setTls, JobSystem.setUsedFiber,
        JobSystem.setCounter, JobSystem.unlockUsedFiber, SpinLock.Unlock] using h10
    · intro h; cases h
    · simpa only [compatible, entryPresent, recordLocked, WaiterAt.holdsList, WaiterAt.inserted,
        WaiterAt.rescinded, WaiterAt.leaving, WaiterAt.tookFiber, CompleterAt.holdsList,
        CompleterAt.beforeDecrement, CompleterAt.found, CompleterAt.erased, CompleterAt.missed,
        CompleterAt.pastBarrier, CompleterAt.published,
        JobSystem.log, JobSystem.unlockWaitList, JobSystem.waitListAssign,
        JobSystem.waitListErase, JobSystem.switchTo, JobSystem.setTls, JobSystem.setUsedFiber,
        JobSystem.setCounter, JobSystem.unlockUsedFiber, SpinLock.Unlock] using h12
    · exact h13
    · simpa [compatible, entryPresent, recordLocked, WaiterAt.holdsList, WaiterAt.inserted,
        WaiterAt.rescinded, WaiterAt.leaving, WaiterAt.tookFiber, CompleterAt.holdsList,
        CompleterAt.beforeDecrement, CompleterAt.found, CompleterAt.erased, CompleterAt.missed,
        CompleterAt.pastBarrier, CompleterAt.published,
        JobSystem.log, JobSystem.unlockWaitList, JobSystem.waitListAssign,
        JobSystem.waitListErase, JobSystem.switchTo, JobSystem.setTls, JobSystem.setUsedFiber,
        JobSystem.setCounter, JobSystem.unlockUsedFiber, SpinLock.Unlock] using h14
    · exact h15
    · exact h16
  | decrement =>
    have h3b : sys.counters cfg.counter = 1 := h3
    simp only [stepCompleter, hjob]
    refine ⟨?_, ?_, ?_, ?_, ?_, ?_, ?_, ?_, ?_, ?_, ?_, ?_, ?_, ?_, ?_, ?_⟩
    · exact completer_decrement_testCounter w h1
    · exact h2
    · simp [FiberJobEntry.decrement, JobSystem.setCounter, h3b, CompleterAt.beforeDecrement]
    · exact h4
    · exact h5
    · exact h6
    · exact h7
    · exact h8
    · intro h; cases h
    · simpa only [compatible, entryPresent, recordLocked, WaiterAt.holdsList, WaiterAt.inserted,
        WaiterAt.rescinded, WaiterAt.leaving, WaiterAt.tookFiber, CompleterAt.holdsList,
        CompleterAt.beforeDecrement, CompleterAt.found, CompleterAt.erased, CompleterAt.missed,
        CompleterAt.pastBarrier, CompleterAt.published,
        JobSystem.log, JobSystem.unlockWaitList, JobSystem.waitListAssign,
        JobSystem.waitListErase, JobSystem.switchTo, JobSystem.setTls, JobSystem.setUsedFiber,
        JobSystem.setCounter, JobSystem.unlockUsedFiber, SpinLock.Unlock] using h10
    · intro h; cases h
    · simpa only [compatible, entryPresent, recordLocked, WaiterAt.holdsList, WaiterAt.inserted,
        WaiterAt.rescinded, WaiterAt.leaving, WaiterAt.tookFiber, CompleterAt.holdsList,
        CompleterAt.beforeDecrement, CompleterAt.found, CompleterAt.erased, CompleterAt.missed,
        CompleterAt.pastBarrier, CompleterAt.published,
        JobSystem.log, JobSystem.unlockWaitList, JobSystem.waitListAssign,
        JobSystem.waitListErase, JobSystem.switchTo, JobSystem.setTls, JobSystem.setUsedFiber,
        JobSystem.setCounter, JobSystem.unlockUsedFiber, SpinLock.Unlock] using h12
    · exact h13
    · simpa [compatible, entryPresent, recordLocked, WaiterAt.holdsList, WaiterAt.inserted,
        WaiterAt.rescinded, WaiterAt.leaving, WaiterAt.tookFiber, CompleterAt.holdsList,
        CompleterAt.beforeDecrement, CompleterAt.found, CompleterAt.erased, CompleterAt.missed,
        CompleterAt.pastBarrier, CompleterAt.published,
        JobSystem.log, JobSystem.unlockWaitList, JobSystem.waitListAssign,
        JobSystem.waitListErase, JobSystem.switchTo, JobSystem.setTls, JobSystem.setUsedFiber,
        JobSystem.setCounter, JobSystem.unlockUsedFiber, SpinLock.Unlock] using h14
    · exact h15
    · exact h16
  | testCounter =>
    have hz : sys.counters cfg.counter = 0 := h3
    simp only [stepCompleter, hjob, hz, if_true]
    refine ⟨?_, ?_, ?_, ?_, ?_, ?_, ?_, ?_, ?_, ?_, ?_, ?_, ?_, ?_, ?_, ?_⟩
    · exact completer_testCounter_lockList w h1
    · exact h2
    · exact h3
    · exact h4
    · exact h5
    · exact h6
    · exact h7
    · exact h8
    · intro h; cases h
    · simpa only [compatible, entryPresent, recordLocked, WaiterAt.holdsList, WaiterAt.inserted,
        WaiterAt.rescinded, WaiterAt.leaving, WaiterAt.tookFiber, CompleterAt.holdsList,
        CompleterAt.beforeDecrement, CompleterAt.found, CompleterAt.erased, CompleterAt.missed,
        CompleterAt.pastBarrier, CompleterAt.published,
        JobSystem.log, JobSystem.unlockWaitList, JobSystem.waitListAssign,
        JobSystem.waitListErase, JobSystem.switchTo, JobSystem.setTls, JobSystem.setUsedFiber,
        JobSystem.setCounter, JobSystem.unlockUsedFiber, SpinLock.Unlock] using h10
    · intro h; cases h
    · simpa only [compatible, entryPresent, recordLocked, WaiterAt.holdsList, WaiterAt.inserted,
        WaiterAt.rescinded, WaiterAt.leaving, WaiterAt.tookFiber, CompleterAt.holdsList,
        CompleterAt.beforeDecrement, CompleterAt.found, CompleterAt.erased, CompleterAt.missed,
        CompleterAt.pastBarrier, CompleterAt.published,
        JobSystem.log, JobSystem.unlockWaitList, JobSystem.waitListAssign,
        JobSystem.waitListErase, JobSystem.switchTo, JobSystem.setTls, JobSystem.setUsedFiber,
        JobSystem.setCounter, JobSystem.unlockUsedFiber, SpinLock.Unlock] using h12
    · exact h13
    · simpa [compatible, entryPresent, recordLocked, WaiterAt.holdsList, WaiterAt.inserted,
        WaiterAt.rescinded, WaiterAt.leaving, WaiterAt.tookFiber, CompleterAt.holdsList,
        CompleterAt.beforeDecrement, CompleterAt.found, CompleterAt.erased, CompleterAt.missed,
        CompleterAt.pastBarrier, CompleterAt.published,
        JobSystem.log, JobSystem.unlockWaitList, JobSystem.waitListAssign,
        JobSystem.waitListErase, JobSystem.switchTo, JobSystem.setTls, JobSystem.setUsedFiber,
        JobSystem.setCounter, JobSystem.unlockUsedFiber, SpinLock.Unlock] using h14
    · exact h15
    · exact h16
  | lockList =>
    by_cases hl : sys.mWaitListLock.mLock = true
    · simp only [stepCompleter, lockWaitList_held sys hl]
      exact ⟨h1, h2, h3, h4, h5, h6, h7, h8, h9, h10, h11, h12, h13, h14, h15, h16⟩
    · simp only [Bool.not_eq_true] at hl
      have hc : w.holdsList = false := by
        rw [hl] at h2; simpa [CompleterAt.holdsList] using h2.symm
      simp only [stepCompleter, lockWaitList_free sys hl]
      refine ⟨?_, ?_, ?_, ?_, ?_, ?_, ?_, ?_, ?_, ?_, ?_, ?_, ?_, ?_, ?_, ?_⟩
      · exact completer_lockList_findEntry w h1 hc
      · simp [CompleterAt.holdsList]
      · exact h3
      · exact h4
      · exact h5
      · exact h6
      · exact h7
      · exact h8
      · intro h; cases h
      · simpa only [compatible, entryPresent, recordLocked, WaiterAt.holdsList,
          WaiterAt.inserted, WaiterAt.rescinded, WaiterAt.leaving, WaiterAt.tookFiber,
          CompleterAt.holdsList, CompleterAt.beforeDecrement, CompleterAt.found,
          CompleterAt.erased, CompleterAt.missed, CompleterAt.pastBarrier, CompleterAt.published,
          JobSystem.log, JobSystem.unlockWaitList, JobSystem.waitListAssign,
          JobSystem.waitListErase, JobSystem.switchTo, JobSystem.setTls, JobSystem.setUsedFiber,
          JobSystem.setCounter, JobSystem.unlockUsedFiber, SpinLock.Unlock] using h10
      · intro h; cases h
      · simpa only [compatible, entryPresent, recordLocked, WaiterAt.holdsList,
          WaiterAt.inserted, WaiterAt.rescinded, WaiterAt.leaving, WaiterAt.tookFiber,
          CompleterAt.holdsList, CompleterAt.beforeDecrement, CompleterAt.found,
          CompleterAt.erased, CompleterAt.missed, CompleterAt.pastBarrier, CompleterAt.published,
          JobSystem.log, JobSystem.unlockWaitList, JobSystem.waitListAssign,
          JobSystem.waitListErase, JobSystem.switchTo, JobSystem.setTls, JobSystem.setUsedFiber,
          JobSystem.setCounter, JobSystem.unlockUsedFiber, SpinLock.Unlock] using h12
      · exact h13
      · simpa [compatible, entryPresent, recordLocked, WaiterAt.holdsList, WaiterAt.inserted,
          WaiterAt.rescinded, WaiterAt.leaving, WaiterAt.tookFiber, CompleterAt.holdsList,
          CompleterAt.beforeDecrement, CompleterAt.found, CompleterAt.erased, CompleterAt.missed,
          CompleterAt.pastBarrier, CompleterAt.published,
          JobSystem.log, JobSystem.unlockWaitList, JobSystem.waitListAssign,
          JobSystem.waitListErase, JobSystem.switchTo, JobSystem.setTls, JobSystem.setUsedFiber,
          JobSystem.setCounter, JobSystem.unlockUsedFiber, SpinLock.Unlock] using h14
      · exact h15
      · exact h16
  | findEntry =>
    cases hp : entryPresent w .findEntry with
    | true =>
      rw [hp] at h4
      simp only [if_true] at h4
      simp only [stepCompleter, hjob, h4]
      refine ⟨?_, ?_, ?_, ?_, ?_, ?_, ?_, ?_, ?_, ?_, ?_, ?_, ?_, ?_, ?_, ?_⟩
      · exact completer_findEntry_eraseEntry w h1 hp
      · exact h2
      · exact h3
      · have hp2 : entryPresent w .eraseEntry = true := hp
        simp only [h4, hp2, if_true]
      · exact h5
      · exact h6
      · exact h7
      · exact h8
      · intro _; rfl
      · exact h10
      · intro h; cases h
      · simpa only [compatible, entryPresent, recordLocked, WaiterAt.holdsList,
          WaiterAt.inserted, WaiterAt.rescinded, WaiterAt.leaving, WaiterAt.tookFiber,
          CompleterAt.holdsList, CompleterAt.beforeDecrement, CompleterAt.found,
          CompleterAt.erased, CompleterAt.missed, CompleterAt.pastBarrier, CompleterAt.published,
          JobSystem.log, JobSystem.unlockWaitList, JobSystem.waitListAssign,
          JobSystem.waitListErase, JobSystem.switchTo, JobSystem.setTls, JobSystem.setUsedFiber,
          JobSystem.setCounter, JobSystem.unlockUsedFiber, SpinLock.Unlock] using h12
      · exact h13
      · simpa [compatible, entryPresent, recordLocked, WaiterAt.holdsList, WaiterAt.inserted,
          WaiterAt.rescinded, WaiterAt.leaving, WaiterAt.tookFiber, CompleterAt.holdsList,
          CompleterAt.beforeDecrement, CompleterAt.found, CompleterAt.erased, CompleterAt.missed,
          CompleterAt.pastBarrier, CompleterAt.published,
          JobSystem.log, JobSystem.unlockWaitList, JobSystem.waitListAssign,
          JobSystem.waitListErase, JobSystem.switchTo, JobSystem.setTls, JobSystem.setUsedFiber,
          JobSystem.setCounter, JobSystem.unlockUsedFiber, SpinLock.Unlock] using h14
      · intro h; simp at h
      · exact h16
    | false =>
      rw [hp] at h4
      simp only [Bool.false_eq_true, if_false] at h4
      simp only [stepCompleter, hjob, h4]
      refine ⟨?_, ?_, ?_, ?_, ?_, ?_, ?_, ?_, ?_, ?_, ?_, ?_, ?_, ?_, ?_, ?_⟩
      · exact completer_findEntry_unlockReturn w h1 hp
      · exact h2
      · exact h3
      · have hp2 : entryPresent w .unlockReturn = false := hp
        simp only [h4, hp2, Bool.false_eq_true, if_false]
      · exact h5
      · exact h6
      · exact h7
      · exact h8
      · intro h; cases h
      · simpa only [compatible, entryPresent, recordLocked, WaiterAt.holdsList,
          WaiterAt.inserted, WaiterAt.rescinded, WaiterAt.leaving, WaiterAt.tookFiber,
          CompleterAt.holdsList, CompleterAt.beforeDecrement, CompleterAt.found,
          CompleterAt.erased, CompleterAt.missed, CompleterAt.pastBarrier, CompleterAt.published,
          JobSystem.log, JobSystem.unlockWaitList, JobSystem.waitListAssign,
          JobSystem.waitListErase, JobSystem.switchTo, JobSystem.setTls, JobSystem.setUsedFiber,
          JobSystem.setCounter, JobSystem.unlockUsedFiber, SpinLock.Unlock] using h10
      · intro h; cases h
      · simpa only [compatible, entryPresent, recordLocked, WaiterAt.holdsList,
          WaiterAt.inserted, WaiterAt.rescinded, WaiterAt.leaving, WaiterAt.tookFiber,
          CompleterAt.holdsList, CompleterAt.beforeDecrement, CompleterAt.found,
          CompleterAt.erased, CompleterAt.missed, CompleterAt.pastBarrier, CompleterAt.published,
          JobSystem.log, JobSystem.unlockWaitList, JobSystem.waitListAssign,
          JobSystem.waitListErase, JobSystem.switchTo, JobSystem.setTls, JobSystem.setUsedFiber,
          JobSystem.setCounter, JobSystem.unlockUsedFiber, SpinLock.Unlock] using h12
      · exact h13
      · simpa [compatible, entryPresent, recordLocked, WaiterAt.holdsList, WaiterAt.inserted,
          WaiterAt.rescinded, WaiterAt.leaving, WaiterAt.tookFiber, CompleterAt.holdsList,
          CompleterAt.beforeDecrement, CompleterAt.found, CompleterAt.erased, CompleterAt.missed,
          CompleterAt.pastBarrier, CompleterAt.published,
          JobSystem.log, JobSystem.unlockWaitList, JobSystem.waitListAssign,
          JobSystem.waitListErase, JobSystem.switchTo, JobSystem.setTls, JobSystem.setUsedFiber,
          JobSystem.setCounter, JobSystem.unlockUsedFiber, SpinLock.Unlock] using h14
      · intro _; rfl
      · exact h16
  | unlockReturn =>
    have hc : w.holdsList = false := holds_excl_completer w .unlockReturn h1 rfl
    simp only [stepCompleter]
    refine ⟨?_, ?_, ?_, ?_, ?_, ?_, ?_, ?_, ?_, ?_, ?_, ?_, ?_, ?_, ?_, ?_⟩
    · exact completer_unlockReturn_returned w h1
    · simp [JobSystem.unlockWaitList, JobSystem.log, SpinLock.Unlock, CompleterAt.holdsList, hc]
    · exact h3
    · exact h4
    · exact h5
    · exact h6
    · exact h7
    · exact h8
    · intro h; cases h
    · simpa only [compatible, entryPresent, recordLocked, WaiterAt.holdsList, WaiterAt.inserted,
        WaiterAt.rescinded, WaiterAt.leaving, WaiterAt.tookFiber, CompleterAt.holdsList,
        CompleterAt.beforeDecrement, CompleterAt.found, CompleterAt.erased, CompleterAt.missed,
        CompleterAt.pastBarrier, CompleterAt.published,
        JobSystem.log, JobSystem.unlockWaitList, JobSystem.waitListAssign,
        JobSystem.waitListErase, JobSystem.switchTo, JobSystem.setTls, JobSystem.setUsedFiber,
        JobSystem.setCounter, JobSystem.unlockUsedFiber, SpinLock.Unlock] using h10
    · intro h; cases h
    · simpa only [compatible, entryPresent, recordLocked, WaiterAt.holdsList, WaiterAt.inserted,
        WaiterAt.rescinded, WaiterAt.leaving, WaiterAt.tookFiber, CompleterAt.holdsList,
        CompleterAt.beforeDecrement, CompleterAt.found, CompleterAt.erased, CompleterAt.missed,
        CompleterAt.pastBarrier, CompleterAt.published,
        JobSystem.log, JobSystem.unlockWaitList, JobSystem.waitListAssign,
        JobSystem.waitListErase, JobSystem.switchTo, JobSystem.setTls, JobSystem.setUsedFiber,
        JobSystem.setCounter, JobSystem.unlockUsedFiber, SpinLock.Unlock] using h12
    · exact h13
    · simpa [compatible, entryPresent, recordLocked, WaiterAt.holdsList, WaiterAt.inserted,
        WaiterAt.rescinded, WaiterAt.leaving, WaiterAt.tookFiber, CompleterAt.holdsList,
        CompleterAt.beforeDecrement, CompleterAt.found, CompleterAt.erased, CompleterAt.missed,
        CompleterAt.pastBarrier, CompleterAt.published,
        JobSystem.log, JobSystem.unlockWaitList, JobSystem.waitListAssign,
        JobSystem.waitListErase, JobSystem.switchTo, JobSystem.setTls, JobSystem.setUsedFiber,
        JobSystem.setCounter, JobSystem.unlockUsedFiber, SpinLock.Unlock] using h14
    · intro _; rfl
    · exact h16
  | eraseEntry =>
    have hA : A = cfg.frame := h9 rfl
    have hw := waiter_at_erase w h1
    have hf : ¬ (sys.usedFibers cfg.frame).fiber = 0 := h6 hw.1
    subst hA
    simp only [stepCompleter, hjob, hf, if_false]
    refine ⟨?_, ?_, ?_, ?_, ?_, ?_, ?_, ?_, ?_, ?_, ?_, ?_, ?_, ?_, ?_, ?_⟩
    · exact completer_eraseEntry_unlockList w h1
    · exact h2
    · exact h3
    · simp [JobSystem.waitListErase, JobSystem.log, find_erase_self, entryPresent,
        CompleterAt.erased]
    · exact h5
    · exact h6
    · exact h7
    · exact h8
    · intro _; rfl
    · exact h10
    · intro h; cases h
    · simpa only [compatible, entryPresent, recordLocked, WaiterAt.holdsList, WaiterAt.inserted,
        WaiterAt.rescinded, WaiterAt.leaving, WaiterAt.tookFiber, CompleterAt.holdsList,
        CompleterAt.beforeDecrement, CompleterAt.found, CompleterAt.erased, CompleterAt.missed,
        CompleterAt.pastBarrier, CompleterAt.published,
        JobSystem.log, JobSystem.unlockWaitList, JobSystem.waitListAssign,
        JobSystem.waitListErase, JobSystem.switchTo, JobSystem.setTls, JobSystem.setUsedFiber,
        JobSystem.setCounter, JobSystem.unlockUsedFiber, SpinLock.Unlock] using h12
    · exact h13
    · simpa [compatible, entryPresent, recordLocked, WaiterAt.holdsList, WaiterAt.inserted,
        WaiterAt.rescinded, WaiterAt.leaving, WaiterAt.tookFiber, CompleterAt.holdsList,
        CompleterAt.beforeDecrement, CompleterAt.found, CompleterAt.erased, CompleterAt.missed,
        CompleterAt.pastBarrier, CompleterAt.published,
        JobSystem.log, JobSystem.unlockWaitList, JobSystem.waitListAssign,
        JobSystem.waitListErase, JobSystem.switchTo, JobSystem.setTls, JobSystem.setUsedFiber,
        JobSystem.setCounter, JobSystem.unlockUsedFiber, SpinLock.Unlock] using h14
    · exact h15
    · exact h16
  | unlockList =>
    have hc : w.holdsList = false := holds_excl_completer w .unlockList h1 rfl
    have hA : A = cfg.frame := h9 rfl
    simp only [stepCompleter]
    refine ⟨?_, ?_, ?_, ?_, ?_, ?_, ?_, ?_, ?_, ?_, ?_, ?_, ?_, ?_, ?_, ?_⟩
    · exact completer_unlockList_lockRecord w h1
    · simp [JobSystem.unlockWaitList, JobSystem.log, SpinLock.Unlock, CompleterAt.holdsList, hc]
    · exact h3
    · exact h4
    · exact h5
    · exact h6
    · exact h7
    · exact h8
    · intro _; exact hA
    · exact h10
    · intro h; cases h
    · simpa only [compatible, entryPresent, recordLocked, WaiterAt.holdsList, WaiterAt.inserted,
        WaiterAt.rescinded, WaiterAt.leaving, WaiterAt.tookFiber, CompleterAt.holdsList,
        CompleterAt.beforeDecrement, CompleterAt.found, CompleterAt.erased, CompleterAt.missed,
        CompleterAt.pastBarrier, CompleterAt.published,
        JobSystem.log, JobSystem.unlockWaitList, JobSystem.waitListAssign,
        JobSystem.waitListErase, JobSystem.switchTo, JobSystem.setTls, JobSystem.setUsedFiber,
        JobSystem.setCounter, JobSystem.unlockUsedFiber, SpinLock.Unlock] using h12
    · exact h13
    · simpa [compatible, entryPresent, recordLocked, WaiterAt.holdsList, WaiterAt.inserted,
        WaiterAt.rescinded, WaiterAt.leaving, WaiterAt.tookFiber, CompleterAt.holdsList,
        CompleterAt.beforeDecrement, CompleterAt.found, CompleterAt.erased, CompleterAt.missed,
        CompleterAt.pastBarrier, CompleterAt.published,
        JobSystem.log, JobSystem.unlockWaitList, JobSystem.waitListAssign,
        JobSystem.waitListErase, JobSystem.switchTo, JobSystem.setTls, JobSystem.setUsedFiber,
        JobSystem.setCounter, JobSystem.unlockUsedFiber, SpinLock.Unlock] using h14
    · exact h15
    · exact h16
  | lockRecord =>
    have hA : A = cfg.frame := h9 rfl
    subst hA
    by_cases hk : (sys.usedFibers cfg.frame).lock.mLock = true
    · simp only [stepCompleter, lockUsedFiber_held sys _ hk]
      exact ⟨h1, h2, h3, h4, h5, h6, h7, h8, h9, h10, h11, h12, h13, h14, h15, h16⟩
    · simp only [Bool.not_eq_true] at hk
      have hw := waiter_found w .lockRecord h1 rfl
      have hrl : recordLocked w .lockRecord = false := by rw [← h5 hw.1]; exact hk
      have hpoll := waiter_at_barrier w h1 hrl
      subst hpoll
      simp only [stepCompleter, lockUsedFiber_free sys _ hk]
      refine ⟨?_, ?_, ?_, ?_, ?_, ?_, ?_, ?_, ?_, ?_, ?_, ?_, ?_, ?_, ?_, ?_⟩
      · exact completer_lockRecord_unlockRecord .polling h1 hrl
      · exact h2
      · exact h3
      · exact h4
      · intro _; simp [recordLocked]
      · intro _; simpa using h6 (by decide)
      · exact h7
      · exact h8
      · intro _; rfl
      · exact h10
      · intro h; cases h
      · simpa only [compatible, entryPresent, recordLocked, WaiterAt.holdsList,
          WaiterAt.inserted, WaiterAt.rescinded, WaiterAt.leaving, WaiterAt.tookFiber,
          CompleterAt.holdsList, CompleterAt.beforeDecrement, CompleterAt.found,
          CompleterAt.erased, CompleterAt.missed, CompleterAt.pastBarrier, CompleterAt.published,
          JobSystem.log, JobSystem.unlockWaitList, JobSystem.waitListAssign,
          JobSystem.waitListErase, JobSystem.switchTo, JobSystem.setTls, JobSystem.setUsedFiber,
          JobSystem.setCounter, JobSystem.unlockUsedFiber, SpinLock.Unlock] using h12
      · exact h13
      · simpa [compatible, entryPresent, recordLocked, WaiterAt.holdsList, WaiterAt.inserted,
          WaiterAt.rescinded, WaiterAt.leaving, WaiterAt.tookFiber, CompleterAt.holdsList,
          CompleterAt.beforeDecrement, CompleterAt.found, CompleterAt.erased, CompleterAt.missed,
          CompleterAt.pastBarrier, CompleterAt.published,
          JobSystem.log, JobSystem.unlockWaitList, JobSystem.waitListAssign,
          JobSystem.waitListErase, JobSystem.switchTo, JobSystem.setTls, JobSystem.setUsedFiber,
          JobSystem.setCounter, JobSystem.unlockUsedFiber, SpinLock.Unlock] using h14
      · exact h15
      · exact h16
  | unlockRecord =>
    have hA : A = cfg.frame := h9 rfl
    subst hA
    have hpoll := waiter_past_barrier w .unlockRecord h1 rfl
    subst hpoll
    simp only [stepCompleter]
    refine ⟨?_, ?_, ?_, ?_, ?_, ?_, ?_, ?_, ?_, ?_, ?_, ?_, ?_, ?_, ?_, ?_⟩
    · exact completer_unlockRecord_publish .polling h1
    · exact h2
    · exact h3
    · exact h4
    · intro _; simp [JobSystem.unlockUsedFiber, JobSystem.setUsedFiber, JobSystem.log,
        SpinLock.Unlock, recordLocked]
    · intro _
      simpa [JobSystem.unlockUsedFiber, JobSystem.setUsedFiber, JobSystem.log] using h6 (by decide)
    · exact h7
    · exact h8
    · intro _; rfl
    · exact h10
    · intro h; cases h
    · simpa only [compatible, entryPresent, recordLocked, WaiterAt.holdsList, WaiterAt.inserted,
        WaiterAt.rescinded, WaiterAt.leaving, WaiterAt.tookFiber, CompleterAt.holdsList,
        CompleterAt.beforeDecrement, CompleterAt.found, CompleterAt.erased, CompleterAt.missed,
        CompleterAt.pastBarrier, CompleterAt.published,
        JobSystem.log, JobSystem.unlockWaitList, JobSystem.waitListAssign,
        JobSystem.waitListErase, JobSystem.switchTo, JobSystem.setTls, JobSystem.setUsedFiber,
        JobSystem.setCounter, JobSystem.unlockUsedFiber, SpinLock.Unlock] using h12
    · exact h13
    · simpa [compatible, entryPresent, recordLocked, WaiterAt.holdsList, WaiterAt.inserted,
        WaiterAt.rescinded, WaiterAt.leaving, WaiterAt.tookFiber, CompleterAt.holdsList,
        CompleterAt.beforeDecrement, CompleterAt.found, CompleterAt.erased, CompleterAt.missed,
        CompleterAt.pastBarrier, CompleterAt.published,
        JobSystem.log, JobSystem.unlockWaitList, JobSystem.waitListAssign,
        JobSystem.waitListErase, JobSystem.switchTo, JobSystem.setTls, JobSystem.setUsedFiber,
        JobSystem.setCounter, JobSystem.unlockUsedFiber, SpinLock.Unlock] using h14
    · exact h15
    · exact h16
  | publish =>
    have hA : A = cfg.frame := h9 rfl
    subst hA
    have hpoll := waiter_past_barrier w .publish h1 rfl
    subst hpoll
    simp only [stepCompleter]
    refine ⟨?_, ?_, ?_, ?_, ?_, ?_, ?_, ?_, ?_, ?_, ?_, ?_, ?_, ?_, ?_, ?_⟩
    · exact completer_publish_switchToWaiter .polling h1
    · exact h2
    · exact h3
    · exact h4
    · exact h5
    · exact h6
    · intro h; cases h
    · intro h; rcases h with h | h <;> cases h
    · intro _; rfl
    · simpa [FiberJobEntry.publish, JobSystem.setTls] using h6 (by decide)
    · intro _; simpa [FiberJobEntry.publish, JobSystem.setTls] using h10
    · exact h12
    · exact h13
    · simpa [compatible, entryPresent, recordLocked, WaiterAt.holdsList, WaiterAt.inserted,
        WaiterAt.rescinded, WaiterAt.leaving, WaiterAt.tookFiber, CompleterAt.holdsList,
        CompleterAt.beforeDecrement, CompleterAt.found, CompleterAt.erased, CompleterAt.missed,
        CompleterAt.pastBarrier, CompleterAt.published,
        JobSystem.log, JobSystem.unlockWaitList, JobSystem.waitListAssign,
        JobSystem.waitListErase, JobSystem.switchTo, JobSystem.setTls, JobSystem.setUsedFiber,
        JobSystem.setCounter, JobSystem.unlockUsedFiber, SpinLock.Unlock] using h14
    · exact h15
    · exact h16
  | switchToWaiter =>
    have hA : A = cfg.frame := h9 rfl
    simp only [stepCompleter]
    refine ⟨?_, ?_, ?_, ?_, ?_, ?_, ?_, ?_, ?_, ?_, ?_, ?_, ?_, ?_, ?_, ?_⟩
    · exact completer_switchToWaiter_waiterResumes w h1
    · exact h2
    · exact h3
    · exact h4
    · exact h5
    · exact h6
    · exact h7
    · exact h8
    · intro _; exact hA
    · exact h10
    · intro _; exact h11 rfl
    · exact h12
    · exact h13
    · simpa [compatible, entryPresent, recordLocked, WaiterAt.holdsList, WaiterAt.inserted,
        WaiterAt.rescinded, WaiterAt.leaving, WaiterAt.tookFiber, CompleterAt.holdsList,
        CompleterAt.beforeDecrement, CompleterAt.found, CompleterAt.erased, CompleterAt.missed,
        CompleterAt.pastBarrier, CompleterAt.published,
        JobSystem.log, JobSystem.unlockWaitList, JobSystem.waitListAssign,
        JobSystem.waitListErase, JobSystem.switchTo, JobSystem.setTls, JobSystem.setUsedFiber,
        JobSystem.setCounter, JobSystem.unlockUsedFiber, SpinLock.Unlock] using h14
    · exact h15
    · exact h16
  | waiterResumes =>
    have hA : A = cfg.frame := h9 rfl
    have hpoll := waiter_past_barrier w .waiterResumes h1 rfl
    subst hpoll
    have hroom := h14 rfl (by decide)
    have e := resumed_done cfg.completerThread sys h12 h10 (h11 rfl) hroom
    simp only [stepCompleter, e]
    refine ⟨?_, ?_, ?_, ?_, ?_, ?_, ?_, ?_, ?_, ?_, ?_, ?_, ?_, ?_, ?_, ?_⟩
    · exact completer_waiterResumes_waiterReturned .polling h1
    · exact h2
    · exact h3
    · exact h4
    · exact h5
    · exact h6
    · intro h; cases h
    · intro h; rcases h with h | h <;> cases h
    · intro _; exact hA
    · simpa using h10
    · intro h; cases h
    · exact PushBack_wf _ h12 _
    · intro h; cases h
    · intro _ h; exact absurd rfl h
    · exact h15
    · exact h16
  | waiterReturned =>
    simp only [stepCompleter]
    exact ⟨h1, h2, h3, h4, h5, h6, h7, h8, h9, h10, h11, h12, h13, h14, h15, h16⟩
  | returned =>
    simp only [stepCompleter]
    exact ⟨h1, h2, h3, h4, h5, h6, h7, h8, h9, h10, h11, h12, h13, h14, h15, h16⟩
  | aborted =>
    simp only [stepCompleter]
    exact ⟨h1, h2, h3, h4, h5, h6, h7, h8, h9, h10, h11, h12, h13, h14, h15, h16⟩

/-- The invariant holds when both calls begin: the counter holds 1, nobody waits on it, the
wait-list lock is free, both threads run a fiber and the pool has a fiber to give. -/
theorem start_inv (cfg : RaceSetup) (s : JobSystem)
    (hfree : s.mWaitListLock.mLock = false) (hone : s.counters cfg.counter = 1)
    (habsent : WaitList.find s.mWaitList cfg.counter = none)
    (hwaiter : (s.tls cfg.waiterThread).tCurrentFiber ≠ 0)
    (hcompleter : (s.tls cfg.completerThread).tCurrentFiber ≠ 0)
    (hpool : s.mFiberPool.WF) (hstock : s.mFiberPool.mHead ≠ s.mFiberPool.mTail) :
    RaceInv cfg (Race.start s) where
  compat := rfl
  listLock := hfree
  counter := hone
  entry := habsent
  record := fun h => absurd rfl h
  recordFiber := fun h => absurd rfl h
  waiterFiber := fun _ => hwaiter
  unlockSlot := fun h => by rcases h with h | h <;> cases h
  awaiting := fun h => by cases h
  completerFiber := hcompleter
  returnSlot := fun h => by cases h
  poolWF := hpool
  poolStock := fun _ => hstock
  poolRoom := fun h => by cases h
  sawFound := fun h => by cases h
  sawNonzero := fun _ h => by cases h

/-- The invariant holds along every interleaving. -/
theorem runRace_inv (cfg : RaceSetup) (v : cfg.Valid) (sched : List Bool) :
    ∀ r : Race, RaceInv cfg r → RaceInv cfg (runRace cfg sched r) := by
  induction sched with
  | nil => intro r h; exact h
  | cons b rest ih =>
    intro r h
    cases b with
    | true => exact ih _ (stepWaiter_inv cfg v r h)
    | false => exact ih _ (stepCompleter_inv cfg v r h)

/-- Positions that can occur together, with the locks as the invariant gives them: the race
is settled or one of the threads can move. -/
theorem settled_or_can_move (w : WaiterAt) (c : CompleterAt) (h : compatible w c = true)
    (hw : w ≠ .workerExit) :
    ((w == .returned && c == .returned) || (w == .polling && c == .waiterReturned) ||
      w.canMove (w.holdsList || c.holdsList) ||
      c.canMove (w.holdsList || c.holdsList) (recordLocked w c)) = true := by
  revert h hw; cases w <;> cases c <;> decide

/-- A waiter thread that can move does move, towards its end. -/
theorem stepWaiter_moves (cfg : RaceSetup) (v : cfg.Valid) (r : Race) (h : RaceInv cfg r)
    (hm : r.waiter.canMove r.sys.mWaitListLock.mLock = true) :
    (stepWaiter cfg r).waiter.rank < r.waiter.rank := by
  obtain ⟨sys, w, c, A, seen, found⟩ := r
  simp only at hm
  cases w with
  | enter =>
    have e := enter_done cfg.waiterThread cfg.frame cfg.counter sys v.counter
      (h.waiterFiber rfl)
    simp [stepWaiter, e, WaiterAt.rank]
  | lockList =>
    have hl : sys.mWaitListLock.mLock = false := by simpa [WaiterAt.canMove] using hm
    simp [stepWaiter, lockWaitList_free sys hl, WaiterAt.rank]
  | relockList =>
    have hl : sys.mWaitListLock.mLock = false := by simpa [WaiterAt.canMove] using hm
    simp [stepWaiter, lockWaitList_free sys hl, WaiterAt.rank]
  | readCounter =>
    simp only [stepWaiter]
    split <;> simp [WaiterAt.rank]
  | findEntry =>
    simp only [stepWaiter]
    split <;> simp [WaiterAt.rank]
  | takeFiber =>
    have e := takeFiber_done cfg.waiterThread cfg.frame sys h.poolWF (h.poolStock rfl)
    simp [stepWaiter, e, WaiterAt.rank]
  | polling => simp [WaiterAt.canMove] at hm
  | workerExit => simp [WaiterAt.canMove] at hm
  | returned => simp [WaiterAt.canMove] at hm
  | aborted => simp [WaiterAt.canMove] at hm
  | insert => simp [stepWaiter, WaiterAt.rank]
  | unlockList => simp [stepWaiter, WaiterAt.rank]
  | eraseEntry => simp [stepWaiter, WaiterAt.rank]
  | unlockReturn => simp [stepWaiter, WaiterAt.rank]
  | unlockContinue => simp [stepWaiter, WaiterAt.rank]
  | switchAway => simp [stepWaiter, WaiterAt.rank]
  | incomingUnlock =>
    simp only [stepWaiter]
    split <;> simp [WaiterAt.rank]

/-- A completer thread that can move does move, towards its end. -/
theorem stepCompleter_moves (cfg : RaceSetup) (r : Race) (h : RaceInv cfg r)
    (hm : r.completer.canMove r.sys.mWaitListLock.mLock
      (r.sys.usedFibers r.awaitingFiber).lock.mLock = true) :
    (stepCompleter cfg r).completer.rank < r.completer.rank := by
  obtain ⟨sys, w, c, A, seen, found⟩ := r
  simp only at hm
  cases c with
  | lockList =>
    have hl : sys.mWaitListLock.mLock = false := by simpa [CompleterAt.canMove] using hm
    simp [stepCompleter, lockWaitList_free sys hl, CompleterAt.rank]
  | lockRecord =>
    have hl : (sys.usedFibers A).lock.mLock = false := by
      simpa [CompleterAt.canMove] using hm
    simp [stepCompleter, lockUsedFiber_free sys A hl, CompleterAt.rank]
  | testCounter =>
    simp only [stepCompleter]
    split <;> simp [CompleterAt.rank]
  | findEntry =>
    simp only [stepCompleter]
    split <;> simp [CompleterAt.rank]
  | eraseEntry =>
    simp only [stepCompleter]
    split <;> simp [CompleterAt.rank]
  | waiterResumes =>
    have hpoll : w = .polling := waiter_past_barrier w .waiterResumes h.compat rfl
    subst hpoll
    have e := resumed_done cfg.completerThread sys h.poolWF h.completerFiber
      (h.returnSlot rfl) (h.poolRoom rfl (fun hh => by cases hh))
    simp [stepCompleter, e, CompleterAt.rank]
  | waiterReturned => simp [CompleterAt.canMove] at hm
  | returned => simp [CompleterAt.canMove] at hm
  | aborted => simp [CompleterAt.canMove] at hm
  | callJob => simp [stepCompleter, CompleterAt.rank]
  | decrement => simp [stepCompleter, CompleterAt.rank]
  | unlockReturn => simp [stepCompleter, CompleterAt.rank]
  | unlockList => simp [stepCompleter, CompleterAt.rank]
  | unlockRecord => simp [stepCompleter, CompleterAt.rank]
  | publish => simp [stepCompleter, CompleterAt.rank]
  | switchToWaiter => simp [stepCompleter, CompleterAt.rank]

/-- A step of one thread leaves the position of the other alone. -/
theorem stepWaiter_completer (cfg : RaceSetup) (r : Race) :
    (stepWaiter cfg r).completer = r.completer := by
  obtain ⟨sys, w, c, A, seen, found⟩ := r
  cases w <;> simp only [stepWaiter] <;> (try split) <;> rfl

theorem stepCompleter_waiter (cfg : RaceSetup) (r : Race) :
    (stepCompleter cfg r).waiter = r.waiter := by
  obtain ⟨sys, w, c, A, seen, found⟩ := r
  cases c <;> simp only [stepCompleter] <;> (try split) <;> rfl

/-- The steps of the race leave the flag `mShutDown` alone. -/
theorem lockWaitList_running (s : JobSystem) :
    s.lockWaitList.state.mShutDown = s.mShutDown := by
  unfold JobSystem.lockWaitList
  split <;> rfl

theorem lockUsedFiber_running (s : JobSystem) (p : Nat) :
    (s.lockUsedFiber p).state.mShutDown = s.mShutDown := by
  unfold JobSystem.lockUsedFiber
  split <;> rfl

theorem enter_running (t frame counter : Nat) (s : JobSystem) :
    (WaitForCounter.enter t frame counter s).state.mShutDown = s.mShutDown := by
  unfold WaitForCounter.enter
  split
  · rfl
  · simp only [JobSystem.lockUsedFiber, JobSystem.setUsedFiber, SpinLock.Lock,
      Function.update_same, Bool.false_eq_true, if_false, Run.bind]
    split <;> rfl

theorem takeFiber_running (t frame : Nat) (s : JobSystem) :
    (WaitForCounter.takeFiber t frame s).state.mShutDown = s.mShutDown := by
  unfold WaitForCounter.takeFiber
  cases hp : s.mFiberPool.PopFront with
  | done r rb => cases r <;> rfl
  | assertFailed rb => rfl
  | spins rb => rfl

theorem resumed_running (t : Nat) (s : JobSystem) :
    (WaitForCounter.resumed t s).state.mShutDown = s.mShutDown := by
  unfold WaitForCounter.resumed
  split
  · rfl
  · split
    · rfl
    · cases hp : s.mFiberPool.PushBack (s.tls t).tFiberToBeAddedToPool <;> rfl

theorem stepWaiter_running (cfg : RaceSetup) (r : Race) :
    (stepWaiter cfg r).sys.mShutDown = r.sys.mShutDown := by
  obtain ⟨sys, w, c, A, seen, found⟩ := r
  cases w with
  | enter =>
    have e := enter_running cfg.waiterThread cfg.frame cfg.counter sys
    simp only [stepWaiter]
    cases h : WaitForCounter.enter cfg.waiterThread cfg.frame cfg.counter sys <;>
      simp only [h, Run.state] at e ⊢
    all_goals exact e
  | lockList =>
    have e := lockWaitList_running sys
    simp only [stepWaiter]
    cases h : sys.lockWaitList <;> simp only [h, Run.state] at e ⊢
    all_goals exact e
  | relockList =>
    have e := lockWaitList_running sys
    simp only [stepWaiter]
    cases h : sys.lockWaitList <;> simp only [h, Run.state] at e ⊢
    all_goals exact e
  | takeFiber =>
    have e := takeFiber_running cfg.waiterThread cfg.frame sys
    simp only [stepWaiter]
    cases h : WaitForCounter.takeFiber cfg.waiterThread cfg.frame sys <;>
      simp only [h, Run.state] at e ⊢
    all_goals exact e
  | findEntry =>
    simp only [stepWaiter]
    split <;> rfl
  | incomingUnlock =>
    simp only [stepWaiter]
    split
    · rfl
    · unfold FiberWorkerEntry.unlockPrevious
      split <;> rfl
  | insert => rfl
  | unlockList => rfl
  | readCounter => rfl
  | eraseEntry => rfl
  | unlockReturn => rfl
  | unlockContinue => rfl
  | switchAway => rfl
  | polling => rfl
  | workerExit => rfl
  | returned => rfl
  | aborted => rfl

theorem stepCompleter_running (cfg : RaceSetup) (r : Race) :
    (stepCompleter cfg r).sys.mShutDown = r.sys.mShutDown := by
  obtain ⟨sys, w, c, A, seen, found⟩ := r
  cases c with
  | lockList =>
    have e := lockWaitList_running sys
    simp only [stepCompleter]
    cases h : sys.lockWaitList <;> simp only [h, Run.state] at e ⊢
    all_goals exact e
  | lockRecord =>
    have e := lockUsedFiber_running sys A
    simp only [stepCompleter]
    cases h : sys.lockUsedFiber A <;> simp only [h, Run.state] at e ⊢
    all_goals exact e
  | waiterResumes =>
    have e := resumed_running cfg.completerThread sys
    simp only [stepCompleter]
    cases h : WaitForCounter.resumed cfg.completerThread sys <;>
      simp only [h, Run.state] at e ⊢
    all_goals exact e
  | findEntry =>
    simp only [stepCompleter]
    split <;> rfl
  | eraseEntry =>
    simp only [stepCompleter]
    split <;> rfl
  | testCounter => rfl
  | callJob => rfl
  | decrement => rfl
  | unlockReturn => rfl
  | unlockList => rfl
  | unlockRecord => rfl
  | publish => rfl
  | switchToWaiter => rfl
  | waiterReturned => rfl
  | returned => rfl
  | aborted => rfl

/-- While no shutdown is pending the pool fiber the waiter switches to stays in its loop. -/
theorem stepWaiter_stays (cfg : RaceSetup) (r : Race) (hrun : r.sys.mShutDown = false)
    (hw : r.waiter ≠ .workerExit) : (stepWaiter cfg r).waiter ≠ .workerExit := by
  obtain ⟨sys, w, c, A, seen, found⟩ := r
  simp only at hrun hw
  cases w with
  | incomingUnlock =>
    simp only [stepWaiter, hrun, Bool.false_eq_true, if_false]
    intro h; cases h
  | workerExit => exact absurd rfl hw
  | enter => simp only [stepWaiter]; split <;> intro h <;> cases h
  | lockList => simp only [stepWaiter]; split <;> intro h <;> cases h
  | relockList => simp only [stepWaiter]; split <;> intro h <;> cases h
  | takeFiber => simp only [stepWaiter]; split <;> intro h <;> cases h
  | findEntry => simp only [stepWaiter]; split <;> intro h <;> cases h
  | readCounter => simp only [stepWaiter]; split <;> intro h <;> cases h
  | insert => intro h; cases h
  | unlockList => intro h; cases h
  | eraseEntry => intro h; cases h
  | unlockReturn => intro h; cases h
  | unlockContinue => intro h; cases h
  | switchAway => intro h; cases h
  | polling => intro h; cases h
  | returned => intro h; cases h
  | aborted => intro h; cases h

/-- Along every interleaving that starts with no shutdown pending, none is pending and the
pool fiber has not left its loop. -/
theorem runRace_running (cfg : RaceSetup) (sched : List Bool) :
    ∀ r : Race, r.sys.mShutDown = false → r.waiter ≠ .workerExit →
      (runRace cfg sched r).sys.mShutDown = false ∧
        (runRace cfg sched r).waiter ≠ .workerExit := by
  induction sched with
  | nil => intro r h1 h2; exact ⟨h1, h2⟩
  | cons b rest ih =>
    intro r h1 h2
    cases b with
    | true =>
      exact ih _ ((stepWaiter_running cfg r).trans h1) (stepWaiter_stays cfg r h1 h2)
    | false =>
      exact ih _ ((stepCompleter_running cfg r).trans h1)
        (by rw [stepCompleter_waiter]; exact h2)

/-- No deadlock: in every state of the invariant in which the pool fiber has not left its
loop, the race is settled or a thread moves towards its end. -/
theorem race_progress (cfg : RaceSetup) (v : cfg.Valid) (r : Race) (h : RaceInv cfg r)
    (hw : r.waiter ≠ .workerExit) :
    r.settled = true ∨ (stepWaiter cfg r).waiter.rank < r.waiter.rank ∨
      (stepCompleter cfg r).completer.rank < r.completer.rank := by
  have hs := settled_or_can_move r.waiter r.completer h.compat hw
  rw [← h.listLock] at hs
  simp only [Bool.or_eq_true] at hs
  rcases hs with ((hs | hs) | hs) | hs
  · exact Or.inl (by simp only [Race.settled, Bool.or_eq_true]; exact Or.inl hs)
  · exact Or.inl (by simp only [Race.settled, Bool.or_eq_true]; exact Or.inr hs)
  · exact Or.inr (Or.inl (stepWaiter_moves cfg v r h hs))
  · refine Or.inr (Or.inr (stepCompleter_moves cfg r h ?_))
    by_cases hc : r.completer = .lockRecord
    · have hf : r.completer.found = true := by rw [hc]; rfl
      have hw := waiter_found r.waiter r.completer h.compat hf
      rw [h.awaiting hf, h.record hw.1]
      exact hs
    · revert hs hc
      cases r.completer <;> simp [CompleterAt.canMove]

/-- No livelock: from every state of the invariant with no shutdown pending some
continuation of the schedule settles the race, within as many steps as the two threads
have moves left. -/
theorem race_settles (cfg : RaceSetup) (v : cfg.Valid) (n : Nat) :
    ∀ r : Race, RaceInv cfg r → r.sys.mShutDown = false → r.waiter ≠ .workerExit →
      r.waiter.rank + r.completer.rank ≤ n →
      ∃ more : List Bool, (runRace cfg more r).settled = true ∧ more.length ≤ n := by
  induction n with
  | zero =>
    intro r h hrun hw hn
    rcases race_progress cfg v r h hw with hs | hs | hs
    · exact ⟨[], hs, Nat.le_refl _⟩
    · omega
    · omega
  | succ n ih =>
    intro r h hrun hw hn
    rcases race_progress cfg v r h hw with hs | hs | hs
    · exact ⟨[], hs, Nat.zero_le _⟩
    · obtain ⟨more, h1, h2⟩ := ih (stepWaiter cfg r) (stepWaiter_inv cfg v r h)
        ((stepWaiter_running cfg r).trans hrun) (stepWaiter_stays cfg r hrun hw)
        (by rw [stepWaiter_completer]; omega)
      exact ⟨true :: more, h1, by simp only [List.length_cons]; omega⟩
    · obtain ⟨more, h1, h2⟩ := ih (stepCompleter cfg r) (stepCompleter_inv cfg v r h)
        ((stepCompleter_running cfg r).trans hrun) (by rw [stepCompleter_waiter]; exact hw)
        (by rw [stepCompleter_waiter]; omega)
      exact ⟨false :: more, h1, by simp only [List.length_cons]; omega⟩

/-! ### The steps of a thread running alone are the sequential function -/

/-- The waiter thread running alone goes through `WaitForCounter` as the sequential
embedding has it: when that completes in `s2`, so many steps of the thread lead to `s2`,
at the return of the self-rescind branch or just after `SwitchToFiber`. -/
theorem waiter_alone (cfg : RaceSetup) (s s2 : JobSystem) (ctl : Ctl)
    (h : WaitForCounter cfg.waiterThread cfg.frame cfg.counter s = .done ctl s2) :
    ∃ n, (runRace cfg (List.replicate n true) (Race.start s)).sys = s2 ∧
      (runRace cfg (List.replicate n true) (Race.start s)).waiter =
        (if ctl = .returned then .returned else .incomingUnlock) := by
  unfold WaitForCounter WaitForCounter.enlist WaitForCounter.recheck
    WaitForCounter.switchAway WaitForCounter.takeFiber at h
  by_cases hc : cfg.counter = 0
  · simp [WaitForCounter.enter, hc, Run.bind] at h
  by_cases hcur : (s.tls cfg.waiterThread).tCurrentFiber = 0
  · simp [WaitForCounter.enter, hc, hcur, JobSystem.setUsedFiber, JobSystem.lockUsedFiber,
      SpinLock.Lock, JobSystem.log, Run.bind] at h
  have e1 := enter_done cfg.waiterThread cfg.frame cfg.counter s hc hcur
  rw [e1] at h
  simp only [Run.bind] at h
  by_cases hl : s.mWaitListLock.mLock = true
  · simp [JobSystem.lockWaitList, SpinLock.Lock, hl, Run.bind] at h
  simp only [Bool.not_eq_true] at hl
  by_cases hzero : s.counters cfg.counter = 0
  · refine ⟨9, ?_⟩
    simp [hzero, hl, JobSystem.lockWaitList, JobSystem.unlockWaitList,
      JobSystem.waitListAssign, JobSystem.waitListErase, JobSystem.log, SpinLock.Lock,
      SpinLock.Unlock, Run.bind, find_assign_self] at h
    obtain ⟨hctl, hs⟩ := h
    subst hctl
    subst hs
    simp [List.replicate, runRace, Race.start, stepWaiter, e1, hzero, hl,
      JobSystem.lockWaitList, JobSystem.unlockWaitList, JobSystem.waitListAssign,
      JobSystem.waitListErase, JobSystem.log, SpinLock.Lock, SpinLock.Unlock,
      find_assign_self]
  · refine ⟨7, ?_⟩
    cases hp : s.mFiberPool.PopFront with
    | done r rb =>
      cases r with
      | none =>
        simp [hzero, hl, hp, JobSystem.lockWaitList, JobSystem.unlockWaitList,
          JobSystem.waitListAssign, JobSystem.log, SpinLock.Lock, SpinLock.Unlock, Run.bind,
          Run.lift] at h
      | some f =>
        simp [hzero, hl, hp, JobSystem.lockWaitList, JobSystem.unlockWaitList,
          JobSystem.waitListAssign, JobSystem.setTls, JobSystem.switchTo, JobSystem.log,
          SpinLock.Lock, SpinLock.Unlock, Run.bind, Run.lift] at h
        obtain ⟨hctl, hs⟩ := h
        subst hctl
        subst hs
        simp [List.replicate, runRace, Race.start, stepWaiter, e1, hzero, hl, hp,
          WaitForCounter.takeFiber, JobSystem.lockWaitList, JobSystem.unlockWaitList,
          JobSystem.waitListAssign, JobSystem.setTls, JobSystem.switchTo, JobSystem.log,
          SpinLock.Lock, SpinLock.Unlock, Run.bind, Run.lift]
    | assertFailed rb =>
      simp [hzero, hl, hp, JobSystem.lockWaitList, JobSystem.unlockWaitList,
        JobSystem.waitListAssign, JobSystem.log, SpinLock.Lock, SpinLock.Unlock, Run.bind,
        Run.lift] at h
    | spins rb =>
      simp [hzero, hl, hp, JobSystem.lockWaitList, JobSystem.unlockWaitList,
        JobSystem.waitListAssign, JobSystem.log, SpinLock.Lock, SpinLock.Unlock, Run.bind,
        Run.lift] at h

/-- The completer thread running alone goes through `FiberJobEntry` as the sequential
embedding has it: when that completes in `s2`, so many steps of the thread lead to `s2`,
at the return or just after `SwitchToFiber`. -/
theorem completer_alone (cfg : RaceSetup) (s s2 : JobSystem) (ctl : Ctl)
    (h : FiberJobEntry cfg.code cfg.completerThread cfg.job s = .done ctl s2) :
    ∃ n, (runRace cfg (List.replicate n false) (Race.start s)).sys = s2 ∧
      (runRace cfg (List.replicate n false) (Race.start s)).completer =
        (if ctl = .returned then .returned else .waiterResumes) := by
  unfold FiberJobEntry at h
  simp only at h
  by_cases hz : (FiberJobEntry.decrement cfg.job.mCounter
      (FiberJobEntry.call cfg.code cfg.job s)).counters cfg.job.mCounter = 0
  · rw [if_pos hz] at h
    unfold FiberJobEntry.handoff at h
    have hl0 : (FiberJobEntry.decrement cfg.job.mCounter
        (FiberJobEntry.call cfg.code cfg.job s)).mWaitListLock = s.mWaitListLock := rfl
    by_cases hl : s.mWaitListLock.mLock = true
    · simp [JobSystem.lockWaitList, SpinLock.Lock, hl0, hl, Run.bind] at h
    simp only [Bool.not_eq_true] at hl
    have hw0 : (FiberJobEntry.decrement cfg.job.mCounter
        (FiberJobEntry.call cfg.code cfg.job s)).mWaitList = s.mWaitList := rfl
    have hu0 : (FiberJobEntry.decrement cfg.job.mCounter
        (FiberJobEntry.call cfg.code cfg.job s)).usedFibers = s.usedFibers := rfl
    cases hf : WaitList.find s.mWaitList cfg.job.mCounter with
    | none =>
      refine ⟨6, ?_⟩
      simp [JobSystem.lockWaitList, SpinLock.Lock, SpinLock.Unlock, hl0, hw0, hl, hf,
        JobSystem.unlockWaitList, JobSystem.log, Run.bind] at h
      obtain ⟨hctl, hs⟩ := h
      subst hctl
      subst hs
      simp [List.replicate, runRace, Race.start, stepCompleter, hz, hl0, hw0, hl, hf,
        JobSystem.lockWaitList, JobSystem.unlockWaitList, JobSystem.log, SpinLock.Lock,
        SpinLock.Unlock]
    | some p =>
      by_cases hfz : (s.usedFibers p).fiber = 0
      · simp [JobSystem.lockWaitList, SpinLock.Lock, hl0, hw0, hu0, hl, hf, hfz,
          JobSystem.log, Run.bind] at h
      by_cases hr : (s.usedFibers p).lock.mLock = true
      · simp [JobSystem.lockWaitList, SpinLock.Lock, hl0, hw0, hu0, hl, hf, hfz, hr,
          JobSystem.log, JobSystem.unlockWaitList, JobSystem.waitListErase,
          JobSystem.lockUsedFiber, Run.bind] at h
      simp only [Bool.not_eq_true] at hr
      refine ⟨11, ?_⟩
      simp [JobSystem.lockWaitList, SpinLock.Lock, SpinLock.Unlock, hl0, hw0, hu0, hl, hf,
        hfz, hr, JobSystem.log, JobSystem.unlockWaitList, JobSystem.waitListErase,
        JobSystem.lockUsedFiber, JobSystem.unlockUsedFiber, JobSystem.setUsedFiber,
        JobSystem.switchTo, Run.bind] at h
      obtain ⟨hctl, hs⟩ := h
      subst hctl
      subst hs
      simp [List.replicate, runRace, Race.start, stepCompleter, hz, hl0, hw0, hu0, hl, hf,
        hfz, hr, JobSystem.lockWaitList, JobSystem.unlockWaitList, JobSystem.waitListErase,
        JobSystem.lockUsedFiber, JobSystem.unlockUsedFiber, JobSystem.setUsedFiber,
        JobSystem.switchTo, JobSystem.log, SpinLock.Lock, SpinLock.Unlock]
  · rw [if_neg hz] at h
    simp only [Run.done.injEq] at h
    obtain ⟨hctl, hs⟩ := h
    subst hctl
    subst hs
    refine ⟨3, ?_⟩
    simp [List.replicate, runRace, Race.start, stepCompleter, hz]

/-! ### A shutdown pending at the switch -/

/-- Once the pool fiber has left its loop with the record locked and the completer stands
at the lock of the record, no step of either thread changes anything. -/
theorem stranded_fixed (cfg : RaceSetup) (r : Race) (hw : r.waiter = .workerExit)
    (hc : r.completer = .lockRecord)
    (hl : (r.sys.usedFibers r.awaitingFiber).lock.mLock = true) (more : List Bool) :
    runRace cfg more r = r := by
  obtain ⟨sys, w, c, A, seen, found⟩ := r
  simp only at hw hc hl
  subst hw
  subst hc
  induction more with
  | nil => rfl
  | cons b rest ih =>
    cases b with
    | true => simpa only [runRace, stepWaiter] using ih
    | false => simpa only [runRace, stepCompleter, lockUsedFiber_held sys A hl] using ih

/-- With a shutdown pending the handoff does not go through.  In `demoStranded` the pool
fiber the waiter switched to has left `FiberWorkerEntry` at line 133 without running lines
135-139, the record at 900 is still locked, the completer has erased the entry and stands
at line 185, and whatever the schedule does next the race stays there, unsettled. -/
theorem race_under_shutdown :
    demoStranded.waiter = .workerExit ∧ demoStranded.completer = .lockRecord ∧
    demoStranded.awaitingFiber = 900 ∧ (demoStranded.sys.usedFibers 900).lock.mLock = true ∧
    demoStranded.sys.counters 50 = 0 ∧
    ∀ more : List Bool, (runRace demoRace more demoStranded).settled = false := by
  refine ⟨by decide, by decide, by decide, by decide, by decide, ?_⟩
  intro more
  rw [stranded_fixed demoRace demoStranded (by decide) (by decide) (by decide) more]
  decide

/-! ## Job functions that return without calling into the scheduler -/

theorem unlockPrevious_current (t : Nat) (s : JobSystem) :
    ((FiberWorkerEntry.unlockPrevious t s).tls t).tCurrentFiber = (s.tls t).tCurrentFiber := by
  unfold FiberWorkerEntry.unlockPrevious
  split
  · simp [JobSystem.unlockUsedFiber, JobSystem.setTls, JobSystem.setUsedFiber, JobSystem.log]
  · rfl

/-- A handoff that returns has found no entry: the thread-local variables are as before. -/
theorem handoff_returned (t counter : Nat) (s s2 : JobSystem)
    (h : FiberJobEntry.handoff t counter s = .done .returned s2) : s2.tls = s.tls := by
  unfold FiberJobEntry.handoff at h
  by_cases hl : s.mWaitListLock.mLock = true
  · simp [lockWaitList_held s hl, Run.bind] at h
  · simp only [Bool.not_eq_true] at hl
    rw [lockWaitList_free s hl] at h
    simp only [Run.bind] at h
    split at h
    · simp only [Run.done.injEq, true_and] at h
      rw [← h]; rfl
    · split at h
      · cases h
      · exfalso
        revert h
        generalize JobSystem.lockUsedFiber _ _ = r
        cases r <;> simp [Run.bind]

/-- For job functions that make no call into the scheduler, a worker step of the thread is
one iteration of the loop of `FiberWorkerEntry` as the sequential embedding has it. -/
theorem workerStep_plain (code : JobCode) (body : JobBody) (t fuel : Nat) (m : WorkerThread)
    (s2 : JobSystem) (hpc : m.pc.isLoopTest = true) (hrun : m.sys.mShutDown = false)
    (hbody : ∀ fn p, body fn p = [])
    (h : FiberWorkerEntry.iteration code t m.sys = .done .returned s2) :
    WorkerThread.workerStep code body t (fuel + 2) m = some (.done () { m with sys := s2 }) := by
  obtain ⟨sys, susp, pc⟩ := m
  cases pc with
  | inJob rest job => cases hpc
  | exited => cases hpc
  | loopTest =>
    simp only at hrun h
    unfold FiberWorkerEntry.iteration at h
    simp only at h
    have hcur := unlockPrevious_current t sys
    cases hp : (FiberWorkerEntry.unlockPrevious t sys).mJobQueue.PopFront with
    | assertFailed rb => simp [hp, Run.lift, Run.bind] at h
    | spins rb => simp [hp, Run.lift, Run.bind] at h
    | done r rb =>
      rw [hp] at h
      cases r with
      | none =>
        simp only [Run.lift, Run.bind, Run.done.injEq, true_and] at h
        subst h
        simp [WorkerThread.workerStep, WorkerThread.untilBack, WorkerThread.step, hrun, hp,
          WorkerThread.run, Run.lift, Run.bind, RunningAt.isLoopTest, hcur]
      | some job =>
        simp only [Run.lift, Run.bind] at h
        unfold FiberJobEntry at h
        simp only at h
        by_cases hz : (FiberJobEntry.decrement job.mCounter (FiberJobEntry.call code job
            { (FiberWorkerEntry.unlockPrevious t sys) with mJobQueue := rb })).counters
            job.mCounter = 0
        · rw [if_pos hz] at h
          have htls := handoff_returned _ _ _ _ h
          have hc2 : (s2.tls t).tCurrentFiber = (sys.tls t).tCurrentFiber := by
            rw [htls]; exact hcur
          simp [WorkerThread.workerStep, WorkerThread.untilBack, WorkerThread.step, hrun, hp,
            WorkerThread.run, Run.lift, Run.bind, RunningAt.isLoopTest, hbody, hz, h, hc2]
        · rw [if_neg hz] at h
          simp only [Run.done.injEq, true_and] at h
          subst h
          have hc2 : ((FiberJobEntry.decrement job.mCounter (FiberJobEntry.call code job
              { (FiberWorkerEntry.unlockPrevious t sys) with mJobQueue := rb })).tls
              t).tCurrentFiber = (sys.tls t).tCurrentFiber := hcur
          simp [WorkerThread.workerStep, WorkerThread.untilBack, WorkerThread.step, hrun, hp,
            WorkerThread.run, Run.lift, Run.bind, RunningAt.isLoopTest, hbody, hz, hc2]

/-! ## Ring buffer: the claims -/

/-- C3: FIFO refinement.  For every capacity `C ≥ 2` and every sequential sequence of
`PushBack` and `PopFront` calls on a new buffer in which no `PushBack` is made while `C - 1`
elements are held, every call completes, the results of the `PopFront` calls are those of
the reference FIFO queue (the oldest element not yet popped, or nothing exactly when the
queue is empty), and the buffer holds the reference queue afterwards.  In the state reached
a further `PopFront` returns nothing and leaves the buffer (head and tail included)
unchanged when nothing is held, and otherwise returns the oldest element. -/
theorem C3_ring_buffer_is_fifo {T : Type} [Inhabited T] (C : Nat) (hC : 2 ≤ C)
    (ops : List (RingOp T)) (hno : neverPushesAt (C - 1) ops [] = true) :
    ∃ rb : AtomicRingBuffer T,
      runRing ops (AtomicRingBuffer.new C) = .done (fifoOutputs ops []) rb ∧
      rb.contents = fifoAfter ops [] ∧
      (rb.held = 0 ↔ rb.PopFront = .done none rb) ∧
      (∀ x xs, rb.contents = x :: xs →
        ∃ rb2, rb.PopFront = .done (some x) rb2 ∧ rb2.contents = xs ∧
          rb2.mTail = (rb.mTail + 1) % C ∧ rb2.mHead = rb.mHead) := by
  have w0 : (AtomicRingBuffer.new C : AtomicRingBuffer T).WF := new_wf C (by omega)
  have hno2 : neverPushesAt ((AtomicRingBuffer.new C : AtomicRingBuffer T).mCapacity - 1) ops
      (AtomicRingBuffer.new C : AtomicRingBuffer T).contents = true := by
    rw [new_contents]; exact hno
  obtain ⟨rb, h1, w, hcap, h4⟩ := runRing_fifo ops _ w0 hno2
  rw [new_contents] at h1 h4
  have hcap : rb.mCapacity = C := hcap
  refine ⟨rb, h1, h4, ?_, ?_⟩
  · constructor
    · intro hz
      exact PopFront_empty rb ((held_zero_iff rb w).mp hz)
    · intro hp
      by_contra hne
      have hd := PopFront_done rb w (fun e => hne ((held_zero_iff rb w).mpr e))
      rw [hd] at hp
      simp at hp
  · intro x xs hx
    have hne : rb.mHead ≠ rb.mTail := by
      intro e
      have hz := (held_zero_iff rb w).mpr e
      rw [← contents_length, hx] at hz
      simp at hz
    have hc := PopFront_contents rb w hne
    rw [hx] at hc
    simp only [List.cons.injEq] at hc
    refine ⟨_, ?_, hc.2.symm, by rw [hcap], rfl⟩
    rw [PopFront_done rb w hne, hc.1]

/-- C3 at a concrete call sequence on a 3-slot buffer that wraps head and tail. -/
theorem C3_ring_buffer_is_fifo_witness :
    2 ≤ 3 ∧ neverPushesAt (3 - 1) wrappingCalls [] = true ∧
      ∃ rb : AtomicRingBuffer Nat,
        runRing wrappingCalls (AtomicRingBuffer.new 3) =
          .done [some 1, some 2, some 3, some 4, none] rb ∧ rb.contents = [5] :=
  ⟨by decide, by decide,
    (C3_ring_buffer_is_fifo 3 (by decide) wrappingCalls (by decide)).imp
      fun _ h => ⟨h.1, h.2.1⟩⟩

/-- C4: usable capacity.  For a buffer constructed with capacity `C ≥ 1` (a `size_t`),
in every state `rb` a sequential client reaches: `Capacity()` is `C - 1`; at most `C - 1`
elements are held; with fewer than `C - 1` held `PushBack` completes and appends the
element; with `C - 1` held it stops at the assertion with slots, head and tail as they
were; and it completes exactly when fewer than `C - 1` elements are held. -/
theorem C4_usable_capacity {T : Type} [Inhabited T] (C : Nat) (hC : 1 ≤ C) (h64 : C < 2 ^ 64)
    (ops : List (RingOp T)) (outs : List (Option T)) (rb : AtomicRingBuffer T)
    (reach : runRing ops (AtomicRingBuffer.new C) = .done outs rb) (v : T) :
    rb.Capacity = C - 1 ∧ rb.held ≤ C - 1 ∧
    (rb.held < C - 1 →
      ∃ rb2, rb.PushBack v = .done () rb2 ∧ rb2.contents = rb.contents ++ [v] ∧
        rb2.held = rb.held + 1) ∧
    (rb.held = C - 1 →
      ∃ rb2, rb.PushBack v = .assertFailed rb2 ∧ rb2.mQueue = rb.mQueue ∧
        rb2.mHead = rb.mHead ∧ rb2.mTail = rb.mTail) ∧
    ((∃ rb2, rb.PushBack v = .done () rb2) ↔ rb.held < C - 1) := by
  obtain ⟨w, hcap⟩ := runRing_wf ops _ outs rb (new_wf C hC) reach
  have hcap : rb.mCapacity = C := hcap
  have hlt := held_lt rb w
  rw [hcap] at hlt
  refine ⟨?_, by omega, ?_, ?_, ?_⟩
  · unfold AtomicRingBuffer.Capacity
    rw [hcap]
    have e : C + 2 ^ 64 - 1 = (C - 1) + 2 ^ 64 := by omega
    rw [e, Nat.add_mod_right]
    exact Nat.mod_eq_of_lt (by omega)
  · intro h
    have room : rb.held + 1 < rb.mCapacity := by omega
    exact ⟨_, PushBack_done rb w v room, PushBack_contents rb w v room,
      PushBack_held rb w v room⟩
  · intro h
    exact ⟨_, PushBack_full rb w v (by omega), rfl, rfl, rfl⟩
  · constructor
    · rintro ⟨rb2, h⟩
      by_contra hn
      rw [PushBack_full rb w v (by omega)] at h
      simp at h
    · intro h
      exact ⟨_, PushBack_done rb w v (by omega)⟩

/-- C4 at a 3-slot buffer after two pushes: it is full, and `Capacity()` is 2. -/
theorem C4_usable_capacity_witness :
    1 ≤ 3 ∧ 3 < 2 ^ 64 ∧
      (runRing [RingOp.push 10, RingOp.push 20] (AtomicRingBuffer.new 3)).state.Capacity
        = 3 - 1 :=
  ⟨by decide, by decide,
    (C4_usable_capacity 3 (by decide) (by decide) [RingOp.push 10, RingOp.push 20] []
      (runRing [RingOp.push 10, RingOp.push 20] (AtomicRingBuffer.new 3)).state rfl 30).1⟩

/-! ## Scheduler: the claims -/

/-- C2: `RunJobs`.  For every array `jobs` (non-null), every `n` (a `uint32_t`), every
non-null counter and every job queue with at least `n` free slots, `RunJobs(jobs, n, counter)`
completes; afterwards `*counter == n` whatever it held before, the job queue holds its
previous content followed by `jobs[0], ..., jobs[n-1]` in order, each with `mCounter` set to
`counter` and `mFunction`, `mParam` as given; the wait list, its lock, the fiber pool, the
thread-local variables, the records, the other counters and the trace (hence no fiber
switch) are unchanged. -/
theorem C2_RunJobs_enqueues_batch (jobs : Nat → JobDecl) (n counter : Nat) (s : JobSystem)
    (hcounter : counter ≠ 0) (_hn : n < 2 ^ 32) (w : s.mJobQueue.WF)
    (room : s.mJobQueue.held + n ≤ s.mJobQueue.mCapacity - 1) :
    ∃ (jobs2 : Nat → JobDecl) (s2 : JobSystem),
      RunJobs (some jobs) n counter s = .done jobs2 s2 ∧
      s2.counters counter = n ∧
      s2.mJobQueue.contents = s.mJobQueue.contents ++
        (List.range n).map (fun i => { (jobs i) with mCounter := counter }) ∧
      (∀ i, i < n → (jobs2 i).mCounter = counter ∧
        (jobs2 i).mFunction = (jobs i).mFunction ∧ (jobs2 i).mParam = (jobs i).mParam) ∧
      s2.mWaitList = s.mWaitList ∧ s2.mWaitListLock = s.mWaitListLock ∧
      s2.mFiberPool = s.mFiberPool ∧ s2.tls = s.tls ∧ s2.usedFibers = s.usedFibers ∧
      s2.trace = s.trace ∧ s2.mShutDown = s.mShutDown ∧
      (∀ c, c ≠ counter → s2.counters c = s.counters c) := by
  have hpos := w.cap_pos
  obtain ⟨rb, h1, _, _, _, h5⟩ := RunJobs_loop_done counter n 0 jobs (s.setCounter counter n) w
    (by simp only [JobSystem.setCounter]; omega)
  refine ⟨fun k => if 0 ≤ k ∧ k < 0 + n then { (jobs k) with mCounter := counter }
      else jobs k,
    { (s.setCounter counter n) with mJobQueue := rb },
    ?_, ?_, ?_, ?_, rfl, rfl, rfl, rfl, rfl, rfl, rfl, ?_⟩
  · simp only [RunJobs, hcounter, if_false]
    exact h1
  · simp [JobSystem.setCounter]
  · rw [h5, List.range_eq_range']; rfl
  · intro i hi
    have a : 0 ≤ i ∧ i < 0 + n := by omega
    simp only [a, and_self, if_true]
  · intro c hc
    simp [JobSystem.setCounter, Function.update_noteq hc]

/-- C7, as stated, fails: for `demoArgs` (`mNumFibers = 4`) the constructor completes and
leaves 3 fibers in the pool, not 4. -/
theorem C7_pool_holds_num_fibers_counterexample :
    1 ≤ demoArgs.mNumFibers ∧
    JobSystem.new demoApi demoArgs = .done () demoSystem ∧
    demoSystem.mFiberPool.contents = [100, 101, 102] ∧
    demoSystem.mFiberPool.held ≠ demoArgs.mNumFibers :=
  ⟨by decide, rfl, by decide, by decide⟩

/-- C7, amended: for every `Args` with `1 ≤ mNumFibers` (a `uint16_t`), the constructor
completes, so the fill loop never fires the overflow assertion, and the fiber pool then
holds `mNumFibers - 1` elements, its `Capacity()`: the handles returned by the successive
calls of `CreateFiber`, one per element, in creation order. -/
theorem C7_constructor_fills_pool (os : FiberApi) (args : Args) (h1 : 1 ≤ args.mNumFibers)
    (h16 : args.mNumFibers < 2 ^ 16) :
    ∃ s : JobSystem, JobSystem.new os args = .done () s ∧
      s.mFiberPool.contents = (List.range (args.mNumFibers - 1)).map os.CreateFiber ∧
      s.mFiberPool.held = args.mNumFibers - 1 ∧
      s.mFiberPool.held = s.mFiberPool.Capacity := by
  obtain ⟨rb, h, w, hcap, hheld, hcont⟩ := new_done os args h1 h16
  refine ⟨_, h, hcont, hheld, ?_⟩
  show rb.held = rb.Capacity
  rw [capacity_eq rb (by omega) (by rw [hcap]; exact lt_trans h16 (by norm_num)), hheld, hcap]

/-- C7, amended, at `demoArgs`. -/
theorem C7_constructor_fills_pool_witness :
    1 ≤ demoArgs.mNumFibers ∧ demoArgs.mNumFibers < 2 ^ 16 ∧
      ∃ s : JobSystem, JobSystem.new demoApi demoArgs = .done () s ∧
        s.mFiberPool.contents = [100, 101, 102] :=
  ⟨by decide, by decide,
    (C7_constructor_fills_pool demoApi demoArgs (by decide) (by decide)).imp
      fun _ h => ⟨h.1, h.2.1⟩⟩

/-- C5, amended: from every state in which `*counter == 0`, the calling thread has a
current fiber, the wait list holds no entry for `counter` and its lock is free,
`WaitForCounter(counter)` run alone returns without popping a fiber and without switching
fibers.  It does touch the wait list: it inserts its entry and erases it again, each under
the wait-list lock.  On return the wait list, its lock, the fiber pool, the job queue, the
thread-local variables and the counters equal their values at entry; the record in the
call frame is left with its lock taken. -/
theorem C5_wait_on_zero_counter (t frame counter : Nat) (s : JobSystem)
    (hcounter : counter ≠ 0) (hzero : s.counters counter = 0)
    (hfiber : (s.tls t).tCurrentFiber ≠ 0)
    (habsent : WaitList.find s.mWaitList counter = none)
    (hfree : s.mWaitListLock.mLock = false) :
    ∃ s2 : JobSystem, WaitForCounter t frame counter s = .done .returned s2 ∧
      s2.mWaitList = s.mWaitList ∧ s2.mWaitListLock = s.mWaitListLock ∧
      s2.mFiberPool = s.mFiberPool ∧ s2.mJobQueue = s.mJobQueue ∧ s2.tls = s.tls ∧
      s2.counters = s.counters ∧
      s2.trace = s.trace ++
        [.acquire (.usedFiber frame), .acquire .waitList, .waitListInsert counter frame,
          .release .waitList, .acquire .waitList, .waitListErase counter, .release .waitList] ∧
      s2.usedFibers frame = { fiber := (s.tls t).tCurrentFiber, lock := { mLock := true } } ∧
      (∀ p, p ≠ frame → s2.usedFibers p = s.usedFibers p) := by
  have hl := lock_eq_of_free _ hfree
  simp [WaitForCounter, WaitForCounter.enter, WaitForCounter.enlist, WaitForCounter.recheck,
    JobSystem.setUsedFiber, JobSystem.lockUsedFiber, JobSystem.lockWaitList,
    JobSystem.unlockWaitList, JobSystem.waitListAssign, JobSystem.waitListErase,
    JobSystem.log, SpinLock.Lock, SpinLock.Unlock, Run.bind, hcounter, hzero, hfiber, hfree,
    find_assign_self, erase_assign _ _ _ habsent]
  exact ⟨hl.symm, fun p hp => Function.update_noteq hp _ _⟩

/-- C5, as stated, fails: in `demoSystem` the counter at 50 is zero, thread 0 has a current
fiber and the wait list has no entry for the counter, yet `WaitForCounter` touches the
wait list: after lines 68-77 the wait list maps the counter to the record, and the trace of
the whole call holds the insertion and the erasure of that entry. -/
theorem C5_touches_wait_list_counterexample :
    demoSystem.counters 50 = 0 ∧ (demoSystem.tls 0).tCurrentFiber ≠ 0 ∧
    WaitList.find demoSystem.mWaitList 50 = none ∧
    WaitList.find ((WaitForCounter.enter 0 900 50 demoSystem).bind fun _ s =>
      WaitForCounter.enlist 900 50 s).state.mWaitList 50 = some 900 ∧
    Event.waitListInsert 50 900 ∈ (WaitForCounter 0 900 50 demoSystem).state.trace ∧
    Event.waitListErase 50 ∈ (WaitForCounter 0 900 50 demoSystem).state.trace :=
  ⟨by decide, by decide, by decide, by decide, by decide, by decide⟩

/-- C5, amended, at `demoSystem`, thread 0, counter 50. -/
theorem C5_wait_on_zero_counter_witness :
    50 ≠ 0 ∧ demoSystem.counters 50 = 0 ∧ (demoSystem.tls 0).tCurrentFiber ≠ 0 ∧
    WaitList.find demoSystem.mWaitList 50 = none ∧ demoSystem.mWaitListLock.mLock = false ∧
    ∃ s2 : JobSystem, WaitForCounter 0 900 50 demoSystem = .done .returned s2 ∧
      s2.mWaitList = demoSystem.mWaitList :=
  ⟨by decide, by decide, by decide, by decide, by decide,
    (C5_wait_on_zero_counter 0 900 50 demoSystem (by decide) (by decide) (by decide)
      (by decide) (by decide)).imp fun _ h => ⟨h.1, h.2.1⟩⟩

/-- C10, as stated, fails: in `demoEnlisted` the re-check reads zero and the entry of the
waiter is still present; `WaitForCounter` returns through the self-rescind branch with the
entry erased and the wait-list lock free, but the lock of the record is still taken. -/
theorem C10_record_lock_stays_taken_counterexample :
    demoEnlisted.counters 51 = 0 ∧ WaitList.find demoEnlisted.mWaitList 51 = some 901 ∧
    (∃ s2, WaitForCounter.recheck 1 901 51 demoEnlisted = .done .returned s2) ∧
    WaitList.find (WaitForCounter.recheck 1 901 51 demoEnlisted).state.mWaitList 51 = none ∧
    (WaitForCounter.recheck 1 901 51 demoEnlisted).state.mWaitListLock.mLock = false ∧
    ((WaitForCounter.recheck 1 901 51 demoEnlisted).state.usedFibers 901).lock.mLock = true :=
  ⟨by decide, by decide, ⟨_, rfl⟩, by decide, by decide, by decide⟩

/-- C10, amended: whenever the re-check reads `*counter == 0` and an entry for the counter
is still present in the wait list (whose lock is free), `WaitForCounter` erases the entry,
releases the wait-list lock and returns, without releasing the lock of the record: on
return the entry is absent, the wait-list lock is free, and every record, the one in the
call frame included, is as it was, so a record lock taken at line 71 is still taken.  The
fiber pool and the thread-local variables are unchanged. -/
theorem C10_self_rescind (t frame counter : Nat) (s : JobSystem) (p : Nat)
    (hzero : s.counters counter = 0)
    (hpresent : WaitList.find s.mWaitList counter = some p)
    (hfree : s.mWaitListLock.mLock = false) :
    ∃ s2 : JobSystem, WaitForCounter.recheck t frame counter s = .done .returned s2 ∧
      WaitList.find s2.mWaitList counter = none ∧
      s2.mWaitList = WaitList.erase s.mWaitList counter ∧
      s2.mWaitListLock.mLock = false ∧
      s2.usedFibers = s.usedFibers ∧
      ((s.usedFibers frame).lock.mLock = true → (s2.usedFibers frame).lock.mLock = true) ∧
      s2.mFiberPool = s.mFiberPool ∧ s2.tls = s.tls ∧
      s2.trace = s.trace ++
        [.acquire .waitList, .waitListErase counter, .release .waitList] := by
  simp [WaitForCounter.recheck, JobSystem.lockWaitList, JobSystem.unlockWaitList,
    JobSystem.waitListErase, JobSystem.log, SpinLock.Lock, SpinLock.Unlock, Run.bind,
    hzero, hfree, hpresent, find_erase_self]

/-- C10, amended, at `demoEnlisted`. -/
theorem C10_self_rescind_witness :
    demoEnlisted.counters 51 = 0 ∧ WaitList.find demoEnlisted.mWaitList 51 = some 901 ∧
    demoEnlisted.mWaitListLock.mLock = false ∧
    ∃ s2 : JobSystem, WaitForCounter.recheck 1 901 51 demoEnlisted = .done .returned s2 ∧
      WaitList.find s2.mWaitList 51 = none :=
  ⟨by decide, by decide, by decide,
    (C10_self_rescind 1 901 51 demoEnlisted 901 (by decide) (by decide) (by decide)).imp
      fun _ h => ⟨h.1, h.2.1⟩⟩

/-- C8: the completion handoff.  Let `FiberJobEntry` on thread `t` decrement the counter
`c = job.mCounter` to zero, the wait-list lock being free.
(a) If the wait list maps `c` to a record `p` (with a non-null fiber, its lock free), then
the entry is erased, the wait-list lock is released before the lock of the record is taken
(order of the trace), `tFiberToBeAddedToPool` becomes the fiber that was current,
`tCurrentFiber` becomes `p->fiber` and `SwitchToFiber(p->fiber)` is called; a second handoff
on the same counter, by any thread, then finds no entry and returns without a switch,
leaving the wait list and the thread-local variables alone.
(b) If the wait list has no entry for `c`, the call returns without a switch, the wait
list and the three thread-local variables are unchanged and the wait-list lock is free. -/
theorem C8_completion_handoff (code : JobCode) (t : Nat) (job : JobDecl) (s : JobSystem)
    (hzero : (FiberJobEntry.decrement job.mCounter
      (FiberJobEntry.call code job s)).counters job.mCounter = 0)
    (hfree : s.mWaitListLock.mLock = false) :
    (∀ p, WaitList.find s.mWaitList job.mCounter = some p → (s.usedFibers p).fiber ≠ 0 →
      (s.usedFibers p).lock.mLock = false →
      ∃ s2 : JobSystem,
        FiberJobEntry code t job s = .done (.switched (s.usedFibers p).fiber) s2 ∧
        s2.mWaitList = WaitList.erase s.mWaitList job.mCounter ∧
        WaitList.find s2.mWaitList job.mCounter = none ∧
        s2.mWaitListLock.mLock = false ∧
        (s2.tls t).tFiberToBeAddedToPool = (s.tls t).tCurrentFiber ∧
        (s2.tls t).tCurrentFiber = (s.usedFibers p).fiber ∧
        (s2.tls t).tFiberToBeUnlockedAfterSwitch = (s.tls t).tFiberToBeUnlockedAfterSwitch ∧
        s2.trace = s.trace ++
          [.call job.mFunction job.mParam, .acquire .waitList, .waitListErase job.mCounter,
            .release .waitList, .acquire (.usedFiber p), .release (.usedFiber p),
            .switchTo (s.usedFibers p).fiber] ∧
        ∀ t2, ∃ s3 : JobSystem,
          FiberJobEntry.handoff t2 job.mCounter s2 = .done .returned s3 ∧
          s3.mWaitList = s2.mWaitList ∧ s3.tls = s2.tls ∧
          s3.trace = s2.trace ++ [.acquire .waitList, .release .waitList]) ∧
    (WaitList.find s.mWaitList job.mCounter = none →
      ∃ s2 : JobSystem, FiberJobEntry code t job s = .done .returned s2 ∧
        s2.mWaitList = s.mWaitList ∧ s2.tls = s.tls ∧ s2.mWaitListLock.mLock = false ∧
        s2.trace = s.trace ++
          [.call job.mFunction job.mParam, .acquire .waitList, .release .waitList]) := by
  have hrun : FiberJobEntry code t job s = FiberJobEntry.handoff t job.mCounter
      (FiberJobEntry.decrement job.mCounter (FiberJobEntry.call code job s)) := by
    unfold FiberJobEntry
    simp only [hzero, if_true]
  constructor
  · intro p hp hfiber hrecord
    have h1 := handoff_present t job.mCounter
      (FiberJobEntry.decrement job.mCounter (FiberJobEntry.call code job s)) p hfree hp hfiber
      hrecord
    refine ⟨_, hrun.trans h1, rfl, find_erase_self _ _, hfree, ?_, ?_, ?_, ?_, ?_⟩
    · simp [FiberJobEntry.decrement, FiberJobEntry.call, JobSystem.setCounter, JobSystem.log]
    · simp [FiberJobEntry.decrement, FiberJobEntry.call, JobSystem.setCounter, JobSystem.log]
    · simp [FiberJobEntry.decrement, FiberJobEntry.call, JobSystem.setCounter, JobSystem.log]
    · simp [FiberJobEntry.decrement, FiberJobEntry.call, JobSystem.setCounter, JobSystem.log]
    · intro t2
      exact ⟨_, handoff_absent t2 job.mCounter _ hfree (find_erase_self _ _), rfl, rfl, rfl⟩
  · intro habsent
    have h1 := handoff_absent t job.mCounter
      (FiberJobEntry.decrement job.mCounter (FiberJobEntry.call code job s)) hfree habsent
    refine ⟨_, hrun.trans h1, rfl, rfl, hfree, ?_⟩
    simp [FiberJobEntry.decrement, FiberJobEntry.call, JobSystem.setCounter, JobSystem.log]

/-- C8 at `demoWaiting`: thread 1 completes the last job of the counter at 50 and hands
its thread over to the waiter, fiber 1. -/
theorem C8_completion_handoff_witness :
    (FiberJobEntry.decrement 50 (FiberJobEntry.call idleCode
      { mFunction := 7, mParam := 0, mCounter := 50 } demoWaiting)).counters 50 = 0 ∧
    demoWaiting.mWaitListLock.mLock = false ∧
    WaitList.find demoWaiting.mWaitList 50 = some 900 ∧
    ∃ s2 : JobSystem,
      FiberJobEntry idleCode 1 { mFunction := 7, mParam := 0, mCounter := 50 } demoWaiting =
        .done (.switched (demoWaiting.usedFibers 900).fiber) s2 ∧
      (demoWaiting.usedFibers 900).fiber = 1 ∧ (s2.tls 1).tFiberToBeAddedToPool = 2 :=
  ⟨by decide, by decide, by decide,
    ((C8_completion_handoff idleCode 1 { mFunction := 7, mParam := 0, mCounter := 50 }
      demoWaiting (by decide) (by decide)).1 900 (by decide) (by decide) (by decide)).imp
      fun _ h => ⟨h.1, by decide, h.2.2.2.2.1.trans (by decide)⟩⟩

/-- C2 at `demoSystem`: three jobs on the counter at 50. -/
theorem C2_RunJobs_enqueues_batch_witness :
    50 ≠ 0 ∧ 3 < 2 ^ 32 ∧
    demoSystem.mJobQueue.held + 3 ≤ demoSystem.mJobQueue.mCapacity - 1 ∧
    ∃ (jobs2 : Nat → JobDecl) (s2 : JobSystem),
      RunJobs (some demoJobs) 3 50 demoSystem = .done jobs2 s2 ∧ s2.counters 50 = 3 :=
  ⟨by decide, by decide, by decide,
    (C2_RunJobs_enqueues_batch demoJobs 3 50 demoSystem (by decide) (by decide)
      ⟨by decide, by decide, by decide, by decide, by decide, by decide⟩ (by decide)).imp
      fun _ h => h.imp fun _ h2 => ⟨h2.1, h2.2.1⟩⟩

/-- C6, as stated, fails: a job function may leave `c` alone and yet call into the
scheduler.  On `demoSystem` (empty job queue) `RunJobs(nestedJobs, 2, c)` submits two jobs
on the counter at 50; neither job function touches that counter, but the function of
`jobs[0]` submits a job on its own counter at 60 and waits for it, as `MainFiber` and
`CalculateFibonacci` do.  The first worker step of thread 0 pops `jobs[0]`; the wait inside
its function switches to the pool fiber 100 (after 3 steps of the thread), which runs
`jobs[1]` to the return of its `FiberJobEntry` (after 5 steps: two functions called) and the
job of the counter at 60, whose handoff switches back.  When `FiberJobEntry` of `jobs[0]`
returns and the worker step is over (8 steps of the thread), three job functions have been
called, not one, and `*c == 0`, not `2 - 1`. -/
theorem C6_nested_wait_counterexample :
    demoSystem.mJobQueue.held = 0 ∧
    (∃ jobs2, RunJobs (some nestedJobs) 2 50 demoSystem = .done jobs2 nestedStart.sys) ∧
    (∀ call ∈ nestedBody 9 0 ++ nestedBody 7 1 ++ nestedBody 7 5, call.counter ≠ 50) ∧
    (∀ f p m, idleCode f p m 50 = m 50) ∧
    WorkerThread.observe 0 50 (WorkerThread.steps idleCode nestedBody 0 3 nestedStart) =
      (true, 100, 2, [(9, 0)]) ∧
    WorkerThread.observe 0 50 (WorkerThread.steps idleCode nestedBody 0 5 nestedStart) =
      (true, 100, 1, [(9, 0), (7, 1)]) ∧
    (WorkerThread.workerStep idleCode nestedBody 0 8 nestedStart).map
        (WorkerThread.observe 0 50) = some (true, 1, 0, [(9, 0), (7, 1), (7, 5)]) ∧
    (WorkerThread.workerStep idleCode nestedBody 0 8 nestedStart).map
        (WorkerThread.observe 0 50) ≠ some (true, 1, 2 - 1, [(9, 0)]) :=
  ⟨by decide, ⟨_, rfl⟩, by decide, fun _ _ _ => rfl, by decide, by decide, by decide,
    by decide⟩

/-- C6, amended: counting down.  Let `RunJobs(jobs, n, c)` submit `n ≥ 1` jobs on an empty
job queue (wait-list lock free, no shutdown), the job functions leaving `c` alone and
returning without a call into the scheduler (`code` is their whole effect, on the memory of
the counters).  Then `RunJobs` completes, and after `k ≤ n` iterations of the worker loop on
a thread `t`: the calls made are exactly those of `jobs[0], ..., jobs[k-1]`, in order, each
once; `*c == n - k`, so the counter goes down by one per completed job and never below
zero; the completion handoff (which begins by taking the wait-list lock) has been entered
once if `k = n` and not at all if `k < n`; and for `k < n` the loop is still running in its
fiber. -/
theorem C6_counter_counts_down (code : JobCode) (t : Nat) (jobs : Nat → JobDecl)
    (n c k : Nat) (s : JobSystem)
    (hn : 1 ≤ n) (hn32 : n < 2 ^ 32) (hc : c ≠ 0) (hk : k ≤ n)
    (w : s.mJobQueue.WF) (hempty : s.mJobQueue.held = 0)
    (hroom : n ≤ s.mJobQueue.mCapacity - 1)
    (hrun : s.mShutDown = false) (hfree : s.mWaitListLock.mLock = false)
    (hcode : ∀ f p m, code f p m c = m c) :
    ∃ (jobs2 : Nat → JobDecl) (s1 : JobSystem),
      RunJobs (some jobs) n c s = .done jobs2 s1 ∧
      callsOf (FiberWorkerEntry code t k s1).state.trace =
        callsOf s.trace ++
          (List.range k).map (fun i => ((jobs i).mFunction, (jobs i).mParam)) ∧
      (FiberWorkerEntry code t k s1).state.counters c = n - k ∧
      waitListLocksOf (FiberWorkerEntry code t k s1).state.trace =
        waitListLocksOf s.trace + (if k = n then 1 else 0) ∧
      (k < n → ∃ s2, FiberWorkerEntry code t k s1 = .done .returned s2) := by
  have hpos := w.cap_pos
  obtain ⟨rb, h1, h2, _, _, h5⟩ := RunJobs_loop_done c n 0 jobs (s.setCounter c n) w
    (by simp only [JobSystem.setCounter]; omega)
  have hnil : s.mJobQueue.contents = [] := by
    apply List.eq_nil_of_length_eq_zero
    rw [contents_length]; exact hempty
  have d : Draining jobs n c 0 (callsOf s.trace) (waitListLocksOf s.trace)
      { (s.setCounter c n) with mJobQueue := rb } := by
    constructor
    · exact h2
    · rw [h5]
      show s.mJobQueue.contents ++ _ = _
      rw [hnil]; rfl
    · simp [JobSystem.setCounter]
    · exact hrun
    · exact hfree
    · simp [JobSystem.setCounter]
    · rfl
  obtain ⟨a1, a2, a3, a4⟩ := worker_loop code t jobs n c _ _ hn32 hcode k 0 _ d (by omega)
  rw [Nat.zero_add] at a1 a2 a3 a4
  refine ⟨fun k => if 0 ≤ k ∧ k < 0 + n then { (jobs k) with mCounter := c } else jobs k,
    { (s.setCounter c n) with mJobQueue := rb }, ?_, a2, a1, ?_, a4⟩
  · simp only [RunJobs, hc, if_false]
    exact h1
  · rw [a3]
    by_cases h : k = n
    · have hk0 : 0 < k := by omega
      simp [h, hk0]
      omega
    · simp [h]

/-- C6, amended, at `demoSystem`: a batch of three jobs on the counter at 50, drained by
thread 0. -/
theorem C6_counter_counts_down_witness :
    1 ≤ 3 ∧ 3 < 2 ^ 32 ∧ 50 ≠ 0 ∧ demoSystem.mJobQueue.held = 0 ∧
    3 ≤ demoSystem.mJobQueue.mCapacity - 1 ∧ demoSystem.mShutDown = false ∧
    demoSystem.mWaitListLock.mLock = false ∧
    ∃ (jobs2 : Nat → JobDecl) (s1 : JobSystem),
      RunJobs (some demoJobs) 3 50 demoSystem = .done jobs2 s1 ∧
      callsOf (FiberWorkerEntry idleCode 0 3 s1).state.trace = [(7, 0), (7, 1), (7, 2)] ∧
      (FiberWorkerEntry idleCode 0 3 s1).state.counters 50 = 0 :=
  ⟨by decide, by decide, by decide, by decide, by decide, by decide, by decide,
    (C6_counter_counts_down idleCode 0 demoJobs 3 50 3 demoSystem (by decide) (by decide)
      (by decide) (by decide) ⟨by decide, by decide, by decide, by decide, by decide, by decide⟩
      (by decide) (by decide) (by decide) (by decide) (fun _ _ _ => rfl)).imp
      fun _ h => h.imp fun _ h2 => ⟨h2.1, h2.2.1, h2.2.2.1⟩⟩

/-- C9, as stated, fails.  In the constructed `demoSystem` (`mNumFibers = 4`, 2 threads)
the pool, running and wait-list fibers number 3 + 2 + 0 = 5, not 4 + 2.  After a wait and
the handoff that answers it, the fiber that handed off is in none of the three sets (it
is held in `tFiberToBeAddedToPool` of thread 0) and the three sets number 2 + 2 + 0 = 4;
once the waiter has pushed it onto the pool they number 5 again. -/
theorem C9_conservation_counterexample :
    JobSystem.new demoApi demoArgs = .done () demoSystem ∧
    (poolFibers demoSystem, runningFibers demoSystem, waitingFibers demoSystem) =
      ([100, 101, 102], [1, 2], []) ∧
    (poolFibers demoSystem).length + (runningFibers demoSystem).length +
      (waitingFibers demoSystem).length ≠ demoArgs.mNumFibers + demoArgs.mNumThreads ∧
    (runActions idleCode demoHandoff demoSystem).map
        (fun s => (poolFibers s, runningFibers s, waitingFibers s, returningFibers s)) =
      some ([101, 102], [1, 2], [], [100]) ∧
    (runActions idleCode (demoHandoff ++ [.resume 0]) demoSystem).map
        (fun s => (poolFibers s, runningFibers s, waitingFibers s, returningFibers s)) =
      some ([101, 102, 100], [1, 2], [], []) :=
  ⟨rfl, by decide, by decide, by decide, by decide⟩

/-- C9, amended: fiber conservation.  Let the job system be constructed for `Args` with
`1 ≤ mNumFibers`, the handles of the fibers created and of the converted threads being
non-null and pairwise distinct.  In every state reached by transitions of the scheduler
(`RunJobs`, a worker-loop iteration, `FiberJobEntry`, `WaitForCounter` up to its return or
switch, the resume of a waiter), each taken atomically, with at most one waiter per counter,
the number of fibers in the pool plus running on a thread plus on the wait list plus held
in a `tFiberToBeAddedToPool` slot equals `(mNumFibers - 1) + mNumThreads`; every thread runs
one fiber; and no fiber is in two of these four sets or twice in one. -/
theorem C9_fiber_conservation (os : FiberApi) (args : Args) (code : JobCode)
    (h1 : 1 ≤ args.mNumFibers) (h16 : args.mNumFibers < 2 ^ 16)
    (hnz : 0 ∉ createdFibers os args) (hdistinct : (createdFibers os args).Nodup)
    (acts : List Action) (s0 s : JobSystem)
    (hnew : JobSystem.new os args = .done () s0)
    (hreach : runActions code acts s0 = some s) :
    (poolFibers s).length + (runningFibers s).length + (waitingFibers s).length +
        (returningFibers s).length = (args.mNumFibers - 1) + args.mNumThreads ∧
    (runningFibers s).length = args.mNumThreads ∧
    (allFibers s).Nodup := by
  obtain ⟨c0, t0⟩ := new_conserved os args s0 h1 h16 hnz hnew
  obtain ⟨c, t⟩ := runActions_conserved code _ acts s0 s c0 hreach
  have hperm : (allFibers s).Perm (createdFibers os args) :=
    List.perm_iff_count.mpr c.counts
  have hlen := hperm.length_eq
  refine ⟨?_, ?_, hperm.nodup_iff.mpr hdistinct⟩
  · unfold allFibers at hlen
    simp only [List.length_append] at hlen
    rw [hlen]
    simp [createdFibers]
  · simp [runningFibers, t, t0]

/-- C9, amended, at `demoSystem` after a wait and the handoff that answers it. -/
theorem C9_fiber_conservation_witness :
    1 ≤ demoArgs.mNumFibers ∧ demoArgs.mNumFibers < 2 ^ 16 ∧
    0 ∉ createdFibers demoApi demoArgs ∧ (createdFibers demoApi demoArgs).Nodup ∧
    JobSystem.new demoApi demoArgs = .done () demoSystem ∧
    runActions idleCode demoHandoff demoSystem = some demoHandedOff ∧
    (poolFibers demoHandedOff).length + (runningFibers demoHandedOff).length +
      (waitingFibers demoHandedOff).length + (returningFibers demoHandedOff).length = 3 + 2 :=
  ⟨by decide, by decide, by decide, by decide, rfl, rfl,
    (C9_fiber_conservation demoApi demoArgs idleCode (by decide) (by decide)
      (by decide) (by decide) demoHandoff demoSystem demoHandedOff rfl rfl).1⟩

/-- C1: no lost wakeup.  A waiter runs `WaitForCounter(c)` on one thread while a worker runs
`FiberJobEntry` for the last job of `c` on another (`*c == 1`, no entry for `c`, the
wait-list lock free, both threads running a fiber, the pool non-empty; the job function
leaves `c` alone).  After every interleaving of their steps:
the completer found the entry at line 164 or the waiter read `*c == 0` at line 79, whenever
both have got that far; the waiter is not switched away with the completer having returned
without resuming it; an entry the completer found is the record of the waiter; no assertion
has fired; the completer is past the lock of the record only when the waiter has switched
away and the pool fiber has released the record.  When moreover no shutdown is pending at
the start (`mShutDown` is false, so the loop of `FiberWorkerEntry` is entered in the pool
fiber): the race is settled (both threads done, the waiter returned from `WaitForCounter`)
or one of the threads can take a step that is not a spin; and some continuation of the
schedule settles the race. -/
theorem C1_no_lost_wakeup (cfg : RaceSetup) (v : cfg.Valid) (s : JobSystem)
    (hfree : s.mWaitListLock.mLock = false) (hone : s.counters cfg.counter = 1)
    (habsent : WaitList.find s.mWaitList cfg.counter = none)
    (hwaiter : (s.tls cfg.waiterThread).tCurrentFiber ≠ 0)
    (hcompleter : (s.tls cfg.completerThread).tCurrentFiber ≠ 0)
    (hpool : s.mFiberPool.WF) (hstock : s.mFiberPool.mHead ≠ s.mFiberPool.mTail)
    (sched : List Bool) :
    (∀ b x, (runRace cfg sched (Race.start s)).entryFound = some b →
      (runRace cfg sched (Race.start s)).counterSeen = some x → b = true ∨ x = 0) ∧
    ¬ ((runRace cfg sched (Race.start s)).waiter.suspended = true ∧
      (runRace cfg sched (Race.start s)).completer = .returned) ∧
    ((runRace cfg sched (Race.start s)).completer.found = true →
      (runRace cfg sched (Race.start s)).awaitingFiber = cfg.frame) ∧
    (runRace cfg sched (Race.start s)).waiter ≠ .aborted ∧
    (runRace cfg sched (Race.start s)).completer ≠ .aborted ∧
    ((runRace cfg sched (Race.start s)).completer.pastBarrier = true →
      (runRace cfg sched (Race.start s)).waiter = .polling) ∧
    (s.mShutDown = false →
      ((runRace cfg sched (Race.start s)).settled = true ∨
        (stepWaiter cfg (runRace cfg sched (Race.start s))).waiter ≠
          (runRace cfg sched (Race.start s)).waiter ∨
        (stepCompleter cfg (runRace cfg sched (Race.start s))).completer ≠
          (runRace cfg sched (Race.start s)).completer) ∧
      ∃ more : List Bool,
        (runRace cfg more (runRace cfg sched (Race.start s))).settled = true) := by
  have h := runRace_inv cfg v sched _
    (start_inv cfg s hfree hone habsent hwaiter hcompleter hpool hstock)
  refine ⟨?_, ?_, h.awaiting, (not_aborted _ _ h.compat).1, (not_aborted _ _ h.compat).2,
    waiter_past_barrier _ _ h.compat, ?_⟩
  · intro b x hb hx
    cases b with
    | true => exact Or.inl rfl
    | false =>
      refine Or.inr ?_
      by_contra hx0
      have hl := (h.sawNonzero x hx hx0).1
      have hn := not_leaving_of_missed _ _ h.compat (h.sawFound hb)
      rw [hn] at hl
      cases hl
  · rintro ⟨hsus, hret⟩
    have hn := not_leaving_of_missed _ _ h.compat (by rw [hret]; rfl)
    revert hsus hn
    cases (runRace cfg sched (Race.start s)).waiter <;> decide
  · intro hrun
    obtain ⟨hrun2, hw⟩ := runRace_running cfg sched (Race.start s) hrun
      (fun hh => by cases hh)
    refine ⟨?_, ?_⟩
    · rcases race_progress cfg v _ h hw with hs | hs | hs
      · exact Or.inl hs
      · exact Or.inr (Or.inl (fun e => by rw [e] at hs; exact Nat.lt_irrefl _ hs))
      · exact Or.inr (Or.inr (fun e => by rw [e] at hs; exact Nat.lt_irrefl _ hs))
    · obtain ⟨more, h1, _⟩ := race_settles cfg v _ _ h hrun2 hw (Nat.le_refl _)
      exact ⟨more, h1⟩

/-- C1 at `demoRace`, where no shutdown is pending: the completer runs up to its test of the
counter, then the waiter runs alone until it returns; the completer can then finish, which
settles the race. -/
theorem C1_no_lost_wakeup_witness :
    demoRaceStart.mWaitListLock.mLock = false ∧ demoRaceStart.counters demoRace.counter = 1 ∧
    WaitList.find demoRaceStart.mWaitList demoRace.counter = none ∧
    (demoRaceStart.tls demoRace.waiterThread).tCurrentFiber ≠ 0 ∧
    (demoRaceStart.tls demoRace.completerThread).tCurrentFiber ≠ 0 ∧
    demoRaceStart.mFiberPool.mHead ≠ demoRaceStart.mFiberPool.mTail ∧
    demoRaceStart.mShutDown = false ∧
    ¬ ((runRace demoRace (List.replicate 3 false ++ List.replicate 9 true)
        (Race.start demoRaceStart)).waiter.suspended = true ∧
      (runRace demoRace (List.replicate 3 false ++ List.replicate 9 true)
        (Race.start demoRaceStart)).completer = .returned) ∧
    ∃ more : List Bool,
      (runRace demoRace more (runRace demoRace (List.replicate 3 false ++ List.replicate 9 true)
        (Race.start demoRaceStart))).settled = true :=
  ⟨by decide, by decide, by decide, by decide, by decide, by decide, by decide,
    (C1_no_lost_wakeup demoRace ⟨by decide, by decide, by decide, rfl, fun _ _ _ => rfl⟩
      demoRaceStart (by decide) (by decide) (by decide) (by decide) (by decide)
      ⟨by decide, by decide, by decide, by decide, by decide, by decide⟩ (by decide)
      (List.replicate 3 false ++ List.replicate 9 true)).2.1,
    ((C1_no_lost_wakeup demoRace ⟨by decide, by decide, by decide, rfl, fun _ _ _ => rfl⟩
      demoRaceStart (by decide) (by decide) (by decide) (by decide) (by decide)
      ⟨by decide, by decide, by decide, by decide, by decide, by decide⟩ (by decide)
      (List.replicate 3 false ++ List.replicate 9 true)).2.2.2.2.2.2 (by decide)).2⟩

end Fibers
